import Mathlib

/-!
# mackerel-plugin-nfs: the counter-diff and rate-derivation engine

A shallow embedding of `lib/nfs.go` (package `mpnfs`).

Modelling conventions

* A Go `float64` is an `F64`: not-a-number, the two infinities, negative zero, and the
  finite values, which are kept as exact rationals.  The special-value rules of IEEE 754
  (`x/0`, `0/0`, `inf - inf`, comparisons with NaN, the sign of a zero result) are the
  ones Go uses; rounding and overflow of finite results are not represented.
* A Go `map[string]float64` is a `Stats`: an association list with pairwise distinct
  keys.  `m[k]` on a missing key is the zero value `0`; the two-valued form
  `v, ok := m[k]` is `lookup`.
* A Go `int64` is an `Int`, wrapped by `wrapInt64` where the source subtracts.
* A function that can hit a run-time panic (index out of range) returns an `Option`, and
  `none` is the panic.
* `strconv.ParseFloat` is a parameter of the parser; a `range` over a Go map visits the
  entries in an order that is a parameter too.
* The tempfile of the snapshot store is a value of `TempFile` whose contents are text; the
  calls of `encoding/json` on it are `jsonEncode` and `jsonDecode`, which write and read the
  JSON text of a map whose values are whole numbers.
-/

namespace MpNfs

/-! ## float64 -/

/-- A Go `float64` value. `fin 0` is `+0`, `nzero` is `-0`. -/
inductive F64 where
  | nan : F64
  | inf (neg : Bool) : F64
  | nzero : F64
  | fin (q : ℚ) : F64
  deriving DecidableEq

namespace F64

/-- The rational value of a finite float (`0` for the values that have none). -/
def toRat : F64 → ℚ
  | fin q => q
  | _ => 0

/-- The sign bit of a numeric value. -/
def signBit : F64 → Bool
  | nan => false
  | inf n => n
  | nzero => true
  | fin q => decide (q < 0)

/-- The finite float with value `q`; a zero result takes the sign `negIfZero`. -/
def mkNum (q : ℚ) (negIfZero : Bool) : F64 :=
  if q = 0 ∧ negIfZero = true then nzero else fin q

/-- Finite values, both zeros included. -/
def isFinite : F64 → Bool
  | nan => false
  | inf _ => false
  | _ => true

/-- Go `math.IsNaN`. -/
def isNaN : F64 → Bool
  | nan => true
  | _ => false

/-- Go `math.IsInf(x, 0)`. -/
def isInf : F64 → Bool
  | inf _ => true
  | _ => false

/-- The two zeros, `+0` and `-0`. -/
def isZero (x : F64) : Bool := x.isFinite && decide (x.toRat = 0)

/-- Unary minus. -/
def neg : F64 → F64
  | nan => nan
  | inf n => inf (!n)
  | nzero => fin 0
  | fin q => if q = 0 then nzero else fin (-q)

/-- Go `x + y` on `float64`. -/
def add : F64 → F64 → F64
  | nan, _ => nan
  | _, nan => nan
  | inf a, inf b => if a = b then inf a else nan
  | inf a, _ => inf a
  | _, inf b => inf b
  | x, y => mkNum (x.toRat + y.toRat) (x.signBit && y.signBit)

/-- Go `x - y` on `float64`. -/
def sub (x y : F64) : F64 := add x (neg y)

/-- Go `x / y` on `float64`. -/
def div : F64 → F64 → F64
  | nan, _ => nan
  | _, nan => nan
  | inf _, inf _ => nan
  | inf a, y => inf (xor a y.signBit)
  | x, inf b => mkNum 0 (xor x.signBit b)
  | x, y =>
    if y.toRat = 0 then
      if x.toRat = 0 then nan else inf (xor x.signBit y.signBit)
    else mkNum (x.toRat / y.toRat) (xor x.signBit y.signBit)

/-- Go `x < y` on `float64`: false as soon as one side is NaN. -/
def lt : F64 → F64 → Bool
  | nan, _ => false
  | _, nan => false
  | inf a, inf b => a && !b
  | inf a, _ => a
  | _, inf b => !b
  | x, y => decide (x.toRat < y.toRat)

/-- Go `x <= y` on `float64`: false as soon as one side is NaN. -/
def le : F64 → F64 → Bool
  | nan, _ => false
  | _, nan => false
  | inf a, inf b => a || !b
  | inf a, _ => a
  | _, inf b => !b
  | x, y => decide (x.toRat ≤ y.toRat)

/-- Go `float64(i)` for an `int64` `i`. -/
def ofInt (i : Int) : F64 := fin (i : ℚ)

/-- The float constant `0`. -/
def zero : F64 := fin 0

instance : Add F64 := ⟨add⟩
instance : Sub F64 := ⟨sub⟩
instance : Div F64 := ⟨div⟩
instance : Inhabited F64 := ⟨zero⟩

end F64

/-! ## map[string]float64 -/

/-- A Go `map[string]float64`. -/
abbrev Stats := AList (fun _ : String => F64)

/-- The Go expression `m[k]`: the zero value when `k` is missing. -/
def Stats.get (m : Stats) (k : String) : F64 := (m.lookup k).getD F64.zero

/-- A map literal, written as a list of pairs (a later pair overrides an earlier one). -/
def Stats.ofList (l : List (String × F64)) : Stats :=
  l.foldl (fun m kv => m.insert kv.1 kv.2) ∅

/-! ## Constants and key construction -/

/-- The eight per-operation counter kinds, in the order of the kernel report. -/
abbrev rpcOperationCounters : List String :=
  ["ops", "trans", "timeouts", "bytes_sent", "bytes_recv", "queue", "rtt", "execute"]

/-- The operations that are retained. -/
abbrev rpcOperations : List String := ["read", "write"]

/-- Go `fmt.Sprintf("%s.%s.%s", a, b, c)`; `fmt.Sprintf("ops.%s.%s", b, c)` is
`sprintf3 "ops" b c`. -/
def sprintf3 (a b c : String) : String := a ++ "." ++ b ++ "." ++ c

/-- Reduce an integer to the `int64` range, as Go arithmetic on `int64` does. -/
def wrapInt64 (i : Int) : Int := (i + 2 ^ 63) % 2 ^ 64 - 2 ^ 63

/-! ## calcDiff and formatValues -/

/-- Go `calcDiff`: the difference, or `0` and an error when it is negative. -/
def calcDiff (value lastValue : F64) (_diffTime : Int) : F64 × Option String :=
  let diff := value - lastValue
  if F64.lt diff F64.zero then (F64.zero, some "counter seems to be reset")
  else (diff, none)

/-- One iteration of `for k, v := range stats` in `formatValues`. -/
def diffStep (lastStat : Stats) (diffTime : Int) (diffStats : Stats)
    (kv : Sigma (fun _ : String => F64)) : Stats :=
  match lastStat.lookup kv.1 with
  | some lastValue => diffStats.insert kv.1 (calcDiff kv.2 lastValue diffTime).1
  | none => diffStats

/-- The map `diffStats` after the first loop of `formatValues`. -/
def diffStatsOf (stats lastStat : Stats) (diffTime : Int) : Stats :=
  stats.entries.foldl (diffStep lastStat diffTime) ∅

/-- The body of `for _, op := range rpcOperations` in `formatValues`. -/
def metricsStep (diffStats : Stats) (diffTime : Int) (device : String)
    (metrics : Stats) (op : String) : Stats :=
  let ops := diffStats.get (sprintf3 rpcOperationCounters[0] device op)
  let retrans := diffStats.get (sprintf3 rpcOperationCounters[1] device op) - ops
  let bytes := diffStats.get (sprintf3 rpcOperationCounters[3] device op) +
    diffStats.get (sprintf3 rpcOperationCounters[4] device op)
  let queueAve := diffStats.get (sprintf3 rpcOperationCounters[5] device op) / ops
  let rttAve := diffStats.get (sprintf3 rpcOperationCounters[6] device op) / ops
  let executeAve := diffStats.get (sprintf3 rpcOperationCounters[7] device op) / ops
  let metrics := metrics.insert (sprintf3 "ops" device op) (ops / F64.ofInt diffTime)
  let metrics := metrics.insert (sprintf3 "throughput" device op) (bytes / F64.ofInt diffTime)
  let bytesOps := bytes / ops
  let metrics := if !bytesOps.isNaN then metrics.insert (sprintf3 "bytes_ops" device op) bytesOps
    else metrics
  let metrics := metrics.insert (sprintf3 "retrans_num" device op) retrans
  let retransRate := retrans / ops
  let metrics := if !retransRate.isNaN then
      metrics.insert (sprintf3 "retrans_rate" device op) (retrans / ops)
    else metrics
  let metrics := if !rttAve.isNaN then metrics.insert (sprintf3 "rtt_ave" device op) rttAve
    else metrics
  let metrics := if !executeAve.isNaN then
      metrics.insert (sprintf3 "execute_ave" device op) executeAve
    else metrics
  let metrics := if !queueAve.isNaN then metrics.insert (sprintf3 "queue_ave" device op) queueAve
    else metrics
  metrics

/-- The body of `for _, device := range devices` in `formatValues`. -/
def deviceStep (diffStats : Stats) (diffTime : Int) (metrics : Stats) (device : String) : Stats :=
  rpcOperations.foldl (metricsStep diffStats diffTime device) metrics

/-- The map `metrics` after the second loop of `formatValues`. -/
def metricsOf (devices : List String) (diffStats : Stats) (diffTime : Int) : Stats :=
  devices.foldl (deviceStep diffStats diffTime) ∅

/-- Go `formatValues`. `now` and `lastTime` are the values of `now.Unix()` and
`lastTime.Unix()`; the result `none` is the `nil` map. -/
def formatValues (devices : List String) (stats : Stats) (now : Int)
    (lastStat : Stats) (lastTime : Int) : Option Stats :=
  let diffTime := wrapInt64 (now - lastTime)
  if diffTime > 600 then none
  else
    let diffStats := diffStatsOf stats lastStat diffTime
    some (metricsOf devices diffStats diffTime)

/-- The eight published metric categories. -/
abbrev metricCategories : List String :=
  ["ops", "throughput", "bytes_ops", "retrans_num", "retrans_rate", "rtt_ave", "execute_ave",
    "queue_ave"]

/-- What one pass of the loop body of `formatValues` stores under category `cat` for
`(device, op)`: `none` when that pass stores nothing there. -/
def published (diffStats : Stats) (diffTime : Int) (cat device op : String) : Option F64 :=
  let ops := diffStats.get (sprintf3 "ops" device op)
  let retrans := diffStats.get (sprintf3 "trans" device op) - ops
  let bytes := diffStats.get (sprintf3 "bytes_sent" device op) +
    diffStats.get (sprintf3 "bytes_recv" device op)
  let guard (v : F64) : Option F64 := if v.isNaN then none else some v
  if cat = "ops" then some (ops / F64.ofInt diffTime)
  else if cat = "throughput" then some (bytes / F64.ofInt diffTime)
  else if cat = "bytes_ops" then guard (bytes / ops)
  else if cat = "retrans_num" then some retrans
  else if cat = "retrans_rate" then guard (retrans / ops)
  else if cat = "rtt_ave" then guard (diffStats.get (sprintf3 "rtt" device op) / ops)
  else if cat = "execute_ave" then guard (diffStats.get (sprintf3 "execute" device op) / ops)
  else if cat = "queue_ave" then guard (diffStats.get (sprintf3 "queue" device op) / ops)
  else none

/-! ## Data of the repository's tests -/

/-- The device list that `parseMountStats` returns for the report of `nfs_test.go`. -/
def testDevices : List String := ["mnt"]

/-- The counters of the `READ:` and `WRITE:` lines of the report of `nfs_test.go`. -/
def testStats : Stats := Stats.ofList
  [("ops.mnt.read", F64.fin 43026), ("trans.mnt.read", F64.fin 43026),
   ("timeouts.mnt.read", F64.fin 0), ("bytes_sent.mnt.read", F64.fin 7228368),
   ("bytes_recv.mnt.read", F64.fin 34778206720), ("queue.mnt.read", F64.fin 1782),
   ("rtt.mnt.read", F64.fin 2197001), ("execute.mnt.read", F64.fin 2206478),
   ("ops.mnt.write", F64.fin 60192), ("trans.mnt.write", F64.fin 60192),
   ("timeouts.mnt.write", F64.fin 0), ("bytes_sent.mnt.write", F64.fin 46259381156),
   ("bytes_recv.mnt.write", F64.fin 7945344), ("queue.mnt.write", F64.fin 4905359),
   ("rtt.mnt.write", F64.fin 1564953), ("execute.mnt.write", F64.fin 6473964)]

/-- A previous snapshot for `testStats`. The two `ops` values and the capture time are the
ones `TestFetchLastValues` asserts; the other counters are sample values. -/
def testLastStats : Stats := Stats.ofList
  [("_lastTime", F64.fin 1536731160),
   ("ops.mnt.read", F64.fin 42906), ("trans.mnt.read", F64.fin 42906),
   ("timeouts.mnt.read", F64.fin 0), ("bytes_sent.mnt.read", F64.fin 7208208),
   ("bytes_recv.mnt.read", F64.fin 34777223680), ("queue.mnt.read", F64.fin 1770),
   ("rtt.mnt.read", F64.fin 2190881), ("execute.mnt.read", F64.fin 2200238),
   ("ops.mnt.write", F64.fin 60012), ("trans.mnt.write", F64.fin 60012),
   ("timeouts.mnt.write", F64.fin 0), ("bytes_sent.mnt.write", F64.fin 46258381156),
   ("bytes_recv.mnt.write", F64.fin 7921584), ("queue.mnt.write", F64.fin 4905179),
   ("rtt.mnt.write", F64.fin 1560453), ("execute.mnt.write", F64.fin 6455964)]

/-- The value of `now.Unix()` in `TestFormatValues`. -/
def testNow : Int := 1536731220

/-- The value of `lastTime.Unix()` in `TestFormatValues`. -/
def testLastTime : Int := 1536731160

/-- A current snapshot in which `ops.mnt.read` has fallen below its previous value (a counter
reset) while `ops.mnt.write` has advanced. -/
def resetStats : Stats := Stats.ofList
  [("ops.mnt.read", F64.fin 5), ("ops.mnt.write", F64.fin 60192)]

/-- A current snapshot that differs from `testLastStats` only in `bytes_sent.mnt.read`, which
has grown by 500: the `ops` diff of `mnt`/`read` is `0`, its byte diff is not. -/
def zeroOpsStats : Stats := testLastStats.insert "bytes_sent.mnt.read" (F64.fin 7208708)

/-! ## Strings: the functions of `strings`, `unicode` and `fmt` that the parser calls

Reports are taken to be valid UTF-8, so a Go string is a Lean `String`. -/

/-- Go `unicode.IsSpace`. -/
def isSpace (c : Char) : Bool :=
  let n := c.toNat
  n == 0x09 || n == 0x0A || n == 0x0B || n == 0x0C || n == 0x0D || n == 0x20 || n == 0x85 ||
    n == 0xA0 || n == 0x1680 || (0x2000 ≤ n && n ≤ 0x200A) || n == 0x2028 || n == 0x2029 ||
    n == 0x202F || n == 0x205F || n == 0x3000

/-- Put a finished token in front of the tokens that follow it; an empty one is no token. -/
def pushTok (t : List Char) (ts : List (List Char)) : List (List Char) :=
  if t.isEmpty then ts else t :: ts

/-- Split at white space, from the right: the characters of the token that is still open at
the left end, and the tokens that are complete. -/
def splitAux : List Char → List Char × List (List Char)
  | [] => ([], [])
  | c :: cs =>
    let r := splitAux cs
    if isSpace c then ([], pushTok r.1 r.2) else (c :: r.1, r.2)

/-- Go `strings.Fields` on a list of characters. -/
def fieldsL (l : List Char) : List (List Char) :=
  pushTok (splitAux l).1 (splitAux l).2

/-- Go `strings.Fields`. -/
def fields (s : String) : List String := (fieldsL s.data).map String.mk

/-- Go `strings.HasPrefix`. -/
def hasPrefix (s pre : String) : Bool := pre.data.isPrefixOf s.data

/-- Substring test on lists of characters. -/
def containsL : List Char → List Char → Bool
  | [], sub => sub.isEmpty
  | c :: cs, sub => sub.isPrefixOf (c :: cs) || containsL cs sub

/-- Go `strings.Contains`. -/
def contains (s sub : String) : Bool := containsL s.data sub.data

/-- Drop the characters that satisfy `p` at both ends. -/
def trimL (p : Char → Bool) (l : List Char) : List Char :=
  ((l.dropWhile p).reverse.dropWhile p).reverse

/-- Go `strings.TrimSpace`. -/
def trimSpace (s : String) : String := String.mk (trimL isSpace s.data)

/-- Go `strings.Trim(s, "/")`. -/
def trimSlash (s : String) : String := String.mk (trimL (fun c => c == '/') s.data)

/-- Go `strings.Replace(s, "/", "_", -1)`. -/
def replaceSlash (s : String) : String :=
  String.mk (s.data.map (fun c => if c == '/' then '_' else c))

/-- The device identifier of a mount path:
`strings.Replace(strings.Trim(k, "/"), "/", "_", -1)`. -/
def sanitize (k : String) : String := replaceSlash (trimSlash k)

/-- Go `strings.ToLower`, on the ASCII operation names it is applied to. -/
def toLower (s : String) : String := String.mk (s.data.map Char.toLower)

/-- The bytes of a Go string. -/
def utf8 (s : String) : List UInt8 := s.data.flatMap String.utf8EncodeChar

/-! ## parseRPCLine and parseMountStats

`none` is a run-time panic. `strconv.ParseFloat(s, 64)` is the parameter `parseFloat`. -/

/-- The loop `for i, record := range record[1:]` of `parseRPCLine`, from index `i` on. The
result carries the map, which is updated in place, and the error that is returned. -/
def rpcFields (parseFloat : String → Except String F64) (device op : String) :
    Nat → List String → Stats → Option (Stats × Option String)
  | _, [], stats => some (stats, none)
  | i, tok :: toks, stats =>
    match parseFloat tok with
    | .error e => some (stats, some e)
    | .ok v =>
      match rpcOperationCounters[i]? with
      | none => none
      | some kind =>
        rpcFields parseFloat device op (i + 1) toks
          (stats.insert (sprintf3 kind device (toLower op)) v)

/-- Go `parseRPCLine`. -/
def parseRPCLine (parseFloat : String → Except String F64) (stats : Stats) (device : String)
    (record : List String) : Option (Stats × Option String) :=
  match record with
  | [] => none
  | r0 :: rest =>
    if (utf8 r0).isEmpty then none
    else
      let op := (utf8 r0).dropLast
      if op = utf8 "READ" then rpcFields parseFloat device "READ" 0 rest stats
      else if op = utf8 "WRITE" then rpcFields parseFloat device "WRITE" 0 rest stats
      else some (stats, none)

/-- A Go `map[string][]string`. -/
abbrev Mounts := AList (fun _ : String => List String)

/-- The variables of the first loop of `parseMountStats`. -/
structure ScanState where
  /-- The map `mounts`. -/
  mounts : Mounts
  /-- The variable `key`. -/
  key : String
  /-- The slice `values`. -/
  values : List String

/-- The state before the first line is read. -/
def ScanState.init : ScanState := ⟨∅, "", []⟩

/-- The two statements that end the body of the first loop:
`values = append(values, strings.TrimSpace(line))` and `mounts[key] = values`. -/
def ScanState.push (st : ScanState) (line : String) : ScanState :=
  { st with
    values := st.values ++ [trimSpace line]
    mounts := st.mounts.insert st.key (st.values ++ [trimSpace line]) }

/-- The body of `for scanner.Scan()` in `parseMountStats`, for the line `line`. -/
def scanStep (st : ScanState) (line : String) : Option ScanState :=
  let record := fields line
  if hasPrefix line "no device mounted" || record.length == 0 then some st
  else if record.head? = some "device" then
    match record[7]? with
    | none => none
    | some fstype =>
      if !(contains fstype "nfs" || contains fstype "nfs4") then some st
      else
        let st := if st.key != record.getD 4 "" then
            { st with values := [], key := record.getD 4 "" }
          else st
        some (st.push line)
  else some (st.push line)

/-- The body of `for _, s := range v` in `parseMountStats`; the state is `rpcFlag` and the
map `stats`. -/
def blockStep (parseFloat : String → Except String F64) (device : String)
    (st : Bool × Stats) (s : String) : Option (Bool × Stats) :=
  let record := fields s
  match record with
  | [] => some st
  | r0 :: _ =>
    if !st.1 && r0 != "RPC" then some st
    else if r0 = "RPC" ∨ r0 = "xprt:" ∨ r0 = "per-op" then some (true, st.2)
    else
      match parseRPCLine parseFloat st.2 device record with
      | none => none
      | some r => some (true, r.1)

/-- The body of `for k, v := range mounts` in `parseMountStats`; the state is the slice
`devices` and the map `stats`. -/
def mountStep (parseFloat : String → Except String F64) (st : List String × Stats)
    (kv : Sigma (fun _ : String => List String)) : Option (List String × Stats) :=
  let device := sanitize kv.1
  match kv.2.foldlM (blockStep parseFloat device) (false, st.2) with
  | none => none
  | some r => some (st.1 ++ [device], r.2)

/-- The result of `parseMountStats`: `none` is a panic, `some (.error e)` the returned error,
`some (.ok (devices, stats))` the returned device list and counter map. -/
abbrev ParseResult := Option (Except String (List String × Stats))

/-- Go `parseMountStats`, on the lines that the scanner yields. A `range` over a Go map
visits each entry once in an order that is not specified: `order` is that order, a
permutation of the entries. -/
def parseMountStats (parseFloat : String → Except String F64)
    (order : List (Sigma (fun _ : String => List String)) →
      List (Sigma (fun _ : String => List String)))
    (lines : List String) : ParseResult :=
  match lines.foldlM scanStep ScanState.init with
  | none => none
  | some st =>
    if st.mounts.entries.length == 0 then
      some (.error "no nfs mount points were found")
    else
      match (order st.mounts.entries).foldlM (mountStep parseFloat) ([], ∅) with
      | none => none
      | some r => some (.ok r)

/-- `strconv.ParseFloat` on the tokens that are unsigned decimal integers, the form of the
counters in a kernel report; every other token is rejected by this instance. -/
def parseFloatDigits (s : String) : Except String F64 :=
  if !s.data.isEmpty && s.data.all Char.isDigit then
    .ok (F64.fin ((s.data.foldl (fun n c => 10 * n + (c.toNat - '0'.toNat)) 0 : Nat) : ℚ))
  else .error ("strconv.ParseFloat: parsing " ++ s ++ ": invalid syntax")

/-- The report `str` of `nfs_test.go`, line by line as the scanner yields it. -/
def testReport : List String :=
  ["",
   "device rootfs mounted on / with fstype rootfs",
   "device proc mounted on /proc with fstype proc",
   "device sysfs mounted on /sys with fstype sysfs",
   "device devtmpfs mounted on /dev with fstype devtmpfs",
   "device devpts mounted on /dev/pts with fstype devpts",
   "device tmpfs mounted on /dev/shm with fstype tmpfs",
   "device /dev/vda1 mounted on / with fstype ext4",
   "device /proc/bus/usb mounted on /proc/bus/usb with fstype usbfs",
   "device none mounted on /proc/sys/fs/binfmt_misc with fstype binfmt_misc",
   "device sunrpc mounted on /var/lib/nfs/rpc_pipefs with fstype rpc_pipefs",
   "device 0.0.0.0:/data/ mounted on /mnt with fstype nfs4 statvers=1.1",
   "\topts:\trw,vers=4,rsize=1048576,wsize=1048576,namlen=255,acregmin=3,acregmax=60,acdirmin=30,acdirmax=60,hard,proto=tcp,port=0,timeo=600,retrans=2,sec=sys,clientaddr=0.0.0.0,minorversion=0,local_lock=none",
   "\tage:\t1969800",
   "\tcaps:\tcaps=0xfff7,wtmult=512,dtsize=32768,bsize=0,namlen=255",
   "\tnfsv4:\tbm0=0xfdffafff,bm1=0xf9be3e,acl=0x0",
   "\tsec:\tflavor=1,pseudoflavor=1",
   "\tevents:\t1228468 14061231 16253 66023 700996 13686 14862276 16991407 0 10404 11302229 1197709 1401992 4487 4488 4488 0 17701 0 0 16991407 1 0 0 0 0 0",
   "\tbytes:\t49181634820 46217103388 0 0 34775617317 46248035739 8494353 11302229",
   "\tRPC iostats version: 1.0  p/v: 100003/4 (nfs)",
   "\txprt:\ttcp 707 0 1 0 28 2019539 2019539 0 2533424 0 259 756960 513900",
   "\tper-op statistics",
   "\t        NULL: 0 0 0 0 0 0 0 0",
   "\t        READ: 43026 43026 0 7228368 34778206720 1782 2197001 2206478",
   "\t       WRITE: 60192 60192 0 46259381156 7945344 4905359 1564953 6473964",
   "\t      COMMIT: 8991 8991 0 1366632 539460 8952 120129 129368",
   "\t        OPEN: 13756 13756 0 3445016 5309260 297 10093 10719",
   "\tOPEN_CONFIRM: 1896 1896 0 303360 128928 13 358 398",
   "\t OPEN_NOATTR: 0 0 0 0 0 0 0 0",
   "\tOPEN_DOWNGRADE: 0 0 0 0 0 0 0 0",
   "\t       CLOSE: 13756 13756 0 2421056 1815792 230 2858 3364",
   "\t     SETATTR: 1 1 0 196 264 0 1 1",
   "\t      FSINFO: 1 1 0 144 108 0 0 0",
   "\t       RENEW: 0 0 0 0 0 0 0 0",
   "\t SETCLIENTID: 0 0 0 0 0 0 0 0",
   "\tSETCLIENTID_CONFIRM: 0 0 0 0 0 0 0 0",
   "\t        LOCK: 0 0 0 0 0 0 0 0",
   "\t       LOCKT: 0 0 0 0 0 0 0 0",
   "\t       LOCKU: 0 0 0 0 0 0 0 0",
   "\t      ACCESS: 427753 427753 0 68384968 111215780 1477 67864 86237",
   "\t     GETATTR: 1228469 1228469 0 186582800 299746436 4844 193841 242274",
   "\t      LOOKUP: 17390 17390 0 3111992 2139560 171 4121 4670",
   "\t LOOKUP_ROOT: 0 0 0 0 0 0 0 0",
   "\t      REMOVE: 1536 1536 0 247200 110572 7 9267 9305",
   "\t      RENAME: 4287 4287 0 908860 462996 36 6500 6616",
   "\t        LINK: 0 0 0 0 0 0 0 0",
   "\t     SYMLINK: 0 0 0 0 0 0 0 0",
   "\t      CREATE: 5455 5455 0 1135820 1767420 28 18146 18516",
   "\t    PATHCONF: 1 1 0 140 72 0 0 0",
   "\t      STATFS: 117476 117476 0 16916544 13627216 2452 46563 70896",
   "\t    READLINK: 0 0 0 0 0 0 0 0",
   "\t     READDIR: 35882 35882 0 6315208 79909924 130 8432 9320",
   "\t SERVER_CAPS: 2 2 0 280 176 0 0 0",
   "\t DELEGRETURN: 8391 8391 0 1443252 973356 139 3377 3796",
   "\t      GETACL: 0 0 0 0 0 0 0 0",
   "\t      SETACL: 0 0 0 0 0 0 0 0",
   "\tFS_LOCATIONS: 0 0 0 0 0 0 0 0",
   "\tRELEASE_LOCKOWNER: 0 0 0 0 0 0 0 0",
   "\t     SECINFO: 0 0 0 0 0 0 0 0",
   "\t EXCHANGE_ID: 0 0 0 0 0 0 0 0",
   "\tCREATE_SESSION: 0 0 0 0 0 0 0 0",
   "\tDESTROY_SESSION: 0 0 0 0 0 0 0 0",
   "\t    SEQUENCE: 0 0 0 0 0 0 0 0",
   "\tGET_LEASE_TIME: 0 0 0 0 0 0 0 0",
   "\tRECLAIM_COMPLETE: 0 0 0 0 0 0 0 0",
   "\t   LAYOUTGET: 0 0 0 0 0 0 0 0",
   "\tGETDEVICEINFO: 0 0 0 0 0 0 0 0",
   "\tLAYOUTCOMMIT: 0 0 0 0 0 0 0 0",
   "\tLAYOUTRETURN: 0 0 0 0 0 0 0 0",
   "\tFREE_STATEID: 0 0 0 0 0 0 0 0"]

/-! ## The kinds of line that the first loop of `parseMountStats` tells apart -/

/-- A `device` line whose eighth field, the file-system type, contains `nfs`: the line is
retained and opens the lines of its mount. -/
def isNfsDevice (line : String) : Bool :=
  !hasPrefix line "no device mounted" && (fields line).head? == some "device" &&
    match (fields line)[7]? with
    | some fstype => contains fstype "nfs" || contains fstype "nfs4"
    | none => false

/-- A `device` line with fewer than eight fields: `record[7]` is out of range. -/
def isShortDevice (line : String) : Bool :=
  !hasPrefix line "no device mounted" && (fields line).head? == some "device" &&
    (fields line).length < 8

/-- A line that the first loop passes over: a blank line, a line that starts with
`no device mounted`, or a `device` line whose file-system type does not contain `nfs`. -/
def isSkipped (line : String) : Bool :=
  hasPrefix line "no device mounted" || (fields line).isEmpty ||
    ((fields line).head? == some "device" &&
      match (fields line)[7]? with
      | some fstype => !(contains fstype "nfs" || contains fstype "nfs4")
      | none => false)

/-- A line that is appended to the lines of the current mount without changing the mount:
not blank, not starting with `no device mounted`, and not a `device` line. -/
def isBlockLine (line : String) : Bool :=
  !hasPrefix line "no device mounted" && !(fields line).isEmpty &&
    (fields line).head? != some "device"

/-- The mount path of a `device` line, `record[4]`. -/
def mountPath (line : String) : String := (fields line).getD 4 ""

/-- The statement `if key != record[4] { values = []string{}; key = record[4] }` of the first
loop, for a retained `device` line with mount path `p`. -/
def ScanState.enter (st : ScanState) (p : String) : ScanState :=
  if st.key != p then { st with values := [], key := p } else st

/-- The device list of a successful parse. -/
def ParseResult.devices (r : ParseResult) : Option (List String) :=
  match r with
  | some (.ok x) => some x.1
  | _ => none

/-- The counter map of a successful parse. -/
def ParseResult.stats (r : ParseResult) : Option Stats :=
  match r with
  | some (.ok x) => some x.2
  | _ => none

/-- The error of a failed parse. -/
def ParseResult.error (r : ParseResult) : Option String :=
  match r with
  | some (.error e) => some e
  | _ => none

/-- A report without an NFS `device` line, with one line after its only `device` line. -/
def strayLineReport : List String :=
  ["device /dev/vda1 mounted on / with fstype ext4", "\tage:\t1969800"]

/-- A `device` line that is cut short after its mount path: five fields. -/
def shortDeviceLine : String := "device 0.0.0.0:/data/ mounted on /mnt"

/-- The line is an operation line for the operation `name`: its first token is `name`
followed by one more byte (the colon, in a kernel report). -/
def isOpLine (name : String) (line : String) : Bool :=
  match fields line with
  | [] => false
  | r0 :: _ => (utf8 r0).dropLast == utf8 name

/-- The line keeps `parseRPCLine` inside the table of counter kinds: if it is a `READ` or
`WRITE` line, it has at most eight fields after the operation name. -/
def rpcWidthOk (line : String) : Bool :=
  (!isOpLine "READ" line && !isOpLine "WRITE" line) || (fields line).length ≤ 9

/-- The value of the variable `key` after the first loop has read `lines`: the mount path of
the last retained `device` line, and `""` when there is none. -/
def currentKey (lines : List String) : String :=
  lines.foldl (fun k l => if isNfsDevice l then mountPath l else k) ""

/-- The state of the first loop while the lines of a single mount `p` are read: `values` are
the lines stored so far and `mounts` holds them under `p`. -/
def ScanState.single (p : String) (vals : List String) : ScanState :=
  ⟨AList.singleton p vals, p, vals⟩

deriving instance DecidableEq for Except

/-- A report of three lines: the NFS `device` line, the `RPC` marker and the `READ` line of the
report of `nfs_test.go`. -/
def minimalReport : List String :=
  ["device 0.0.0.0:/data/ mounted on /mnt with fstype nfs4 statvers=1.1",
   "\tRPC iostats version: 1.0  p/v: 100003/4 (nfs)",
   "\t        READ: 43026 43026 0 7228368 34778206720 1782 2197001 2206478"]

/-- A second `READ` line, with other values. -/
def secondReadLine : String := "\t        READ: 1 1 1 1 1 1 1 1"

/-- The NFS `device` line of `minimalReport`, then a non-NFS `device` line, then the `RPC` marker
and the `READ` line. -/
def interleavedReport : List String :=
  ["device 0.0.0.0:/data/ mounted on /mnt with fstype nfs4 statvers=1.1",
   "device /dev/vda1 mounted on / with fstype ext4",
   "\tRPC iostats version: 1.0  p/v: 100003/4 (nfs)",
   "\t        READ: 43026 43026 0 7228368 34778206720 1782 2197001 2206478"]

/-- The stored string `s` is a line of `lines` that the first loop did not pass over, read
while the variable `key` was `k`. -/
def Origin (lines : List String) (k s : String) : Prop :=
  ∃ pre line post, lines = pre ++ line :: post ∧ isSkipped line = false ∧
    s = trimSpace line ∧ currentKey (pre ++ [line]) = k

/-- What holds of the variables of the first loop after it has read `lines`. -/
structure ScanInv (lines : List String) (st : ScanState) : Prop where
  /-- The variable `key`. -/
  key_eq : st.key = currentKey lines
  /-- The slice `values`. -/
  values_origin : ∀ s ∈ st.values, Origin lines st.key s
  /-- The map `mounts`. -/
  mounts_origin : ∀ k vals, st.mounts.lookup k = some vals →
    vals ≠ [] ∧ ∀ s ∈ vals, Origin lines k s

/-- The counter `v` under the key `K` was read by `parseRPCLine` from a token of a line of
`lines`, for the device of the mount that was current at that line. -/
def Provenance (parseFloat : String → Except String F64) (lines : List String) (K : String)
    (v : F64) : Prop :=
  ∃ (pre : List String) (line : String) (post : List String) (r0 : String)
    (toks : List String) (name : String) (i : Nat) (tok kind : String),
    lines = pre ++ line :: post ∧
    fields line = r0 :: toks ∧ (name = "READ" ∨ name = "WRITE") ∧
    (utf8 r0).dropLast = utf8 name ∧ toks[i]? = some tok ∧ parseFloat tok = .ok v ∧
    rpcOperationCounters[i]? = some kind ∧
    K = sprintf3 kind (sanitize (currentKey (pre ++ [line]))) (toLower name)

/-- The fields of a `READ` line whose third counter is not numeric. -/
def malformedRecord : List String := ["READ:", "43026", "43026", "x", "7228368"]

/-! ## GraphDefinition -/

/-- The units of `go-mackerel-plugin` that `GraphDefinition` names. -/
inductive GraphUnit where
  | iops
  | bytesPerSecond
  | bytes
  | integer
  | percentage
  deriving DecidableEq

/-- An `mp.Metrics` value: its `Name` and `Label`. -/
structure Metrics where
  /-- The field `Name`. -/
  name : String
  /-- The field `Label`. -/
  label : String
  deriving DecidableEq

/-- An `mp.Graphs` value: its `Label`, `Unit` and `Metrics`. -/
structure Graphs where
  /-- The field `Label`. -/
  label : String
  /-- The field `Unit`. -/
  unit : GraphUnit
  /-- The field `Metrics`. -/
  metrics : List Metrics
  deriving DecidableEq

/-- Go `MetricKeyPrefix`: the prefix, `nfs` when it is empty. -/
def MetricKeyPrefix (pfx : String) : String := if pfx = "" then "nfs" else pfx

/-- Go `strings.Replace(s, "nfs", "NFS", -1)` on a list of characters. -/
def replaceNfsL : List Char → List Char
  | 'n' :: 'f' :: 's' :: rest => 'N' :: 'F' :: 'S' :: replaceNfsL rest
  | c :: rest => c :: replaceNfsL rest
  | [] => []

/-- Go `strings.Replace(s, "nfs", "NFS", -1)`. -/
def replaceNfs (s : String) : String := String.mk (replaceNfsL s.data)

/-- The two metrics that every graph of `GraphDefinition` has. -/
def readWriteMetrics : List Metrics := [⟨"read", "reads"⟩, ⟨"write", "writes"⟩]

/-- Go `GraphDefinition`: the map literal it returns, entry by entry. `strings.ToTitle` is the
parameter `toTitle`, and `pfx` is the field `Prefix` of the plugin. -/
def GraphDefinition (toTitle : String → String) (pfx : String) : List (String × Graphs) :=
  let labelPrefix := toTitle (replaceNfs (MetricKeyPrefix pfx))
  [("ops.#", ⟨labelPrefix ++ " Operations", GraphUnit.iops, readWriteMetrics⟩),
   ("throughput.#", ⟨labelPrefix ++ " Throughput", GraphUnit.bytesPerSecond, readWriteMetrics⟩),
   ("bytes_ops.#", ⟨labelPrefix ++ " Byte Per Operations", GraphUnit.bytes, readWriteMetrics⟩),
   ("retrans_num.#", ⟨labelPrefix ++ " Retrans Num", GraphUnit.integer, readWriteMetrics⟩),
   ("retrans_rate.#", ⟨labelPrefix ++ " Retrans Rate", GraphUnit.percentage, readWriteMetrics⟩),
   ("rtt_ave.#", ⟨labelPrefix ++ " RTT Average (ms)", GraphUnit.integer, readWriteMetrics⟩),
   ("execute_ave.#", ⟨labelPrefix ++ " Execute Average (ms)", GraphUnit.integer,
      readWriteMetrics⟩),
   ("queue_ave.#", ⟨labelPrefix ++ " Queue Average (ms)", GraphUnit.integer, readWriteMetrics⟩)]

/-- The previous snapshot `testLastStats` without a baseline for `trans.mnt.read`. -/
def noTransBaseline : Stats := testLastStats.erase "trans.mnt.read"

/-- The fields of a `READ` line of a newer kernel report, which has nine counters. -/
def nineFieldRecord : List String :=
  ["READ:", "43026", "43026", "0", "7228368", "34778206720", "1782", "2197001", "2206478", "0"]

/-- A report with two NFS mounts, `/a/b` and `/a_b`. -/
def collidingReport : List String :=
  ["device server:/x mounted on /a/b with fstype nfs4 statvers=1.1",
   "device server:/y mounted on /a_b with fstype nfs4 statvers=1.1"]

/-! ## The snapshot store: saveValues and fetchLastValues -/

/-- Go `int64(x)` for a `float64` `x`: truncation toward zero. For NaN, the infinities and the
values outside the `int64` range the result is implementation-specific; it is the smallest
`int64` here, as on amd64. -/
def F64.toInt64 : F64 → Int
  | F64.fin q =>
    let t : Int := if 0 ≤ q then q.num / (q.den : Int) else -((-q.num) / (q.den : Int))
    if -2 ^ 63 ≤ t ∧ t < 2 ^ 63 then t else -2 ^ 63
  | F64.nzero => 0
  | _ => -2 ^ 63

/-- The tempfile, as `os.Open` finds it; its contents are text. -/
inductive TempFile where
  | missing : TempFile
  | unreadable (err : String) : TempFile
  | content (c : String) : TempFile
  deriving DecidableEq

/-- A value that the JSON model renders: a whole number of size at most `2^53`, or `-0`. For
these values `float64` is exact and the text that `encoding/json` writes is the decimal
expansion. -/
def F64.isWhole : F64 → Bool
  | F64.fin q => decide (q.den = 1 ∧ q.num.natAbs ≤ 2 ^ 53)
  | F64.nzero => true
  | _ => false

/-- The decimal digits of `n` in front of `acc`, most significant first; `fuel` bounds the
number of digits. -/
def digitsAux : Nat → Nat → List Char → List Char
  | 0, _, acc => acc
  | fuel + 1, n, acc =>
    if n < 10 then Char.ofNat (48 + n) :: acc
    else digitsAux fuel (n / 10) (Char.ofNat (48 + n % 10) :: acc)

/-- The decimal expansion of a natural number. -/
def natDigits (n : Nat) : List Char := digitsAux (n + 1) n []

/-- The number that a run of decimal digits denotes. -/
def parseNat (ds : List Char) : Nat := ds.foldl (fun a c => 10 * a + (c.toNat - 48)) 0

/-- One hexadecimal digit, in lower case. -/
def hexDigit (n : Nat) : Char := if n < 10 then Char.ofNat (48 + n) else Char.ofNat (87 + n)

/-- The value of a hexadecimal digit of either case. -/
def hexVal (c : Char) : Option Nat :=
  if 48 ≤ c.toNat ∧ c.toNat ≤ 57 then some (c.toNat - 48)
  else if 97 ≤ c.toNat ∧ c.toNat ≤ 102 then some (c.toNat - 87)
  else if 65 ≤ c.toNat ∧ c.toNat ≤ 70 then some (c.toNat - 55)
  else none

/-- How `encoding/json` writes one character of a string, with the HTML escaping that an
`Encoder` has by default: the quote and the backslash behind a backslash, newline, carriage
return and tab as `\n`, `\r`, `\t`, the other control characters, `<`, `>`, `&` and the two
separators U+2028 and U+2029 as `\u` and four hexadecimal digits, every other character as
itself. (From Go 1.22 on, backspace and form feed are written `\b` and `\f`; `readString`
reads both forms.) -/
def escapeChar (c : Char) : List Char :=
  if c = '"' then ['\\', '"']
  else if c = '\\' then ['\\', '\\']
  else if c = '\n' then ['\\', 'n']
  else if c = '\r' then ['\\', 'r']
  else if c = '\t' then ['\\', 't']
  else if c.toNat < 32 ∨ c = '<' ∨ c = '>' ∨ c = '&' ∨ c.toNat = 8232 ∨ c.toNat = 8233 then
    ['\\', 'u', hexDigit (c.toNat / 4096), hexDigit (c.toNat / 256 % 16),
      hexDigit (c.toNat / 16 % 16), hexDigit (c.toNat % 16)]
  else [c]

/-- A JSON string literal: the escaped characters between two quotes. -/
def quote (s : String) : List Char := '"' :: (s.data.flatMap escapeChar ++ ['"'])

/-- Where the reader of a string literal stands: in plain text, behind a backslash, or inside
a `\u` escape with `left` digits to go and the value `acc` read so far. -/
inductive StrState where
  | plain : StrState
  | esc : StrState
  | hex (left acc : Nat) : StrState

/-- Read a string literal from behind its opening quote: the characters it denotes (`out`
holds them in reverse) and the text behind the closing quote. A control character inside the
literal, an unknown escape and a missing closing quote are syntax errors (`none`); so is, in
this model, a `\u` escape of a UTF-16 surrogate, which `encoding/json` would pair up or
replace. -/
def readString : StrState → List Char → List Char → Option (List Char × List Char)
  | _, _, [] => none
  | StrState.plain, out, c :: rest =>
    if c = '"' then some (out.reverse, rest)
    else if c = '\\' then readString StrState.esc out rest
    else if c.toNat < 32 then none
    else readString StrState.plain (c :: out) rest
  | StrState.esc, out, c :: rest =>
    if c = '"' ∨ c = '\\' ∨ c = '/' then readString StrState.plain (c :: out) rest
    else if c = 'b' then readString StrState.plain (Char.ofNat 8 :: out) rest
    else if c = 'f' then readString StrState.plain (Char.ofNat 12 :: out) rest
    else if c = 'n' then readString StrState.plain ('\n' :: out) rest
    else if c = 'r' then readString StrState.plain ('\r' :: out) rest
    else if c = 't' then readString StrState.plain ('\t' :: out) rest
    else if c = 'u' then readString (StrState.hex 4 0) out rest
    else none
  | StrState.hex left acc, out, c :: rest =>
    match hexVal c with
    | none => none
    | some v =>
      if left ≤ 1 then
        if 55296 ≤ acc * 16 + v ∧ acc * 16 + v ≤ 57343 then none
        else readString StrState.plain (Char.ofNat (acc * 16 + v) :: out) rest
      else readString (StrState.hex (left - 1) (acc * 16 + v)) out rest

/-- The text `encoding/json` writes for a `float64`. NaN and the infinities are an error. A
whole number of size at most `2^53` is written as its decimal expansion and `-0` as `-0`
(`strconv.AppendFloat(b, f, 'f', -1, 64)`). The other finite values need the shortest digits
that read back as the same `float64`, which exact rationals do not determine: the model does
not render them, and says so in the error. -/
def jsonNumber : F64 → Except String (List Char)
  | F64.nan => .error "json: unsupported value: NaN"
  | F64.inf false => .error "json: unsupported value: +Inf"
  | F64.inf true => .error "json: unsupported value: -Inf"
  | F64.nzero => .ok ['-', '0']
  | F64.fin q =>
    if q.den = 1 ∧ q.num.natAbs ≤ 2 ^ 53 then
      .ok (if q.num < 0 then '-' :: natDigits q.num.natAbs else natDigits q.num.natAbs)
    else .error "not rendered by the model: a fraction or a number above 2^53"

/-- One member of a JSON object: `"key":value`. -/
def jsonMember (e : Sigma (fun _ : String => F64)) : Except String (List Char) :=
  match jsonNumber e.2 with
  | .error err => .error err
  | .ok v => .ok (quote e.1 ++ ':' :: v)

/-- The members of an object in the order of the list, or the error of the first value that
cannot be written. -/
def jsonMembers : List (Sigma (fun _ : String => F64)) → Except String (List (List Char))
  | [] => .ok []
  | e :: es =>
    match jsonMember e with
    | .error err => .error err
    | .ok t =>
      match jsonMembers es with
      | .error err => .error err
      | .ok ts => .ok (t :: ts)

/-- The members of an object, with commas between them. -/
def joinMembers : List (List Char) → List Char
  | [] => []
  | [m] => m
  | m :: ms => m ++ ',' :: joinMembers ms

/-- Go `json.NewEncoder(f).Encode(values)` for a `map[string]float64`: the members in the order
of their keys between braces, and a newline; or the error of the first value that cannot be
written. -/
def jsonEncode (m : Stats) : Except String String :=
  match jsonMembers (m.entries.insertionSort (fun a b => a.1 ≤ b.1)) with
  | .error err => .error err
  | .ok ms => .ok (String.mk ('{' :: (joinMembers ms ++ ['}', '\n'])))

/-- JSON white space. -/
def isJsonSpace (c : Char) : Bool := c = ' ' ∨ c = '\t' ∨ c = '\r' ∨ c = '\n'

/-- Skip the white space between two tokens. -/
def skipWs (cs : List Char) : List Char := cs.dropWhile isJsonSpace

/-- Read a JSON number into a `float64`, as `strconv.ParseFloat` does for the whole numbers
of size at most `2^53`: an optional minus sign and decimal digits without a superfluous leading
zero. A fraction, an exponent or a larger number is rounded by `ParseFloat`, which exact
rationals do not follow: the model does not read them, and says so in the error. A text that
starts no number (a string, `true`, `null`, an array, an object) is a value of another type,
which the model does not read either. -/
def readNumber (cs : List Char) : Except String (F64 × List Char) :=
  let neg := cs.head? = some '-'
  let body := if neg then cs.tail else cs
  let ds := body.takeWhile Char.isDigit
  let rest := body.dropWhile Char.isDigit
  if ds = [] then .error "not read by the model: a value that is not a number"
  else if ds.head? = some '0' ∧ 1 < ds.length then
    .error "invalid character after object key:value pair"
  else if rest.head? = some '.' ∨ rest.head? = some 'e' ∨ rest.head? = some 'E' then
    .error "not read by the model: a fraction or an exponent"
  else if 2 ^ 53 < parseNat ds then .error "not read by the model: a number above 2^53"
  else if neg then
    .ok (if parseNat ds = 0 then F64.nzero else F64.fin (-(parseNat ds : ℚ)), rest)
  else .ok (F64.fin (parseNat ds : ℚ), rest)

/-- Read the members of an object from behind `{` or `,` and store them in `acc`, a later
member of the same key replacing an earlier one; `fuel` bounds the number of members. -/
def readMembers : Nat → List Char → Stats → Except String Stats
  | 0, _, _ => .error "unexpected end of JSON input"
  | fuel + 1, cs, acc =>
    match skipWs cs with
    | [] => .error "unexpected end of JSON input"
    | c :: r1 =>
      if c ≠ '"' then .error "invalid character looking for beginning of object key string"
      else
        match readString StrState.plain [] r1 with
        | none => .error "invalid string literal"
        | some (k, r2) =>
          match skipWs r2 with
          | [] => .error "unexpected end of JSON input"
          | c2 :: r3 =>
            if c2 ≠ ':' then .error "invalid character after object key"
            else
              match readNumber (skipWs r3) with
              | .error err => .error err
              | .ok (v, r4) =>
                match skipWs r4 with
                | [] => .error "unexpected end of JSON input"
                | c3 :: r5 =>
                  if c3 = ',' then readMembers fuel r5 (acc.insert (String.mk k) v)
                  else if c3 = '}' then .ok (acc.insert (String.mk k) v)
                  else .error "invalid character after object key:value pair"

/-- Go `json.NewDecoder(f).Decode(&stats)` into an empty map, for the texts that `jsonEncode`
writes and their variations in white space and escapes: the map afterwards, and the error. The
first JSON value of the text is read and what follows it is left alone; an empty text is the
error `EOF`; `null` leaves the map empty. On an error the map of the model is empty, as it is
in Go after a syntax error. -/
def jsonDecode (text : String) : Stats × Option String :=
  match skipWs text.data with
  | [] => (∅, some "EOF")
  | c :: r =>
    if c = '{' then
      match skipWs r with
      | [] => (∅, some "unexpected EOF")
      | c2 :: r2 =>
        if c2 = '}' then (∅, none)
        else
          match readMembers text.data.length (c2 :: r2) ∅ with
          | .error err => (∅, some err)
          | .ok m => (m, none)
    else if ('n' :: 'u' :: 'l' :: 'l' :: []).isPrefixOf (c :: r) then (∅, none)
    else (∅, some "not read by the model: a value that is not an object")

/-- Go `saveValues`. `createErr` is the error of `os.Create`, if any; `now` is `now.Unix()`.
The result is the map `values`, which is updated in place, the tempfile afterwards and the
returned error. The file is created empty, and nothing is written to it when the encoding
fails. -/
def saveValues (file : TempFile) (createErr : Option String) (values : Stats) (now : Int) :
    Stats × TempFile × Option String :=
  match createErr with
  | some e => (values, file, some e)
  | none =>
    let values := values.insert "_lastTime" (F64.ofInt now)
    match jsonEncode values with
    | .error e => (values, TempFile.content "", some e)
    | .ok c => (values, TempFile.content c, none)

/-- Go `fetchLastValues`. `clock` is `time.Now().Unix()`; the result is the map (`nil` is the
empty map), `lastTime.Unix()` and the returned error. -/
def fetchLastValues (file : TempFile) (clock : Int) : Stats × Int × Option String :=
  match file with
  | TempFile.missing => (∅, clock, none)
  | TempFile.unreadable e => (∅, clock, some e)
  | TempFile.content c =>
    let r := jsonDecode c
    (r.1, F64.toInt64 (r.1.get "_lastTime"), r.2)

/-- The counters of the record that `TestFetchLastValues` reads. -/
def testRecord : Stats :=
  Stats.ofList [("ops.mnt.read", F64.fin 42906), ("ops.mnt.write", F64.fin 60012)]

/-- A counter of the kernel report held in a `float64`: a non-negative whole number of at most
`2^64`. Differences, sums and quotients of such values stay far inside the `float64` range. -/
def F64.isCounter : F64 → Bool
  | F64.fin q => decide (0 ≤ q ∧ q ≤ 2 ^ 64 ∧ q.den = 1)
  | _ => false

/-- A current snapshot in which the counter `ops.mnt.read` is `+Inf` (the value
`strconv.ParseFloat` returns for the field `Inf`); all other counters are those of
`testStats`. -/
def infOpsStats : Stats := testStats.insert "ops.mnt.read" (F64.inf false)

/-! ## Lemmas: keys -/

theorem dot_split {a a' x x' : List Char} (ha : '.' ∉ a) (ha' : '.' ∉ a')
    (h : a ++ '.' :: x = a' ++ '.' :: x') : a = a' ∧ x = x' := by
  induction a generalizing a' with
  | nil =>
    cases a' with
    | nil => simpa using h
    | cons c cs =>
      simp only [List.nil_append, List.cons_append, List.cons.injEq] at h
      exact absurd (h.1 ▸ List.mem_cons_self _ _) ha'
  | cons b bs ih =>
    cases a' with
    | nil =>
      simp only [List.nil_append, List.cons_append, List.cons.injEq] at h
      exact absurd (h.1 ▸ List.mem_cons_self _ _) ha
    | cons c cs =>
      simp only [List.cons_append, List.cons.injEq] at h
      have := ih (fun hm => ha (List.mem_cons_of_mem _ hm))
        (fun hm => ha' (List.mem_cons_of_mem _ hm)) h.2
      exact ⟨by rw [h.1, this.1], this.2⟩

theorem sprintf3_data (a b c : String) :
    (sprintf3 a b c).data = a.data ++ '.' :: (b.data ++ '.' :: c.data) := by
  simp [sprintf3, String.data_append]

theorem sprintf3_inj {a a' b b' c c' : String} (ha : '.' ∉ a.data) (ha' : '.' ∉ a'.data)
    (hc : '.' ∉ c.data) (hc' : '.' ∉ c'.data) (h : sprintf3 a b c = sprintf3 a' b' c') :
    a = a' ∧ b = b' ∧ c = c' := by
  have h1 := congrArg String.data h
  rw [sprintf3_data, sprintf3_data] at h1
  obtain ⟨e1, h2⟩ := dot_split ha ha' h1
  have h3 := congrArg List.reverse h2
  simp only [List.reverse_append, List.reverse_cons, List.append_assoc, List.singleton_append] at h3
  obtain ⟨e3, e2⟩ := dot_split (by simpa using hc) (by simpa using hc') h3
  refine ⟨String.ext e1, String.ext (List.reverse_injective e2), String.ext (List.reverse_injective e3)⟩

theorem lookup_insert_ite (m : Stats) (k k' : String) (v : F64) :
    (m.insert k' v).lookup k = if k = k' then some v else m.lookup k := by
  by_cases h : k = k'
  · subst h; simp
  · simp [h, AList.lookup_insert_ne h]

theorem key_eq_iff {a a' b b' c c' : String} (ha : a ∈ metricCategories)
    (ha' : a' ∈ metricCategories) (hc : c ∈ rpcOperations) (hc' : c' ∈ rpcOperations) :
    sprintf3 a b c = sprintf3 a' b' c' ↔ a = a' ∧ b = b' ∧ c = c' := by
  constructor
  · intro h
    refine sprintf3_inj ?_ ?_ ?_ ?_ h
    · simp only [metricCategories, List.mem_cons, List.mem_singleton, List.not_mem_nil, or_false] at ha
      rcases ha with h | h | h | h | h | h | h | h <;> subst h <;> decide
    · simp only [metricCategories, List.mem_cons, List.mem_singleton, List.not_mem_nil, or_false] at ha'
      rcases ha' with h | h | h | h | h | h | h | h <;> subst h <;> decide
    · simp only [rpcOperations, List.mem_cons, List.mem_singleton, List.not_mem_nil, or_false] at hc
      rcases hc with h | h <;> subst h <;> decide
    · simp only [rpcOperations, List.mem_cons, List.mem_singleton, List.not_mem_nil, or_false] at hc'
      rcases hc' with h | h <;> subst h <;> decide
  · rintro ⟨rfl, rfl, rfl⟩; rfl

theorem lookup_ite_insert (m : Stats) (c : Prop) [Decidable c] (k k' : String) (v : F64) :
    (if c then m.insert k' v else m).lookup k = if c ∧ k = k' then some v else m.lookup k := by
  by_cases hc : c <;> simp [hc, lookup_insert_ite]

theorem metricsStep_lookup (ds : Stats) (T : Int) (m : Stats) {cat o o' : String} (d d' : String)
    (hcat : cat ∈ metricCategories) (ho : o ∈ rpcOperations) (ho' : o' ∈ rpcOperations) :
    (metricsStep ds T d' m o').lookup (sprintf3 cat d o) =
      if d = d' ∧ o = o' then
        (published ds T cat d o).orElse (fun _ => m.lookup (sprintf3 cat d o))
      else m.lookup (sprintf3 cat d o) := by
  have K : ∀ a' : String, a' ∈ metricCategories →
      (sprintf3 cat d o = sprintf3 a' d' o' ↔ cat = a' ∧ d = d' ∧ o = o') :=
    fun a' ha' => key_eq_iff hcat ha' ho ho'
  have K1 := K "ops" (by decide)
  have K2 := K "throughput" (by decide)
  have K3 := K "bytes_ops" (by decide)
  have K4 := K "retrans_num" (by decide)
  have K5 := K "retrans_rate" (by decide)
  have K6 := K "rtt_ave" (by decide)
  have K7 := K "execute_ave" (by decide)
  have K8 := K "queue_ave" (by decide)
  simp only [metricsStep, List.getElem_cons_zero, List.getElem_cons_succ, lookup_ite_insert,
    lookup_insert_ite, K1, K2, K3, K4, K5, K6, K7, K8]
  by_cases hdo : d = d' ∧ o = o'
  · obtain ⟨rfl, rfl⟩ := hdo
    simp only [metricCategories, List.mem_cons, List.mem_singleton, List.not_mem_nil, or_false] at hcat
    rcases hcat with h | h | h | h | h | h | h | h <;> subst h <;>
      simp [published] <;> split <;> simp_all
  · have h' : ¬ (d = d' ∧ o = o') := hdo
    simp [hdo]

/-! ## Lemmas: the two loops of formatValues -/

theorem deviceStep_lookup (ds : Stats) (T : Int) (m : Stats) {cat o : String} (d d' : String)
    (hcat : cat ∈ metricCategories) (ho : o ∈ rpcOperations) :
    (deviceStep ds T m d').lookup (sprintf3 cat d o) =
      if d = d' then (published ds T cat d o).orElse (fun _ => m.lookup (sprintf3 cat d o))
      else m.lookup (sprintf3 cat d o) := by
  simp only [deviceStep, List.foldl_cons, List.foldl_nil]
  rw [metricsStep_lookup ds T _ d d' hcat ho (by decide),
    metricsStep_lookup ds T _ d d' hcat ho (by decide)]
  by_cases hd : d = d'
  · simp only [rpcOperations, List.mem_cons, List.mem_singleton, List.not_mem_nil, or_false] at ho
    rcases ho with h | h <;> subst h <;> simp [hd]
  · simp [hd]

theorem foldl_deviceStep_lookup (ds : Stats) (T : Int) {cat o : String} (d : String)
    (hcat : cat ∈ metricCategories) (ho : o ∈ rpcOperations) (devices : List String) (m : Stats) :
    (devices.foldl (deviceStep ds T) m).lookup (sprintf3 cat d o) =
      if d ∈ devices then (published ds T cat d o).orElse (fun _ => m.lookup (sprintf3 cat d o))
      else m.lookup (sprintf3 cat d o) := by
  induction devices generalizing m with
  | nil => simp
  | cons d' rest ih =>
    rw [List.foldl_cons, ih, deviceStep_lookup ds T m d d' hcat ho]
    by_cases h1 : d = d' <;> by_cases h2 : d ∈ rest <;>
      cases hp : published ds T cat d o <;> simp [h1, h2, hp]

/-- The metric set holds, for a device of the list, exactly what the loop body stores. -/
theorem metricsOf_lookup (devices : List String) (ds : Stats) (T : Int) {cat o : String}
    (d : String) (hcat : cat ∈ metricCategories) (ho : o ∈ rpcOperations) :
    (metricsOf devices ds T).lookup (sprintf3 cat d o) =
      if d ∈ devices then published ds T cat d o else none := by
  rw [metricsOf, foldl_deviceStep_lookup ds T d hcat ho]
  cases hp : published ds T cat d o <;> simp

theorem foldl_diffStep_lookup (lastStat : Stats) (T : Int) (k : String)
    (l : List (Sigma (fun _ : String => F64))) (hl : l.NodupKeys) (acc : Stats) :
    (l.foldl (diffStep lastStat T) acc).lookup k =
      match l.dlookup k, lastStat.lookup k with
      | some v, some lv => some (calcDiff v lv T).1
      | _, _ => acc.lookup k := by
  induction l generalizing acc with
  | nil => simp
  | cons kv t ih =>
    obtain ⟨k', v'⟩ := kv
    rw [List.nodupKeys_cons] at hl
    rw [List.foldl_cons, ih hl.2]
    by_cases hk : k = k'
    · subst hk
      have : t.dlookup k = none := List.dlookup_eq_none.mpr hl.1
      rw [this, List.dlookup_cons_eq]
      cases hlast : lastStat.lookup k <;> simp [diffStep, hlast]
    · have hk' : k' ≠ k := fun h => hk h.symm
      rw [List.dlookup_cons_ne _ _ hk]
      have : (diffStep lastStat T acc ⟨k', v'⟩).lookup k = acc.lookup k := by
        unfold diffStep
        cases lastStat.lookup k' <;> simp [AList.lookup_insert_ne hk]
      rw [this]

/-- The diff map holds a key exactly when both snapshots do, with the value of `calcDiff`. -/
theorem diffStatsOf_lookup (stats lastStat : Stats) (T : Int) (k : String) :
    (diffStatsOf stats lastStat T).lookup k =
      match stats.lookup k, lastStat.lookup k with
      | some v, some lv => some (calcDiff v lv T).1
      | _, _ => none := by
  rw [diffStatsOf, foldl_diffStep_lookup lastStat T k _ stats.nodupKeys]
  rfl

/-! ## Lemmas: calcDiff -/

theorem calcDiff_of_le (v lv : F64) (T : Int) (h : F64.le lv v = true) :
    calcDiff v lv T = (v - lv, none) := by
  have : F64.lt (v - lv) F64.zero = false := by
    show F64.lt (F64.add v (F64.neg lv)) F64.zero = false
    cases v <;> cases lv <;> simp only [F64.neg] <;> (try split_ifs) <;>
      simp only [F64.add, F64.mkNum, F64.toRat, F64.signBit] <;> (try split_ifs) <;>
      simp_all [F64.le, F64.lt, F64.zero, F64.toRat]
  simp [calcDiff, this]

theorem calcDiff_of_lt (v lv : F64) (T : Int) (h : F64.lt v lv = true) :
    calcDiff v lv T = (F64.zero, some "counter seems to be reset") := by
  have : F64.lt (v - lv) F64.zero = true := by
    show F64.lt (F64.add v (F64.neg lv)) F64.zero = true
    cases v <;> cases lv <;> simp only [F64.neg] <;> (try split_ifs) <;>
      simp only [F64.add, F64.mkNum, F64.toRat, F64.signBit] <;> (try split_ifs) <;>
      simp_all [F64.lt, F64.zero, F64.toRat]
    all_goals linarith
  simp [calcDiff, this]

theorem calcDiff_not_neg (v lv : F64) (T : Int) :
    F64.lt (calcDiff v lv T).1 F64.zero = false := by
  unfold calcDiff
  by_cases h : F64.lt (v - lv) F64.zero = true
  · rw [if_pos h]; decide
  · rw [if_neg h]; simpa using h

theorem formatValues_eq_some (devices : List String) (stats lastStat : Stats)
    (now lastTime : Int) (h : wrapInt64 (now - lastTime) ≤ 600) :
    formatValues devices stats now lastStat lastTime =
      some (metricsOf devices
        (diffStatsOf stats lastStat (wrapInt64 (now - lastTime))) (wrapInt64 (now - lastTime))) := by
  simp [formatValues, not_lt.mpr h]

theorem get_diffStatsOf (stats lastStat : Stats) (T : Int) (k : String) (v lv : F64)
    (hv : stats.lookup k = some v) (hlv : lastStat.lookup k = some lv) :
    (diffStatsOf stats lastStat T).get k = (calcDiff v lv T).1 := by
  simp [Stats.get, diffStatsOf_lookup, hv, hlv]

theorem get_diffStatsOf_absent (stats lastStat : Stats) (T : Int) (k : String)
    (h : stats.lookup k = none ∨ lastStat.lookup k = none) :
    (diffStatsOf stats lastStat T).get k = F64.zero := by
  rcases h with h | h
  · simp [Stats.get, diffStatsOf_lookup, h]
  · cases hs : stats.lookup k <;> simp [Stats.get, diffStatsOf_lookup, h, hs]

/-! ## Claims about formatValues and calcDiff -/

/-- C1: in a call of `formatValues` with `0 < elapsed <= 600`, for a device `d` of `devices`
and an operation `o` of `read`, `write`, when `ops.d.o`, `bytes_sent.d.o` and `bytes_recv.d.o`
are in both snapshots with current at least previous, the result maps `ops.d.o` to
`(ops_cur - ops_prev) / elapsed` and `throughput.d.o` to
`((sent_cur - sent_prev) + (recv_cur - recv_prev)) / elapsed`. -/
theorem formatValues_ops_and_throughput (devices : List String) (stats lastStat : Stats)
    (now lastTime : Int) (d o : String) (oc op sc sp rc rp : F64)
    (_hpos : 0 < wrapInt64 (now - lastTime)) (hle : wrapInt64 (now - lastTime) ≤ 600)
    (hd : d ∈ devices) (ho : o ∈ rpcOperations)
    (hoc : stats.lookup (sprintf3 "ops" d o) = some oc)
    (hop : lastStat.lookup (sprintf3 "ops" d o) = some op)
    (hsc : stats.lookup (sprintf3 "bytes_sent" d o) = some sc)
    (hsp : lastStat.lookup (sprintf3 "bytes_sent" d o) = some sp)
    (hrc : stats.lookup (sprintf3 "bytes_recv" d o) = some rc)
    (hrp : lastStat.lookup (sprintf3 "bytes_recv" d o) = some rp)
    (ho_ge : F64.le op oc = true) (hs_ge : F64.le sp sc = true) (hr_ge : F64.le rp rc = true) :
    ∃ m, formatValues devices stats now lastStat lastTime = some m ∧
      m.lookup (sprintf3 "ops" d o) =
        some ((oc - op) / F64.ofInt (wrapInt64 (now - lastTime))) ∧
      m.lookup (sprintf3 "throughput" d o) =
        some (((sc - sp) + (rc - rp)) / F64.ofInt (wrapInt64 (now - lastTime))) := by
  refine ⟨_, formatValues_eq_some devices stats lastStat now lastTime hle, ?_, ?_⟩
  · rw [metricsOf_lookup devices _ _ d (by decide) ho, if_pos hd]
    simp [published, get_diffStatsOf _ _ _ _ _ _ hoc hop, calcDiff_of_le _ _ _ ho_ge]
  · rw [metricsOf_lookup devices _ _ d (by decide) ho, if_pos hd]
    simp [published, get_diffStatsOf _ _ _ _ _ _ hsc hsp, get_diffStatsOf _ _ _ _ _ _ hrc hrp,
      calcDiff_of_le _ _ _ hs_ge, calcDiff_of_le _ _ _ hr_ge]

/-- Witness for C1, on the data of `TestFormatValues`: 60 seconds apart, `ops.mnt.read`
going from 42906 to 43026 gives 2. -/
theorem formatValues_ops_and_throughput_witness :
    ∃ m, formatValues testDevices testStats testNow testLastStats testLastTime = some m ∧
      m.lookup "ops.mnt.read" = some (F64.fin 2) ∧
      m.lookup "throughput.mnt.read" = some (F64.fin 16720) := by
  obtain ⟨m, h1, h2, h3⟩ := formatValues_ops_and_throughput testDevices testStats testLastStats
    testNow testLastTime "mnt" "read" (F64.fin 43026) (F64.fin 42906) (F64.fin 7228368)
    (F64.fin 7208208) (F64.fin 34778206720) (F64.fin 34777223680)
    (by decide) (by decide) (by decide) (by decide) (by decide) (by decide) (by decide)
    (by decide) (by decide) (by decide) (by decide!) (by decide!) (by decide!)
  exact ⟨m, h1, h2.trans (by decide!), h3.trans (by decide!)⟩

/-- C2: `formatValues` returns no metric set (`nil`) exactly when
`now.Unix() - lastTime.Unix() > 600`, whatever the devices and snapshots are; at 600 seconds a
set is returned, at 601 none. -/
theorem formatValues_nil_iff (devices : List String) (stats lastStat : Stats)
    (now lastTime : Int) :
    (formatValues devices stats now lastStat lastTime = none ↔
        600 < wrapInt64 (now - lastTime)) ∧
      (formatValues devices stats 600 lastStat 0).isSome = true ∧
      formatValues devices stats 601 lastStat 0 = none := by
  refine ⟨?_, ?_, ?_⟩
  · unfold formatValues
    by_cases h : wrapInt64 (now - lastTime) > 600
    · simp [h]
    · simp [h]
  · have e : wrapInt64 600 = 600 := by decide
    simp [formatValues, e]
  · have e : wrapInt64 601 = 601 := by decide
    simp [formatValues, e]

/-- C3: for a key present in both snapshots the diff used by `formatValues` is the value of
`calcDiff`: current minus previous when current is at least previous, and `0` together with the
error `counter seems to be reset` when current is below previous. `calcDiff` never returns a
negative diff, and changing the current value of one key (a reset, say) changes neither the
diff of another key nor whether a metric set is returned. -/
theorem formatValues_diff_is_calcDiff (devices : List String) (stats stats' lastStat : Stats)
    (now lastTime : Int) (k : String) (v lv : F64)
    (hv : stats.lookup k = some v) (hlv : lastStat.lookup k = some lv)
    (hagree : ∀ k', k' ≠ k → stats'.lookup k' = stats.lookup k') :
    (diffStatsOf stats lastStat (wrapInt64 (now - lastTime))).lookup k =
        some (calcDiff v lv (wrapInt64 (now - lastTime))).1 ∧
      (F64.le lv v = true → calcDiff v lv (wrapInt64 (now - lastTime)) = (v - lv, none)) ∧
      (F64.lt v lv = true → calcDiff v lv (wrapInt64 (now - lastTime)) =
        (F64.zero, some "counter seems to be reset")) ∧
      (∀ a b : F64, ∀ T : Int, F64.lt (calcDiff a b T).1 F64.zero = false) ∧
      (∀ k', k' ≠ k →
        (diffStatsOf stats' lastStat (wrapInt64 (now - lastTime))).lookup k' =
          (diffStatsOf stats lastStat (wrapInt64 (now - lastTime))).lookup k') ∧
      (formatValues devices stats' now lastStat lastTime).isSome =
        (formatValues devices stats now lastStat lastTime).isSome := by
  refine ⟨?_, calcDiff_of_le _ _ _, calcDiff_of_lt _ _ _, calcDiff_not_neg, ?_, ?_⟩
  · simp [diffStatsOf_lookup, hv, hlv]
  · intro k' hk'
    rw [diffStatsOf_lookup, diffStatsOf_lookup, hagree k' hk']
  · unfold formatValues
    by_cases h : wrapInt64 (now - lastTime) > 600 <;> simp [h]

/-- Witness for C3: with `ops.mnt.read` reset from 42906 to 5, its diff is `0`, while the diff
of `ops.mnt.write` is 180 as it is without the reset, and the metric set is still returned. -/
theorem formatValues_diff_is_calcDiff_witness :
    (diffStatsOf resetStats testLastStats (wrapInt64 (testNow - testLastTime))).lookup
        "ops.mnt.read" = some (F64.fin 0) ∧
      (diffStatsOf (resetStats.insert "ops.mnt.read" (F64.fin 43026)) testLastStats
          (wrapInt64 (testNow - testLastTime))).lookup "ops.mnt.write" =
        (diffStatsOf resetStats testLastStats (wrapInt64 (testNow - testLastTime))).lookup
          "ops.mnt.write" ∧
      (formatValues testDevices resetStats testNow testLastStats testLastTime).isSome = true := by
  have h := formatValues_diff_is_calcDiff testDevices resetStats
    (resetStats.insert "ops.mnt.read" (F64.fin 43026)) testLastStats
    testNow testLastTime "ops.mnt.read" (F64.fin 5) (F64.fin 42906) (by decide) (by decide)
    (fun k' hk' => AList.lookup_insert_ne hk')
  exact ⟨h.1.trans (by decide!), h.2.2.2.2.1 "ops.mnt.write" (by decide), by decide⟩

/-! ## Lemmas: float arithmetic -/

theorem F64.isFinite_add {a b : F64} (ha : a.isFinite = true) (hb : b.isFinite = true) :
    (a + b).isFinite = true ∧ (a + b).toRat = a.toRat + b.toRat := by
  show (F64.add a b).isFinite = true ∧ (F64.add a b).toRat = a.toRat + b.toRat
  cases a <;> cases b <;> simp only [F64.add, F64.mkNum] <;> (try split_ifs) <;>
    simp_all [F64.isFinite, F64.toRat]

theorem F64.isFinite_neg {a : F64} (ha : a.isFinite = true) :
    (F64.neg a).isFinite = true ∧ (F64.neg a).toRat = - a.toRat := by
  cases a <;> simp only [F64.neg] <;> (try split_ifs) <;> simp_all [F64.isFinite, F64.toRat]

theorem F64.isFinite_sub {a b : F64} (ha : a.isFinite = true) (hb : b.isFinite = true) :
    (a - b).isFinite = true ∧ (a - b).toRat = a.toRat - b.toRat := by
  have h1 := F64.isFinite_neg hb
  have h2 := F64.isFinite_add (a := a) (b := F64.neg b) ha h1.1
  refine ⟨h2.1, ?_⟩
  have : (a - b) = a + F64.neg b := rfl
  rw [this, h2.2, h1.2]; ring

theorem F64.isFinite_div {a b : F64} (ha : a.isFinite = true) (hb : b.isFinite = true)
    (hne : b.toRat ≠ 0) : (a / b).isFinite = true ∧ (a / b).toRat = a.toRat / b.toRat := by
  show (F64.div a b).isFinite = true ∧ (F64.div a b).toRat = a.toRat / b.toRat
  cases a <;> cases b <;> simp only [F64.div, F64.mkNum] <;> (try split_ifs) <;>
    simp_all [F64.isFinite, F64.toRat]

theorem F64.isNaN_of_isFinite {a : F64} (ha : a.isFinite = true) : a.isNaN = false := by
  cases a <;> simp_all [F64.isFinite, F64.isNaN]

/-- Division by a zero: NaN when the numerator is a zero or NaN, an infinity otherwise. -/
theorem F64.div_zero {a b : F64} (hb : b.isZero = true) :
    a / b = if a.isZero = true ∨ a.isNaN = true then F64.nan
      else F64.inf (xor a.signBit b.signBit) := by
  show F64.div a b = _
  cases a <;> cases b <;> simp only [F64.div, F64.mkNum] <;> (try split_ifs) <;>
    simp_all [F64.isFinite, F64.toRat, F64.isZero, F64.isNaN, F64.signBit]

theorem F64.toRat_pos_of_lt {p c : F64} (hp : p.isFinite = true) (hc : c.isFinite = true)
    (h : F64.lt p c = true) : p.toRat < c.toRat := by
  cases p <;> cases c <;> simp_all [F64.isFinite, F64.toRat, F64.lt]

/-- Counterexample to C4: on a cold start (empty previous snapshot) the returned metric set is
not empty; `ops.mnt.read` is published with the value `0`. -/
theorem cold_start_publishes_zero :
    ∃ m, formatValues testDevices testStats testNow ∅ testLastTime = some m ∧
      m.lookup "ops.mnt.read" = some (F64.fin 0) ∧
      m.lookup "throughput.mnt.read" = some (F64.fin 0) ∧
      m.lookup "retrans_num.mnt.read" = some (F64.fin 0) ∧
      m.keys ≠ [] :=
  ⟨_, rfl, by decide!, by decide!, by decide!, by decide!⟩

/-- C4 as amended: in a non-stale call, a counter key that is absent from the previous snapshot
is left out of the diff map, and the metrics that read it take the zero value of the missing map
entry in its place. So for every device `d` of `devices` and operation `o`, `ops.d.o` is still
published, as `0 / elapsed` when `ops.d.o` has no baseline; and with an empty previous snapshot
the metric set holds for `(d, o)` exactly `ops.d.o = 0 / elapsed`,
`throughput.d.o = 0 / elapsed` and `retrans_num.d.o = 0`, and none of the five ratio metrics. -/
theorem formatValues_absent_baseline (devices : List String) (stats lastStat : Stats)
    (now lastTime : Int) (d o : String)
    (hle : wrapInt64 (now - lastTime) ≤ 600) (hd : d ∈ devices) (ho : o ∈ rpcOperations) :
    ∃ m, formatValues devices stats now lastStat lastTime = some m ∧
      (∀ k, lastStat.lookup k = none →
        (diffStatsOf stats lastStat (wrapInt64 (now - lastTime))).lookup k = none) ∧
      (lastStat.lookup (sprintf3 "ops" d o) = none →
        m.lookup (sprintf3 "ops" d o) =
          some (F64.zero / F64.ofInt (wrapInt64 (now - lastTime)))) ∧
      ((∀ k, lastStat.lookup k = none) →
        m.lookup (sprintf3 "ops" d o) =
          some (F64.zero / F64.ofInt (wrapInt64 (now - lastTime))) ∧
        m.lookup (sprintf3 "throughput" d o) =
          some (F64.zero / F64.ofInt (wrapInt64 (now - lastTime))) ∧
        m.lookup (sprintf3 "retrans_num" d o) = some F64.zero ∧
        m.lookup (sprintf3 "bytes_ops" d o) = none ∧
        m.lookup (sprintf3 "retrans_rate" d o) = none ∧
        m.lookup (sprintf3 "rtt_ave" d o) = none ∧
        m.lookup (sprintf3 "execute_ave" d o) = none ∧
        m.lookup (sprintf3 "queue_ave" d o) = none) := by
  refine ⟨_, formatValues_eq_some devices stats lastStat now lastTime hle, ?_, ?_, ?_⟩
  · intro k hk
    cases hs : stats.lookup k <;> simp [diffStatsOf_lookup, hk, hs]
  · intro h
    rw [metricsOf_lookup devices _ _ d (by decide) ho, if_pos hd]
    simp [published, get_diffStatsOf_absent _ _ _ _ (Or.inr h)]
  · intro h
    have hz : ∀ k, (diffStatsOf stats lastStat (wrapInt64 (now - lastTime))).get k = F64.zero :=
      fun k => get_diffStatsOf_absent _ _ _ _ (Or.inr (h k))
    have e1 : F64.zero + F64.zero = F64.zero := by decide!
    have e2 : F64.zero - F64.zero = F64.zero := by decide!
    have e3 : (F64.zero / F64.zero).isNaN = true := by decide!
    refine ⟨?_, ?_, ?_, ?_, ?_, ?_, ?_, ?_⟩ <;>
      rw [metricsOf_lookup devices _ _ d (by decide) ho, if_pos hd] <;>
      simp [published, hz, e1, e2, e3]

/-- Witness for C4 as amended, on the cold start of the test data. -/
theorem formatValues_absent_baseline_witness :
    ∃ m, formatValues testDevices testStats testNow ∅ testLastTime = some m ∧
      m.lookup "ops.mnt.read" = some (F64.fin 0) ∧
      m.lookup "bytes_ops.mnt.read" = none := by
  obtain ⟨m, h1, _, _, h4⟩ := formatValues_absent_baseline testDevices testStats ∅ testNow
    testLastTime "mnt" "read" (by decide) (by decide) (by decide)
  have h5 := h4 (fun k => AList.lookup_empty k)
  exact ⟨m, h1, h5.1.trans (by decide!), h5.2.2.2.1⟩

/-- Counterexample to C5: with an `ops` diff of `0` and a byte diff of `500`, `bytes_ops.mnt.read`
is in the returned metric set, with the value `+Inf` (`500 / 0`), which is not finite. -/
theorem zero_ops_publishes_infinity :
    (diffStatsOf zeroOpsStats testLastStats (wrapInt64 (testNow - testLastTime))).lookup
        "ops.mnt.read" = some (F64.fin 0) ∧
      ∃ m, formatValues testDevices zeroOpsStats testNow testLastStats testLastTime = some m ∧
        m.lookup "bytes_ops.mnt.read" = some (F64.inf false) ∧
        (F64.inf false).isFinite = false :=
  ⟨by decide!, _, rfl, by decide!, rfl⟩

/-- C5 as amended: in a non-stale call, for every device `d` of `devices` and operation `o`,
each of `bytes_ops.d.o`, `retrans_rate.d.o`, `rtt_ave.d.o`, `execute_ave.d.o`, `queue_ave.d.o`
is published exactly when its value (numerator diff divided by `ops` diff) is not NaN. When the
`ops` diff is `0` the key is absent if its numerator is `0` (or NaN), and it is published with
an infinite value if its numerator is not `0`. -/
theorem formatValues_ratio_unless_nan (devices : List String) (stats lastStat : Stats)
    (now lastTime : Int) (d o : String) (ds : Stats)
    (hds : ds = diffStatsOf stats lastStat (wrapInt64 (now - lastTime)))
    (hle : wrapInt64 (now - lastTime) ≤ 600) (hd : d ∈ devices) (ho : o ∈ rpcOperations) :
    ∃ m, formatValues devices stats now lastStat lastTime = some m ∧
      ∀ p ∈ [("bytes_ops", ds.get (sprintf3 "bytes_sent" d o) + ds.get (sprintf3 "bytes_recv" d o)),
          ("retrans_rate", ds.get (sprintf3 "trans" d o) - ds.get (sprintf3 "ops" d o)),
          ("rtt_ave", ds.get (sprintf3 "rtt" d o)),
          ("execute_ave", ds.get (sprintf3 "execute" d o)),
          ("queue_ave", ds.get (sprintf3 "queue" d o))],
        m.lookup (sprintf3 p.1 d o) =
          (if (p.2 / ds.get (sprintf3 "ops" d o)).isNaN = true then none
            else some (p.2 / ds.get (sprintf3 "ops" d o))) ∧
        ((ds.get (sprintf3 "ops" d o)).isZero = true →
          (p.2.isZero = true ∨ p.2.isNaN = true → m.lookup (sprintf3 p.1 d o) = none) ∧
          (¬ (p.2.isZero = true ∨ p.2.isNaN = true) →
            m.lookup (sprintf3 p.1 d o) =
              some (F64.inf (xor p.2.signBit (ds.get (sprintf3 "ops" d o)).signBit)))) := by
  subst hds
  refine ⟨_, formatValues_eq_some devices stats lastStat now lastTime hle, ?_⟩
  intro p hp
  have key : (metricsOf devices (diffStatsOf stats lastStat (wrapInt64 (now - lastTime)))
      (wrapInt64 (now - lastTime))).lookup (sprintf3 p.1 d o) =
        (if (p.2 / (diffStatsOf stats lastStat (wrapInt64 (now - lastTime))).get
            (sprintf3 "ops" d o)).isNaN = true then none
          else some (p.2 / (diffStatsOf stats lastStat (wrapInt64 (now - lastTime))).get
            (sprintf3 "ops" d o))) := by
    simp only [List.mem_cons, List.mem_singleton, List.not_mem_nil, or_false] at hp
    rcases hp with h | h | h | h | h <;> subst h <;>
      rw [metricsOf_lookup devices _ _ d (by simp) ho, if_pos hd] <;>
      simp [published]
  refine ⟨key, fun hz => ?_⟩
  rw [key, F64.div_zero hz]
  constructor
  · intro h
    rw [if_pos h]; rfl
  · intro h
    rw [if_neg h]; rfl

/-- Witness for C5 as amended: the data of the counterexample. -/
theorem formatValues_ratio_unless_nan_witness :
    ∃ m, formatValues testDevices zeroOpsStats testNow testLastStats testLastTime = some m ∧
      m.lookup "bytes_ops.mnt.read" = some (F64.inf false) ∧
      m.lookup "rtt_ave.mnt.read" = none := by
  obtain ⟨m, h1, h2⟩ := formatValues_ratio_unless_nan testDevices zeroOpsStats testLastStats
    testNow testLastTime "mnt" "read" _ rfl (by decide) (by decide) (by decide)
  refine ⟨m, h1, ?_, ?_⟩
  · exact (h2 _ (List.mem_cons_self _ _)).1.trans (by decide!)
  · exact (h2 _ (List.mem_cons_of_mem _ (List.mem_cons_of_mem _
      (List.mem_cons_self _ _)))).1.trans (by decide!)

theorem F64.isCounter_spec {x : F64} (h : x.isCounter = true) :
    x.isFinite = true ∧ 0 ≤ x.toRat ∧ x.toRat ≤ 2 ^ 64 ∧ ((x.toRat.num : ℚ) = x.toRat) := by
  cases x with
  | fin q =>
    simp only [F64.isCounter, decide_eq_true_eq] at h
    exact ⟨rfl, h.1, h.2.1, Rat.coe_int_num_of_den_eq_one h.2.2⟩
  | _ => simp [F64.isCounter] at h

/-- The difference of two counters, the current one not below the previous one: a whole number
between `0` and `2^64`, and at least `1` when the counter has advanced. -/
theorem F64.counter_diff {c p : F64} (hc : c.isCounter = true) (hp : p.isCounter = true)
    (hle : F64.le p c = true) :
    (c - p).isFinite = true ∧ 0 ≤ (c - p).toRat ∧ (c - p).toRat ≤ 2 ^ 64 ∧
      (F64.lt p c = true → 1 ≤ (c - p).toRat) := by
  obtain ⟨fc, c0, c1, ci⟩ := F64.isCounter_spec hc
  obtain ⟨fp, p0, p1, pi⟩ := F64.isCounter_spec hp
  obtain ⟨fd, e⟩ := F64.isFinite_sub fc fp
  have hle' : p.toRat ≤ c.toRat := by
    cases p <;> cases c <;> simp_all [F64.isFinite, F64.toRat, F64.le]
  refine ⟨fd, by rw [e]; linarith, by rw [e]; linarith, ?_⟩
  intro hlt
  have h := F64.toRat_pos_of_lt fp fc hlt
  rw [← ci, ← pi] at h
  have h2 : p.toRat.num + 1 ≤ c.toRat.num := by exact_mod_cast h
  have h3 : (p.toRat.num : ℚ) + 1 ≤ (c.toRat.num : ℚ) := by exact_mod_cast h2
  rw [e, ← ci, ← pi]
  linarith

/-- A quotient by a value of at least `1` is finite and no larger than the numerator. -/
theorem F64.div_bound {n d : F64} (hn : n.isFinite = true) (hd : d.isFinite = true)
    (h1 : 1 ≤ d.toRat) {B : ℚ} (hB : |n.toRat| ≤ B) :
    (n / d).isFinite = true ∧ |(n / d).toRat| ≤ B := by
  have hne : d.toRat ≠ 0 := by linarith
  obtain ⟨f, e⟩ := F64.isFinite_div hn hd hne
  refine ⟨f, ?_⟩
  rw [e, abs_div, abs_of_pos (by linarith : (0 : ℚ) < d.toRat)]
  exact (div_le_self (abs_nonneg _) h1).trans hB

/-- C6, with the bound it needs: in a non-stale call with `elapsed > 0`, for a device `d` of
`devices` and an operation `o`, when `ops`, `trans`, `bytes_sent`, `bytes_recv`, `queue`, `rtt`,
`execute` are in both snapshots as counters (non-negative whole numbers of at most `2^64`) with
current at least previous and the `ops` diff is positive, the result holds
`bytes_ops.d.o = (bytes_sent + bytes_recv) / ops`, `retrans_num.d.o = trans - ops`,
`retrans_rate.d.o = (trans - ops) / ops`, `rtt_ave.d.o = rtt / ops`,
`execute_ave.d.o = execute / ops` and `queue_ave.d.o = queue / ops`, all over the diffs; each of
the six values is finite and of magnitude at most `2^65`, so that no step of the computation
leaves the `float64` range. -/
theorem formatValues_ratio_values (devices : List String) (stats lastStat : Stats)
    (now lastTime : Int) (d o : String) (cur prev : String → F64)
    (_hpos : 0 < wrapInt64 (now - lastTime)) (hle : wrapInt64 (now - lastTime) ≤ 600)
    (hd : d ∈ devices) (ho : o ∈ rpcOperations)
    (hkinds : ∀ kind ∈ ["ops", "trans", "bytes_sent", "bytes_recv", "queue", "rtt", "execute"],
      stats.lookup (sprintf3 kind d o) = some (cur kind) ∧
      lastStat.lookup (sprintf3 kind d o) = some (prev kind) ∧
      (cur kind).isCounter = true ∧ (prev kind).isCounter = true ∧
      F64.le (prev kind) (cur kind) = true)
    (hops : F64.lt (prev "ops") (cur "ops") = true) :
    ∃ m, formatValues devices stats now lastStat lastTime = some m ∧
      m.lookup (sprintf3 "bytes_ops" d o) =
        some (((cur "bytes_sent" - prev "bytes_sent") + (cur "bytes_recv" - prev "bytes_recv")) /
          (cur "ops" - prev "ops")) ∧
      m.lookup (sprintf3 "retrans_num" d o) =
        some ((cur "trans" - prev "trans") - (cur "ops" - prev "ops")) ∧
      m.lookup (sprintf3 "retrans_rate" d o) =
        some (((cur "trans" - prev "trans") - (cur "ops" - prev "ops")) /
          (cur "ops" - prev "ops")) ∧
      m.lookup (sprintf3 "rtt_ave" d o) =
        some ((cur "rtt" - prev "rtt") / (cur "ops" - prev "ops")) ∧
      m.lookup (sprintf3 "execute_ave" d o) =
        some ((cur "execute" - prev "execute") / (cur "ops" - prev "ops")) ∧
      m.lookup (sprintf3 "queue_ave" d o) =
        some ((cur "queue" - prev "queue") / (cur "ops" - prev "ops")) ∧
      ∀ cat ∈ ["bytes_ops", "retrans_num", "retrans_rate", "rtt_ave", "execute_ave", "queue_ave"],
        ∃ v, m.lookup (sprintf3 cat d o) = some v ∧ v.isFinite = true ∧ |v.toRat| ≤ 2 ^ 65 := by
  have G : ∀ kind ∈ ["ops", "trans", "bytes_sent", "bytes_recv", "queue", "rtt", "execute"],
      (diffStatsOf stats lastStat (wrapInt64 (now - lastTime))).get (sprintf3 kind d o) =
        cur kind - prev kind ∧ (cur kind - prev kind).isFinite = true ∧
        0 ≤ (cur kind - prev kind).toRat ∧ (cur kind - prev kind).toRat ≤ 2 ^ 64 := by
    intro kind hk
    obtain ⟨h1, h2, h3, h4, h5⟩ := hkinds kind hk
    rw [get_diffStatsOf _ _ _ _ _ _ h1 h2, calcDiff_of_le _ _ _ h5]
    obtain ⟨a, b, c, _⟩ := F64.counter_diff h3 h4 h5
    exact ⟨rfl, a, b, c⟩
  obtain ⟨gO, fO, lO, uO⟩ := G "ops" (by simp)
  obtain ⟨gT, fT, lT, uT⟩ := G "trans" (by simp)
  obtain ⟨gS, fS, lS, uS⟩ := G "bytes_sent" (by simp)
  obtain ⟨gR, fR, lR, uR⟩ := G "bytes_recv" (by simp)
  obtain ⟨gQ, fQ, lQ, uQ⟩ := G "queue" (by simp)
  obtain ⟨gRt, fRt, lRt, uRt⟩ := G "rtt" (by simp)
  obtain ⟨gE, fE, lE, uE⟩ := G "execute" (by simp)
  have hone : 1 ≤ (cur "ops" - prev "ops").toRat := by
    obtain ⟨_, _, h3, h4, h5⟩ := hkinds "ops" (by simp)
    exact (F64.counter_diff h3 h4 h5).2.2.2 hops
  have hne : (cur "ops" - prev "ops").toRat ≠ 0 := by linarith
  have N : ∀ n : F64, n.isFinite = true → (n / (cur "ops" - prev "ops")).isNaN = false :=
    fun n hn => F64.isNaN_of_isFinite (F64.isFinite_div hn fO hne).1
  obtain ⟨fB, eB⟩ := F64.isFinite_add fS fR
  obtain ⟨fN, eN⟩ := F64.isFinite_sub fT fO
  have bB : |((cur "bytes_sent" - prev "bytes_sent") +
      (cur "bytes_recv" - prev "bytes_recv")).toRat| ≤ 2 ^ 65 := by
    rw [eB, abs_le]; constructor <;> linarith
  have bN : |((cur "trans" - prev "trans") - (cur "ops" - prev "ops")).toRat| ≤ 2 ^ 65 := by
    rw [eN, abs_le]; constructor <;> linarith
  have bD : ∀ x : F64, 0 ≤ x.toRat → x.toRat ≤ 2 ^ 64 → |x.toRat| ≤ 2 ^ 65 := by
    intro x h0 h1
    rw [abs_le]; constructor <;> linarith
  have L : ∀ cat ∈ metricCategories,
      (metricsOf devices (diffStatsOf stats lastStat (wrapInt64 (now - lastTime)))
        (wrapInt64 (now - lastTime))).lookup (sprintf3 cat d o) =
      published (diffStatsOf stats lastStat (wrapInt64 (now - lastTime)))
        (wrapInt64 (now - lastTime)) cat d o := by
    intro cat hcat
    rw [metricsOf_lookup devices _ _ d hcat ho, if_pos hd]
  have h1 := L "bytes_ops" (by decide)
  have h2 := L "retrans_num" (by decide)
  have h3 := L "retrans_rate" (by decide)
  have h4 := L "rtt_ave" (by decide)
  have h5 := L "execute_ave" (by decide)
  have h6 := L "queue_ave" (by decide)
  replace h1 := h1.trans (show _ = some (((cur "bytes_sent" - prev "bytes_sent") +
      (cur "bytes_recv" - prev "bytes_recv")) / (cur "ops" - prev "ops")) by
    simp [published, gO, gS, gR, N _ fB])
  replace h2 := h2.trans (show _ = some ((cur "trans" - prev "trans") -
      (cur "ops" - prev "ops")) by simp [published, gO, gT])
  replace h3 := h3.trans (show _ = some (((cur "trans" - prev "trans") -
      (cur "ops" - prev "ops")) / (cur "ops" - prev "ops")) by
    simp [published, gO, gT, N _ fN])
  replace h4 := h4.trans (show _ = some ((cur "rtt" - prev "rtt") / (cur "ops" - prev "ops")) by
    simp [published, gO, gRt, N _ fRt])
  replace h5 := h5.trans (show _ = some ((cur "execute" - prev "execute") /
      (cur "ops" - prev "ops")) by simp [published, gO, gE, N _ fE])
  replace h6 := h6.trans (show _ = some ((cur "queue" - prev "queue") /
      (cur "ops" - prev "ops")) by simp [published, gO, gQ, N _ fQ])
  refine ⟨_, formatValues_eq_some devices stats lastStat now lastTime hle,
    h1, h2, h3, h4, h5, h6, ?_⟩
  intro cat hcat
  simp only [List.mem_cons, List.mem_singleton, List.not_mem_nil, or_false] at hcat
  rcases hcat with e | e | e | e | e | e <;> subst e
  · exact ⟨_, h1, F64.div_bound fB fO hone bB⟩
  · exact ⟨_, h2, fN, bN⟩
  · exact ⟨_, h3, F64.div_bound fN fO hone bN⟩
  · exact ⟨_, h4, F64.div_bound fRt fO hone (bD _ lRt uRt)⟩
  · exact ⟨_, h5, F64.div_bound fE fO hone (bD _ lE uE)⟩
  · exact ⟨_, h6, F64.div_bound fQ fO hone (bD _ lQ uQ)⟩

/-- Witness for C6 on the test data: over 120 `read` operations the byte diff 1003200 gives
`bytes_ops = 8360`, the `rtt` diff 6120 gives `rtt_ave = 51`, and `retrans_num` is `0`. -/
theorem formatValues_ratio_values_witness :
    ∃ m, formatValues testDevices testStats testNow testLastStats testLastTime = some m ∧
      m.lookup "bytes_ops.mnt.read" = some (F64.fin 8360) ∧
      m.lookup "retrans_num.mnt.read" = some (F64.fin 0) ∧
      m.lookup "retrans_rate.mnt.read" = some (F64.fin 0) ∧
      m.lookup "rtt_ave.mnt.read" = some (F64.fin 51) ∧
      m.lookup "execute_ave.mnt.read" = some (F64.fin 52) ∧
      m.lookup "queue_ave.mnt.read" = some (F64.fin (1 / 10)) := by
  obtain ⟨m, h0, h1, h2, h3, h4, h5, h6, _⟩ := formatValues_ratio_values testDevices testStats
    testLastStats testNow testLastTime "mnt" "read"
    (fun kind => testStats.get (sprintf3 kind "mnt" "read"))
    (fun kind => testLastStats.get (sprintf3 kind "mnt" "read"))
    (by decide) (by decide) (by decide) (by decide) (by decide!) (by decide!)
  exact ⟨m, h0, h1.trans (by decide!), h2.trans (by decide!), h3.trans (by decide!),
    h4.trans (by decide!), h5.trans (by decide!), h6.trans (by decide!)⟩

/-- Counterexample to C6: a current snapshot whose counter `ops.mnt.read` is `+Inf`. The call is
not stale and `elapsed` is `60`; all seven counters of `mnt`/`read` are in both snapshots, none
has gone down, every diff is non-negative and the `ops` diff (`+Inf`) is positive. The result has
no `retrans_rate.mnt.read`: `retrans_num` is `120 - Inf = -Inf` and `-Inf / +Inf` is NaN, which
is not published. (In Go the same happens with finite counters whose difference leaves the
`float64` range; finite values are exact here, so the infinite counter shows it.) -/
theorem unbounded_counter_drops_ratio :
    0 < wrapInt64 (testNow - testLastTime) ∧ wrapInt64 (testNow - testLastTime) ≤ 600 ∧
      "mnt" ∈ testDevices ∧ "read" ∈ rpcOperations ∧
      (∀ kind ∈ ["ops", "trans", "bytes_sent", "bytes_recv", "queue", "rtt", "execute"],
        (infOpsStats.lookup (sprintf3 kind "mnt" "read")).isSome = true ∧
        (testLastStats.lookup (sprintf3 kind "mnt" "read")).isSome = true ∧
        F64.le (testLastStats.get (sprintf3 kind "mnt" "read"))
          (infOpsStats.get (sprintf3 kind "mnt" "read")) = true ∧
        F64.le F64.zero (infOpsStats.get (sprintf3 kind "mnt" "read") -
          testLastStats.get (sprintf3 kind "mnt" "read")) = true) ∧
      F64.lt F64.zero (infOpsStats.get "ops.mnt.read" - testLastStats.get "ops.mnt.read") = true ∧
      ∃ m, formatValues testDevices infOpsStats testNow testLastStats testLastTime = some m ∧
        m.lookup "retrans_num.mnt.read" = some (F64.inf true) ∧
        m.lookup "retrans_rate.mnt.read" = none := by
  refine ⟨by decide, by decide, by decide, by decide, by decide!, by decide!, ?_⟩
  have h : ((formatValues testDevices infOpsStats testNow testLastStats testLastTime).map
      (fun m => (m.lookup "retrans_num.mnt.read", m.lookup "retrans_rate.mnt.read"))) =
      some (some (F64.inf true), none) := by decide!
  cases hm : formatValues testDevices infOpsStats testNow testLastStats testLastTime with
  | none => rw [hm] at h; simp at h
  | some m =>
    rw [hm] at h
    simp only [Option.map_some', Option.some.injEq, Prod.mk.injEq] at h
    exact ⟨m, rfl, h.1, h.2⟩

/-! ## Lemmas: strings -/

theorem pushTok_nil (ts : List (List Char)) : pushTok [] ts = ts := rfl

theorem fieldsL_cons_space {c : Char} (hc : isSpace c = true) (cs : List Char) :
    fieldsL (c :: cs) = fieldsL cs := by
  simp [fieldsL, splitAux, hc, pushTok_nil]

theorem fieldsL_dropWhile (l : List Char) : fieldsL (l.dropWhile isSpace) = fieldsL l := by
  induction l with
  | nil => rfl
  | cons c cs ih =>
    by_cases hc : isSpace c = true
    · rw [List.dropWhile_cons_of_pos hc, ih, fieldsL_cons_space hc]
    · rw [List.dropWhile_cons_of_neg hc]

theorem splitAux_spaces (ws : List Char) (h : ∀ c ∈ ws, isSpace c = true) :
    splitAux ws = ([], []) := by
  induction ws with
  | nil => rfl
  | cons c cs ih =>
    have h1 := ih (fun x hx => h x (List.mem_cons_of_mem _ hx))
    simp [splitAux, h c (List.mem_cons_self _ _), h1, pushTok_nil]

theorem splitAux_append_spaces (l ws : List Char) (h : ∀ c ∈ ws, isSpace c = true) :
    splitAux (l ++ ws) = splitAux l := by
  induction l with
  | nil => simpa [splitAux] using splitAux_spaces ws h
  | cons c cs ih => simp [splitAux, ih]

theorem fieldsL_trimL (l : List Char) : fieldsL (trimL isSpace l) = fieldsL l := by
  unfold trimL
  conv_rhs => rw [← fieldsL_dropWhile l]
  generalize l.dropWhile isSpace = m
  have h := List.takeWhile_append_dropWhile isSpace m.reverse
  have hm : (m.reverse.dropWhile isSpace).reverse ++ (m.reverse.takeWhile isSpace).reverse = m := by
    have := congrArg List.reverse h
    rw [List.reverse_append, List.reverse_reverse] at this
    exact this
  have hs : ∀ c ∈ (m.reverse.takeWhile isSpace).reverse, isSpace c = true := by
    intro c hc
    exact List.mem_takeWhile_imp (List.mem_reverse.mp hc)
  conv_rhs => rw [← hm]
  simp only [fieldsL, splitAux_append_spaces _ _ hs]

theorem fields_trimSpace (s : String) : fields (trimSpace s) = fields s := by
  simp [fields, trimSpace, fieldsL_trimL]

theorem splitAux_cons_space {c : Char} (hc : isSpace c = true) (cs : List Char) :
    splitAux (c :: cs) = ([], fieldsL cs) := by
  simp [splitAux, hc, fieldsL]

theorem splitAux_cons_char {c : Char} (hc : isSpace c = false) (cs : List Char) :
    splitAux (c :: cs) = (c :: (splitAux cs).1, (splitAux cs).2) := by
  simp [splitAux, hc]

theorem fields_of_no_device {line : String} (h : hasPrefix line "no device mounted" = true) :
    ∃ rest, fields line = "no" :: rest := by
  unfold hasPrefix at h
  rw [List.isPrefixOf_iff_prefix] at h
  obtain ⟨t, ht⟩ := h
  refine ⟨(fieldsL ("device mounted".data ++ t)).map String.mk, ?_⟩
  unfold fields
  rw [← ht]
  have e : "no device mounted".data ++ t = 'n' :: 'o' :: ' ' :: ("device mounted".data ++ t) := rfl
  rw [e]
  have h1 : fieldsL ('n' :: 'o' :: ' ' :: ("device mounted".data ++ t)) =
      ['n', 'o'] :: fieldsL ("device mounted".data ++ t) := by
    unfold fieldsL
    rw [splitAux_cons_char (by decide), splitAux_cons_char (by decide),
      splitAux_cons_space (by decide)]
    rfl
  rw [h1]
  rfl

/-! ## Lemmas: the first loop of parseMountStats -/

theorem scanStep_skipped {line : String} (h : isSkipped line = true) (st : ScanState) :
    scanStep st line = some st := by
  unfold isSkipped at h
  unfold scanStep
  by_cases h1 : hasPrefix line "no device mounted" = true
  · simp [h1]
  · cases hf : fields line with
    | nil => simp
    | cons r0 rs =>
      simp only [hf, h1, List.isEmpty_cons, Bool.false_or, List.head?_cons, Bool.and_eq_true,
        beq_iff_eq] at h
      obtain ⟨h2, h3⟩ := h
      cases h7 : (r0 :: rs)[7]? with
      | none => simp [h7] at h3
      | some f =>
        simp only [h7] at h3
        rw [List.getElem?_cons_succ] at h7
        simp [h1, h2, h3, h7]

theorem scanStep_block {line : String} (h : isBlockLine line = true) (st : ScanState) :
    scanStep st line = some (st.push line) := by
  unfold isBlockLine at h
  unfold scanStep
  cases hf : fields line with
  | nil => simp [hf] at h
  | cons r0 rs =>
    simp only [hf, Bool.and_eq_true, Bool.not_eq_true', List.isEmpty_cons, Bool.not_false,
      List.head?_cons, bne_iff_ne, ne_eq, Option.some.injEq, and_true] at h
    simp [h.1, h.2]

theorem scanStep_nfs {line : String} (h : isNfsDevice line = true) (st : ScanState) :
    scanStep st line = some ((st.enter (mountPath line)).push line) := by
  unfold isNfsDevice at h
  unfold scanStep ScanState.enter mountPath
  cases hf : fields line with
  | nil => simp [hf] at h
  | cons r0 rs =>
    simp only [hf, Bool.and_eq_true, Bool.not_eq_true', List.head?_cons, beq_iff_eq,
      Option.some.injEq] at h
    obtain ⟨⟨h1, h2⟩, h3⟩ := h
    cases h7 : (r0 :: rs)[7]? with
    | none => simp [h7] at h3
    | some f =>
      simp only [h7] at h3
      rw [List.getElem?_cons_succ] at h7
      simp only [Bool.or_eq_true] at h3
      simp only [h1, h2, h7, List.head?_cons, List.length_cons]
      simp only [List.getElem?_cons_succ, h7]
      have h4 : ¬ (contains f "nfs" = false ∧ contains f "nfs4" = false) := by
        rintro ⟨a, b⟩
        rcases h3 with h3 | h3 <;> simp_all
      simp [h4]

theorem scanStep_short {line : String} (h : isShortDevice line = true) (st : ScanState) :
    scanStep st line = none := by
  unfold isShortDevice at h
  unfold scanStep
  cases hf : fields line with
  | nil => simp [hf] at h
  | cons r0 rs =>
    simp only [hf, Bool.and_eq_true, Bool.not_eq_true', List.head?_cons, beq_iff_eq,
      Option.some.injEq, decide_eq_true_eq] at h
    obtain ⟨⟨h1, h2⟩, h3⟩ := h
    have h7 : rs[6]? = none := List.getElem?_eq_none (by simp at h3; omega)
    simp [h1, h2, h7]

/-- Every line is of exactly one of the four kinds; here: of at least one. -/
theorem line_kinds (line : String) :
    isSkipped line = true ∨ isBlockLine line = true ∨ isNfsDevice line = true ∨
      isShortDevice line = true := by
  unfold isSkipped isBlockLine isNfsDevice isShortDevice
  by_cases h1 : hasPrefix line "no device mounted" = true
  · simp [h1]
  · cases hf : fields line with
    | nil => simp
    | cons r0 rs =>
      by_cases h2 : r0 = "device"
      · cases h7 : (r0 :: rs)[7]? with
        | none =>
          have : (r0 :: rs).length < 8 := by
            by_contra hc
            have := List.getElem?_eq_some.mpr ⟨(by omega : 7 < (r0 :: rs).length), rfl⟩
            simp [h7] at this
          simp only [List.length_cons] at this
          simp [h1, h2, this]
        | some f =>
          cases hc : (contains f "nfs" || contains f "nfs4") <;> simp_all
      · simp [h1, h2]

theorem foldlM_scanStep_skipped (lines : List String) (h : ∀ l ∈ lines, isSkipped l = true)
    (st : ScanState) : lines.foldlM scanStep st = some st := by
  induction lines with
  | nil => rfl
  | cons l ls ih =>
    rw [List.foldlM_cons, scanStep_skipped (h l (List.mem_cons_self _ _))]
    exact ih (fun x hx => h x (List.mem_cons_of_mem _ hx))

theorem push_mounts_ne_nil (st : ScanState) (line : String) :
    (st.push line).mounts.entries ≠ [] := by
  simp [ScanState.push, AList.insert_entries]

theorem scanStep_mounts_ne_nil {st st' : ScanState} {line : String}
    (h : scanStep st line = some st') (hne : st.mounts.entries ≠ []) :
    st'.mounts.entries ≠ [] := by
  rcases line_kinds line with k | k | k | k
  · rw [scanStep_skipped k] at h; cases h; exact hne
  · rw [scanStep_block k] at h; cases h; exact push_mounts_ne_nil _ _
  · rw [scanStep_nfs k] at h; cases h; exact push_mounts_ne_nil _ _
  · rw [scanStep_short k] at h; cases h

theorem foldlM_scanStep_mounts_ne_nil (lines : List String) {st st' : ScanState}
    (h : lines.foldlM scanStep st = some st') (hne : st.mounts.entries ≠ []) :
    st'.mounts.entries ≠ [] := by
  induction lines generalizing st with
  | nil => cases h; exact hne
  | cons l ls ih =>
    rw [List.foldlM_cons] at h
    cases h1 : scanStep st l with
    | none => simp [h1] at h
    | some st1 =>
      simp only [h1, Option.bind_eq_bind, Option.some_bind] at h
      exact ih h (scanStep_mounts_ne_nil h1 hne)

theorem foldlM_scanStep_not_skipped (lines : List String) {st st' : ScanState}
    (h : lines.foldlM scanStep st = some st') (hex : ∃ l ∈ lines, isSkipped l ≠ true) :
    st'.mounts.entries ≠ [] := by
  induction lines generalizing st with
  | nil => simp at hex
  | cons l ls ih =>
    rw [List.foldlM_cons] at h
    cases h1 : scanStep st l with
    | none => simp [h1] at h
    | some st1 =>
      simp only [h1, Option.bind_eq_bind, Option.some_bind] at h
      rcases line_kinds l with k | k | k | k
      · obtain ⟨x, hx, hxs⟩ := hex
        rcases List.mem_cons.mp hx with e | e
        · subst e; exact absurd k hxs
        · exact ih h ⟨x, e, hxs⟩
      · rw [scanStep_block k] at h1; cases h1
        exact foldlM_scanStep_mounts_ne_nil ls h (push_mounts_ne_nil _ _)
      · rw [scanStep_nfs k] at h1; cases h1
        exact foldlM_scanStep_mounts_ne_nil ls h (push_mounts_ne_nil _ _)
      · rw [scanStep_short k] at h1; cases h1

/-! ## Claims about parseMountStats -/

/-- Counterexample to C8: a report with no NFS `device` line, but with a line after a
non-NFS `device` line, does not fail: the parse succeeds with the device `""`. -/
theorem stray_line_report_succeeds :
    (∀ l ∈ strayLineReport, isNfsDevice l = false) ∧
      (parseMountStats parseFloatDigits id strayLineReport).error = none ∧
      (parseMountStats parseFloatDigits id strayLineReport).devices = some [""] := by
  refine ⟨by decide, by decide, by decide⟩

/-- C8 as amended: `parseMountStats` fails with the error `no nfs mount points were found`,
returning neither a device list nor a counter map, exactly when every line of the report is
passed over by the first loop: it is blank, or starts with `no device mounted`, or is a
`device` line of at least eight fields whose file-system type does not contain `nfs`. -/
theorem parseMountStats_no_mounts_iff (parseFloat : String → Except String F64)
    (order : List (Sigma (fun _ : String => List String)) →
      List (Sigma (fun _ : String => List String)))
    (lines : List String) :
    parseMountStats parseFloat order lines = some (.error "no nfs mount points were found") ↔
      ∀ l ∈ lines, isSkipped l = true := by
  constructor
  · intro h
    by_contra hc
    push_neg at hc
    unfold parseMountStats at h
    cases h1 : lines.foldlM scanStep ScanState.init with
    | none => simp [h1] at h
    | some st =>
      have hne := foldlM_scanStep_not_skipped lines h1 hc
      have hlen : (st.mounts.entries.length == 0) = false := by
        cases hm : st.mounts.entries with
        | nil => exact absurd hm hne
        | cons a b => rfl
      simp only [h1, hlen] at h
      cases h2 : (order st.mounts.entries).foldlM (mountStep parseFloat) ([], ∅) with
      | none => simp [h2] at h
      | some r => simp [h2] at h
  · intro h
    unfold parseMountStats
    rw [foldlM_scanStep_skipped lines h]
    rfl

/-- C10 fails on the code: on the test report followed by a `device` line of five fields the
parse panics (`record[7]` is out of range), while the test report alone parses to the device
`mnt`; the short line is not ignored. -/
theorem short_device_line_panics :
    (fields shortDeviceLine).length = 5 ∧
      parseMountStats parseFloatDigits id (testReport ++ [shortDeviceLine]) = none ∧
      (parseMountStats parseFloatDigits id testReport).devices = some ["mnt"] := by
  refine ⟨by decide, ?_, by decide!⟩
  have h : (parseMountStats parseFloatDigits id (testReport ++ [shortDeviceLine])).isNone = true := by
    decide!
  exact Option.isNone_iff_eq_none.mp h

/-! ## Lemmas: parseRPCLine -/

theorem noDot_counter {kind : String} (h : kind ∈ rpcOperationCounters) : '.' ∉ kind.data := by
  simp only [rpcOperationCounters, List.mem_cons, List.mem_singleton, List.not_mem_nil,
    or_false] at h
  rcases h with h | h | h | h | h | h | h | h <;> subst h <;> decide

theorem noDot_op {o : String} (h : o ∈ rpcOperations) : '.' ∉ o.data := by
  simp only [rpcOperations, List.mem_cons, List.mem_singleton, List.not_mem_nil, or_false] at h
  rcases h with h | h <;> subst h <;> decide

theorem counterKey_eq_iff {a a' b b' c c' : String} (ha : a ∈ rpcOperationCounters)
    (ha' : a' ∈ rpcOperationCounters) (hc : c ∈ rpcOperations) (hc' : c' ∈ rpcOperations) :
    sprintf3 a b c = sprintf3 a' b' c' ↔ a = a' ∧ b = b' ∧ c = c' := by
  constructor
  · exact sprintf3_inj (noDot_counter ha) (noDot_counter ha') (noDot_op hc) (noDot_op hc')
  · rintro ⟨rfl, rfl, rfl⟩; rfl

/-- `rpcFields` changes only keys of the device and operation it is called for. -/
theorem rpcFields_lookup_other (pf : String → Except String F64) (d op : String) (K : String)
    (hK : ∀ kind ∈ rpcOperationCounters, K ≠ sprintf3 kind d (toLower op))
    (toks : List String) (i : Nat) (stats : Stats) (r : Stats × Option String)
    (h : rpcFields pf d op i toks stats = some r) : r.1.lookup K = stats.lookup K := by
  induction toks generalizing i stats with
  | nil => simp [rpcFields] at h; subst h; rfl
  | cons tok toks ih =>
    unfold rpcFields at h
    cases hp : pf tok with
    | error e => simp [hp] at h; subst h; rfl
    | ok v =>
      simp only [hp] at h
      cases hk : rpcOperationCounters[i]? with
      | none => simp [hk] at h
      | some kind =>
        simp only [hk] at h
        rw [ih _ _ h]
        exact AList.lookup_insert_ne (hK kind (List.getElem?_mem hk))

/-- `rpcFields` does not panic while the index stays inside the table. -/
theorem rpcFields_isSome (pf : String → Except String F64) (d op : String)
    (toks : List String) (i : Nat) (stats : Stats) (h : i + toks.length ≤ 8) :
    ∃ r, rpcFields pf d op i toks stats = some r := by
  induction toks generalizing i stats with
  | nil => exact ⟨_, rfl⟩
  | cons tok toks ih =>
    unfold rpcFields
    cases hp : pf tok with
    | error e => exact ⟨_, rfl⟩
    | ok v =>
      simp only [List.length_cons] at h
      have hi : i < rpcOperationCounters.length := by simp; omega
      rw [List.getElem?_eq_getElem hi]
      exact ih (i + 1) _ (by omega)

/-- On numeric tokens `rpcFields` stores the token at position `j` under the kind `i + j`. -/
theorem rpcFields_numeric (pf : String → Except String F64) (d op : String)
    (hop : toLower op ∈ rpcOperations)
    (toks : List String) (vals : List F64) (i : Nat) (stats : Stats)
    (hlen : i + toks.length ≤ 8) (hvals : toks.map pf = vals.map Except.ok) :
    ∃ stats', rpcFields pf d op i toks stats = some (stats', none) ∧
      (∀ j (hj : j < vals.length) (kind : String), rpcOperationCounters[i + j]? = some kind →
        stats'.lookup (sprintf3 kind d (toLower op)) = some vals[j]) ∧
      (∀ j kind, j < i → rpcOperationCounters[j]? = some kind →
        stats'.lookup (sprintf3 kind d (toLower op)) =
          stats.lookup (sprintf3 kind d (toLower op))) := by
  induction toks generalizing i stats vals with
  | nil =>
    cases vals with
    | nil => exact ⟨stats, rfl, by simp, by simp⟩
    | cons v vs => simp at hvals
  | cons tok toks ih =>
    cases vals with
    | nil => simp at hvals
    | cons v vs =>
      simp only [List.map_cons, List.cons.injEq] at hvals
      obtain ⟨hv, hrest⟩ := hvals
      simp only [List.length_cons] at hlen
      have hi : i < rpcOperationCounters.length := by simp; omega
      unfold rpcFields
      simp only [hv, List.getElem?_eq_getElem hi]
      obtain ⟨stats', h1, h2, h3⟩ := ih vs (i + 1)
        (stats.insert (sprintf3 rpcOperationCounters[i] d (toLower op)) v) (by omega) hrest
      refine ⟨stats', h1, ?_, ?_⟩
      · intro j hj kind hk
        cases j with
        | zero =>
          simp only [Nat.add_zero, List.getElem?_eq_getElem hi, Option.some.injEq] at hk
          rw [h3 i kind (by omega) (by rw [List.getElem?_eq_getElem hi, hk]), ← hk]
          simp
        | succ j =>
          have := h2 j (by simpa using hj) kind (by rw [← hk]; congr 1; omega)
          simpa using this
      · intro j kind hj hk
        rw [h3 j kind (by omega) hk]
        apply AList.lookup_insert_ne
        intro e
        have hjk : kind ∈ rpcOperationCounters := List.getElem?_mem hk
        have hik : rpcOperationCounters[i] ∈ rpcOperationCounters := List.getElem_mem _
        have := (counterKey_eq_iff hjk hik hop hop).mp e
        have hnd : rpcOperationCounters.Nodup := by decide
        have hj' : j < rpcOperationCounters.length := by omega
        rw [List.getElem?_eq_getElem hj'] at hk
        simp only [Option.some.injEq] at hk
        have := (List.Nodup.getElem_inj_iff hnd).mp (hk.trans this.1)
        omega

theorem splitAux_tokens_ne_nil (l : List Char) : ∀ t ∈ (splitAux l).2, t ≠ [] := by
  induction l with
  | nil => simp [splitAux]
  | cons c cs ih =>
    unfold splitAux
    by_cases hc : isSpace c = true
    · simp only [hc, if_true]
      intro t ht
      unfold pushTok at ht
      by_cases he : (splitAux cs).1.isEmpty = true
      · rw [if_pos he] at ht; exact ih t ht
      · rw [if_neg he] at ht
        rcases List.mem_cons.mp ht with e | e
        · subst e; intro h0; simp [h0] at he
        · exact ih t e
    · simp only [hc]
      exact ih

theorem fieldsL_tokens_ne_nil (l : List Char) : ∀ t ∈ fieldsL l, t ≠ [] := by
  intro t ht
  unfold fieldsL pushTok at ht
  by_cases he : (splitAux l).1.isEmpty = true
  · rw [if_pos he] at ht; exact splitAux_tokens_ne_nil l t ht
  · rw [if_neg he] at ht
    rcases List.mem_cons.mp ht with e | e
    · subst e; intro h0; simp [h0] at he
    · exact splitAux_tokens_ne_nil l t e

theorem fields_tokens_ne_nil (s : String) : ∀ t ∈ fields s, t.data ≠ [] := by
  intro t ht
  unfold fields at ht
  obtain ⟨u, hu, rfl⟩ := List.mem_map.mp ht
  exact fieldsL_tokens_ne_nil _ u hu

theorem utf8EncodeChar_ne_nil (c : Char) : String.utf8EncodeChar c ≠ [] := by
  unfold String.utf8EncodeChar
  simp only
  split_ifs <;> simp

theorem utf8_ne_nil {s : String} (h : s.data ≠ []) : (utf8 s).isEmpty = false := by
  unfold utf8
  cases hd : s.data with
  | nil => exact absurd hd h
  | cons c cs =>
    simp only [List.flatMap_cons]
    cases he : String.utf8EncodeChar c with
    | nil => exact absurd he (utf8EncodeChar_ne_nil c)
    | cons b bs => rfl

/-! ## Lemmas: the loop over the lines of one mount -/

theorem blockStep_trimSpace (pf : String → Except String F64) (d : String) (st : Bool × Stats)
    (line : String) : blockStep pf d st (trimSpace line) = blockStep pf d st line := by
  simp only [blockStep, fields_trimSpace]

theorem foldlM_blockStep_trimSpace (pf : String → Except String F64) (d : String)
    (lines : List String) (st : Bool × Stats) :
    (lines.map trimSpace).foldlM (blockStep pf d) st = lines.foldlM (blockStep pf d) st := by
  induction lines generalizing st with
  | nil => rfl
  | cons l ls ih =>
    simp only [List.map_cons, List.foldlM_cons, blockStep_trimSpace]
    cases blockStep pf d st l with
    | none => rfl
    | some st1 => exact ih st1

theorem parseRPCLine_op (pf : String → Except String F64) (stats : Stats) (d : String)
    {name r0 : String} (rest : List String) (hname : name = "READ" ∨ name = "WRITE")
    (hr0 : r0.data ≠ []) (hop : (utf8 r0).dropLast = utf8 name) :
    parseRPCLine pf stats d (r0 :: rest) = rpcFields pf d name 0 rest stats := by
  unfold parseRPCLine
  simp only [utf8_ne_nil hr0, hop]
  rcases hname with h | h <;> subst h
  · simp
  · have : utf8 "WRITE" ≠ utf8 "READ" := by decide
    simp [this]

theorem parseRPCLine_other (pf : String → Except String F64) (stats : Stats) (d : String)
    {r0 : String} (rest : List String) (hr0 : r0.data ≠ [])
    (h1 : (utf8 r0).dropLast ≠ utf8 "READ") (h2 : (utf8 r0).dropLast ≠ utf8 "WRITE") :
    parseRPCLine pf stats d (r0 :: rest) = some (stats, none) := by
  unfold parseRPCLine
  simp [utf8_ne_nil hr0, h1, h2]

theorem blockStep_isSome (pf : String → Except String F64) (d : String) (st : Bool × Stats)
    {line : String} (hw : rpcWidthOk line = true) :
    ∃ st', blockStep pf d st line = some st' ∧ (st.1 = true → st'.1 = true) := by
  unfold blockStep
  cases hf : fields line with
  | nil => exact ⟨st, rfl, id⟩
  | cons r0 rest =>
    simp only
    by_cases h1 : (!st.1 && r0 != "RPC") = true
    · rw [if_pos h1]; exact ⟨st, rfl, id⟩
    · rw [if_neg h1]
      by_cases h2 : r0 = "RPC" ∨ r0 = "xprt:" ∨ r0 = "per-op"
      · rw [if_pos h2]; exact ⟨_, rfl, fun _ => rfl⟩
      · rw [if_neg h2]
        have hr0 : r0.data ≠ [] := fields_tokens_ne_nil line r0 (by rw [hf]; exact List.mem_cons_self _ _)
        have hsome : ∃ r, parseRPCLine pf st.2 d (r0 :: rest) = some r := by
          unfold rpcWidthOk isOpLine at hw
          simp only [hf, Bool.or_eq_true, Bool.and_eq_true, Bool.not_eq_true', beq_eq_false_iff_ne,
            ne_eq, List.length_cons, decide_eq_true_eq] at hw
          by_cases hR : (utf8 r0).dropLast = utf8 "READ"
          · rw [parseRPCLine_op pf st.2 d rest (Or.inl rfl) hr0 hR]
            rcases hw with hw | hw
            · exact absurd hR hw.1
            · exact rpcFields_isSome pf d _ rest 0 st.2 (by omega)
          · by_cases hW : (utf8 r0).dropLast = utf8 "WRITE"
            · rw [parseRPCLine_op pf st.2 d rest (Or.inr rfl) hr0 hW]
              rcases hw with hw | hw
              · exact absurd hW hw.2
              · exact rpcFields_isSome pf d _ rest 0 st.2 (by omega)
            · exact ⟨_, parseRPCLine_other pf st.2 d rest hr0 hR hW⟩
        obtain ⟨r, hr⟩ := hsome
        rw [hr]
        exact ⟨_, rfl, fun _ => rfl⟩

theorem blockStep_rpc (pf : String → Except String F64) (d : String) (st : Bool × Stats)
    {line : String} (h : (fields line).head? = some "RPC") :
    blockStep pf d st line = some (true, st.2) := by
  unfold blockStep
  cases hf : fields line with
  | nil => simp [hf] at h
  | cons r0 rest =>
    simp only [hf, List.head?_cons, Option.some.injEq] at h
    subst h
    simp

/-- A line that is not an operation line of `name` leaves the keys of `name` as they are. -/
theorem blockStep_lookup_other (pf : String → Except String F64) (d : String)
    (st st' : Bool × Stats) {line name kind : String} (hname : name = "READ" ∨ name = "WRITE")
    (hkind : kind ∈ rpcOperationCounters) (hno : isOpLine name line = false)
    (h : blockStep pf d st line = some st') :
    st'.2.lookup (sprintf3 kind d (toLower name)) = st.2.lookup (sprintf3 kind d (toLower name)) := by
  unfold blockStep at h
  cases hf : fields line with
  | nil => simp [hf] at h; subst h; rfl
  | cons r0 rest =>
    simp only [hf] at h
    by_cases h1 : (!st.1 && r0 != "RPC") = true
    · rw [if_pos h1] at h; cases h; rfl
    · rw [if_neg h1] at h
      by_cases h2 : r0 = "RPC" ∨ r0 = "xprt:" ∨ r0 = "per-op"
      · rw [if_pos h2] at h; cases h; rfl
      · rw [if_neg h2] at h
        have hr0 : r0.data ≠ [] := fields_tokens_ne_nil line r0 (by rw [hf]; exact List.mem_cons_self _ _)
        unfold isOpLine at hno
        simp only [hf, beq_eq_false_iff_ne, ne_eq] at hno
        cases hp : parseRPCLine pf st.2 d (r0 :: rest) with
        | none => simp [hp] at h
        | some r =>
          simp only [hp, Option.some.injEq] at h
          subst h
          show r.1.lookup _ = _
          have other : ∀ name' : String, (name' = "READ" ∨ name' = "WRITE") → name' ≠ name →
              ∀ k' ∈ rpcOperationCounters,
                sprintf3 kind d (toLower name) ≠ sprintf3 k' d (toLower name') := by
            intro name' hn' hne k' hk' e
            have m1 : toLower name ∈ rpcOperations := by
              rcases hname with h | h <;> subst h <;> decide
            have m2 : toLower name' ∈ rpcOperations := by
              rcases hn' with h | h <;> subst h <;> decide
            have := ((counterKey_eq_iff hkind hk' m1 m2).mp e).2.2
            rcases hname with h | h <;> rcases hn' with h' | h' <;> subst h <;> subst h' <;>
              first | exact hne rfl | exact absurd this (by decide)
          by_cases hR : (utf8 r0).dropLast = utf8 "READ"
          · rw [parseRPCLine_op pf st.2 d rest (Or.inl rfl) hr0 hR] at hp
            have hne : ("READ" : String) ≠ name := fun e => hno (e ▸ hR)
            exact rpcFields_lookup_other pf d "READ" _ (other "READ" (Or.inl rfl) hne) rest 0 _ _ hp
          · by_cases hW : (utf8 r0).dropLast = utf8 "WRITE"
            · rw [parseRPCLine_op pf st.2 d rest (Or.inr rfl) hr0 hW] at hp
              have hne : ("WRITE" : String) ≠ name := fun e => hno (e ▸ hW)
              exact rpcFields_lookup_other pf d "WRITE" _ (other "WRITE" (Or.inr rfl) hne) rest 0 _ _ hp
            · rw [parseRPCLine_other pf st.2 d rest hr0 hR hW] at hp
              cases hp; rfl

theorem foldlM_blockStep_isSome (pf : String → Except String F64) (d : String)
    (ls : List String) (hw : ∀ l ∈ ls, rpcWidthOk l = true) (st : Bool × Stats) :
    ∃ st', ls.foldlM (blockStep pf d) st = some st' ∧ (st.1 = true → st'.1 = true) := by
  induction ls generalizing st with
  | nil => exact ⟨st, rfl, id⟩
  | cons l ls ih =>
    obtain ⟨st1, h1, f1⟩ := blockStep_isSome pf d st (hw l (List.mem_cons_self _ _))
    obtain ⟨st2, h2, f2⟩ := ih (fun x hx => hw x (List.mem_cons_of_mem _ hx)) st1
    refine ⟨st2, ?_, fun h => f2 (f1 h)⟩
    rw [List.foldlM_cons, h1]
    exact h2

theorem foldlM_blockStep_lookup_other (pf : String → Except String F64) (d : String)
    {name kind : String} (hname : name = "READ" ∨ name = "WRITE")
    (hkind : kind ∈ rpcOperationCounters) (ls : List String)
    (hno : ∀ l ∈ ls, isOpLine name l = false) (st st' : Bool × Stats)
    (h : ls.foldlM (blockStep pf d) st = some st') :
    st'.2.lookup (sprintf3 kind d (toLower name)) = st.2.lookup (sprintf3 kind d (toLower name)) := by
  induction ls generalizing st with
  | nil => cases h; rfl
  | cons l ls ih =>
    rw [List.foldlM_cons] at h
    cases h1 : blockStep pf d st l with
    | none => simp [h1] at h
    | some st1 =>
      simp only [h1, Option.bind_eq_bind, Option.some_bind] at h
      rw [ih (fun x hx => hno x (List.mem_cons_of_mem _ hx)) st1 h]
      exact blockStep_lookup_other pf d st st1 hname hkind (hno l (List.mem_cons_self _ _)) h1

/-- With the marker seen, an operation line of eight numeric fields stores them in order. -/
theorem blockStep_data (pf : String → Except String F64) (d : String) (stats : Stats)
    {line name : String} {toks : List String} {vals : List F64}
    (hname : name = "READ" ∨ name = "WRITE") (hf : fields line = (name ++ ":") :: toks)
    (hlen : toks.length ≤ 8) (hvals : toks.map pf = vals.map Except.ok) :
    ∃ stats', blockStep pf d (true, stats) line = some (true, stats') ∧
      ∀ j (hj : j < vals.length) (kind : String), rpcOperationCounters[j]? = some kind →
        stats'.lookup (sprintf3 kind d (toLower name)) = some vals[j] := by
  have hr0 : (name ++ ":").data ≠ [] := by rcases hname with h | h <;> subst h <;> decide
  have hop : (utf8 (name ++ ":")).dropLast = utf8 name := by
    rcases hname with h | h <;> subst h <;> decide
  have hne : ¬ (name ++ ":" = "RPC" ∨ name ++ ":" = "xprt:" ∨ name ++ ":" = "per-op") := by
    rcases hname with h | h <;> subst h <;> decide
  have hlow : toLower name ∈ rpcOperations := by rcases hname with h | h <;> subst h <;> decide
  obtain ⟨stats', h1, h2, _⟩ := rpcFields_numeric pf d name hlow toks vals 0 stats (by omega) hvals
  refine ⟨stats', ?_, ?_⟩
  · unfold blockStep
    simp only [hf, Bool.not_true, Bool.false_and, Bool.false_eq_true, if_false, if_neg hne]
    rw [parseRPCLine_op pf stats d toks hname hr0 hop, h1]
  · intro j hj kind hk
    exact h2 j hj kind (by simpa using hk)

/-! ## Lemmas: a report with a single mount -/

theorem isBlockLine_of_skipped {l : String} (h : isSkipped l = true) : isBlockLine l = false := by
  unfold isSkipped at h
  unfold isBlockLine
  by_cases h1 : hasPrefix l "no device mounted" = true
  · simp [h1]
  · cases hf : fields l with
    | nil => simp
    | cons r0 rs =>
      simp only [hf, h1, List.isEmpty_cons, Bool.false_or, List.head?_cons, Bool.and_eq_true,
        beq_iff_eq] at h
      simp [h.1]

theorem isBlockLine_of_head {l t : String} (h : (fields l).head? = some t) (ht : t ≠ "device")
    (hno : t ≠ "no") : isBlockLine l = true := by
  unfold isBlockLine
  have h1 : hasPrefix l "no device mounted" = false := by
    by_contra hc
    obtain ⟨rest, hr⟩ := fields_of_no_device (Bool.eq_true_of_not_eq_false hc)
    rw [hr] at h
    simp only [List.head?_cons, Option.some.injEq] at h
    exact hno h.symm
  cases hf : fields l with
  | nil => simp [hf] at h
  | cons r0 rs =>
    simp only [hf, List.head?_cons, Option.some.injEq] at h
    subst h
    simp [h1, ht]

theorem init_enter_push (p line : String) :
    (ScanState.init.enter p).push line = ScanState.single p [trimSpace line] := by
  unfold ScanState.enter ScanState.init ScanState.push ScanState.single
  by_cases h : ("" : String) = p
  · subst h; simp [AList.insert_empty]
  · simp [h, AList.insert_empty]

theorem single_push (p line : String) (vals : List String) :
    (ScanState.single p vals).push line = ScanState.single p (vals ++ [trimSpace line]) := by
  simp [ScanState.push, ScanState.single, AList.insert_singleton_eq]

theorem foldlM_scanStep_single (p : String) (lines : List String)
    (h : ∀ l ∈ lines, isSkipped l = true ∨ isBlockLine l = true) (vals : List String) :
    lines.foldlM scanStep (ScanState.single p vals) =
      some (ScanState.single p (vals ++ (lines.filter isBlockLine).map trimSpace)) := by
  induction lines generalizing vals with
  | nil => simp
  | cons l ls ih =>
    have hl := h l (List.mem_cons_self _ _)
    have hls := fun x hx => h x (List.mem_cons_of_mem _ hx)
    rw [List.foldlM_cons]
    rcases hl with k | k
    · rw [scanStep_skipped k]
      simp only [Option.bind_eq_bind, Option.some_bind]
      rw [ih hls, List.filter_cons_of_neg (by simp [isBlockLine_of_skipped k])]
    · rw [scanStep_block k]
      simp only [Option.bind_eq_bind, Option.some_bind]
      rw [single_push, ih hls, List.filter_cons_of_pos k]
      simp

theorem isOpLine_of_head {l t name : String} (h : (fields l).head? = some t)
    (hne : (utf8 t).dropLast ≠ utf8 name) : isOpLine name l = false := by
  unfold isOpLine
  cases hf : fields l with
  | nil => rfl
  | cons r0 rs =>
    simp only [hf, List.head?_cons, Option.some.injEq] at h
    subst h
    simpa using hne

theorem rpcWidthOk_of_head {l t : String} (h : (fields l).head? = some t)
    (h1 : (utf8 t).dropLast ≠ utf8 "READ") (h2 : (utf8 t).dropLast ≠ utf8 "WRITE") :
    rpcWidthOk l = true := by
  simp [rpcWidthOk, isOpLine_of_head h h1, isOpLine_of_head h h2]

theorem head_of_isNfsDevice {l : String} (h : isNfsDevice l = true) :
    (fields l).head? = some "device" := by
  unfold isNfsDevice at h
  simp only [Bool.and_eq_true, beq_iff_eq] at h
  exact h.1.2

/-- The second loop on the lines of one mount that hold the marker and then an operation line
of eight numeric fields, the last of its operation. -/
theorem foldlM_blockStep_block (pf : String → Except String F64) (d : String)
    (a b2 b3 : List String) (rpc rd name : String) (toks : List String) (vals : List F64)
    (hname : name = "READ" ∨ name = "WRITE")
    (ha : ∀ l ∈ a, rpcWidthOk l = true) (h2 : ∀ l ∈ b2, rpcWidthOk l = true)
    (h3 : ∀ l ∈ b3, rpcWidthOk l = true)
    (hrpc : (fields rpc).head? = some "RPC")
    (hrd : fields rd = (name ++ ":") :: toks)
    (hlen : toks.length ≤ 8) (hvals : toks.map pf = vals.map Except.ok)
    (hlast : ∀ l ∈ b3, isOpLine name l = false) :
    ∃ st, (a ++ rpc :: (b2 ++ rd :: b3)).foldlM (blockStep pf d) (false, ∅) = some st ∧
      ∀ j (hj : j < vals.length) (kind : String), rpcOperationCounters[j]? = some kind →
        st.2.lookup (sprintf3 kind d (toLower name)) = some vals[j] := by
  obtain ⟨s1, e1, _⟩ := foldlM_blockStep_isSome pf d a ha (false, ∅)
  have e2 := blockStep_rpc pf d s1 hrpc
  obtain ⟨s3, e3, f3⟩ := foldlM_blockStep_isSome pf d b2 h2 (true, s1.2)
  have hs3 : s3 = (true, s3.2) := by
    have := f3 rfl
    cases s3; simp_all
  obtain ⟨stats4, e4, l4⟩ := blockStep_data pf d s3.2 hname hrd hlen hvals
  rw [← hs3] at e4
  obtain ⟨s5, e5, _⟩ := foldlM_blockStep_isSome pf d b3 h3 (true, stats4)
  refine ⟨s5, ?_, ?_⟩
  · rw [List.foldlM_append, e1]
    simp only [Option.bind_eq_bind, Option.some_bind, List.foldlM_cons, e2]
    rw [List.foldlM_append, e3]
    simp only [Option.bind_eq_bind, Option.some_bind, List.foldlM_cons, e4]
    exact e5
  · intro j hj kind hk
    rw [foldlM_blockStep_lookup_other pf d hname (List.getElem?_mem hk) b3 hlast _ _ e5]
    exact l4 j hj kind hk

/-- C7 as amended: take a report with one retained NFS `device` line, of mount path `p`, in
which every line before it is passed over by the first loop, every other line after it is passed
over or is a line of the block (so no second `device` line is retained or too short), and every
`READ` or `WRITE` line has at most eight fields after the name. If a line whose first token is
`RPC` follows the `device` line, and later a line `READ: v1 ... v8` (resp. `WRITE:`) of eight
numeric fields that is the last `READ` (resp. `WRITE`) line, then `parseMountStats` succeeds,
returns the one device `sanitize p`, and maps `<kind_i>.<sanitize p>.read` (resp. `.write`) to
`v_i` for the kinds ops, trans, timeouts, bytes_sent, bytes_recv, queue, rtt, execute. -/
theorem parseMountStats_single_mount (parseFloat : String → Except String F64)
    (order : List (Sigma (fun _ : String => List String)) →
      List (Sigma (fun _ : String => List String)))
    (horder : ∀ l, (order l).Perm l)
    (pre b1 b2 b3 : List String) (dev rpc rd name : String) (toks : List String)
    (vals : List F64)
    (hpre : ∀ l ∈ pre, isSkipped l = true)
    (hdev : isNfsDevice dev = true)
    (hb : ∀ l ∈ b1 ++ b2 ++ b3, isSkipped l = true ∨ isBlockLine l = true)
    (hw : ∀ l ∈ b1 ++ b2 ++ b3, rpcWidthOk l = true)
    (hrpc : (fields rpc).head? = some "RPC")
    (hname : name = "READ" ∨ name = "WRITE")
    (hrd : fields rd = (name ++ ":") :: toks)
    (hlen : toks.length = 8) (hvals : toks.map parseFloat = vals.map Except.ok)
    (hlast : ∀ l ∈ b3, isOpLine name l = false) :
    ∃ stats, parseMountStats parseFloat order (pre ++ dev :: (b1 ++ rpc :: (b2 ++ rd :: b3))) =
        some (.ok ([sanitize (mountPath dev)], stats)) ∧
      ∀ kv ∈ List.zip rpcOperationCounters vals,
        stats.lookup (sprintf3 kv.1 (sanitize (mountPath dev)) (toLower name)) = some kv.2 := by
  have hrpcB : isBlockLine rpc = true := isBlockLine_of_head hrpc (by decide) (by decide)
  have hrdB : isBlockLine rd = true :=
    isBlockLine_of_head (t := name ++ ":") (by rw [hrd]; rfl)
      (by rcases hname with h | h <;> subst h <;> decide)
      (by rcases hname with h | h <;> subst h <;> decide)
  have hpost : ∀ l ∈ b1 ++ rpc :: (b2 ++ rd :: b3), isSkipped l = true ∨ isBlockLine l = true := by
    intro l hl
    simp only [List.mem_append, List.mem_cons] at hl
    rcases hl with h | h | h | h | h
    · exact hb l (by simp [h])
    · exact Or.inr (h ▸ hrpcB)
    · exact hb l (by simp [h])
    · exact Or.inr (h ▸ hrdB)
    · exact hb l (by simp [h])
  -- the first loop
  have scan : (pre ++ dev :: (b1 ++ rpc :: (b2 ++ rd :: b3))).foldlM scanStep ScanState.init =
      some (ScanState.single (mountPath dev) ((dev :: (b1.filter isBlockLine ++
        rpc :: (b2.filter isBlockLine ++ rd :: b3.filter isBlockLine))).map trimSpace)) := by
    rw [List.foldlM_append, foldlM_scanStep_skipped pre hpre]
    simp only [Option.bind_eq_bind, Option.some_bind, List.foldlM_cons, scanStep_nfs hdev,
      init_enter_push]
    rw [foldlM_scanStep_single _ _ hpost]
    simp [List.filter_append, List.filter_cons, hrpcB, hrdB]
  -- the second loop
  have hdevW : rpcWidthOk dev = true :=
    rpcWidthOk_of_head (head_of_isNfsDevice hdev) (by decide) (by decide)
  have memF : ∀ (b : List String), (∀ l ∈ b, l ∈ b1 ++ b2 ++ b3) →
      ∀ l ∈ b.filter isBlockLine, rpcWidthOk l = true :=
    fun b hbm l hl => hw l (hbm l (List.mem_filter.mp hl).1)
  obtain ⟨st, hst, hlook⟩ := foldlM_blockStep_block parseFloat (sanitize (mountPath dev))
    (dev :: b1.filter isBlockLine) (b2.filter isBlockLine) (b3.filter isBlockLine) rpc rd name
    toks vals hname
    (by
      intro l hl
      rcases List.mem_cons.mp hl with e | e
      · exact e ▸ hdevW
      · exact memF b1 (fun x hx => by simp [hx]) l e)
    (memF b2 (fun x hx => by simp [hx])) (memF b3 (fun x hx => by simp [hx]))
    hrpc hrd (by omega) hvals (fun l hl => hlast l (List.mem_filter.mp hl).1)
  refine ⟨st.2, ?_, ?_⟩
  · unfold parseMountStats
    rw [scan]
    have hent : (ScanState.single (mountPath dev) ((dev :: (b1.filter isBlockLine ++
        rpc :: (b2.filter isBlockLine ++ rd :: b3.filter isBlockLine))).map trimSpace)).mounts.entries
        = [⟨mountPath dev, (dev :: (b1.filter isBlockLine ++
        rpc :: (b2.filter isBlockLine ++ rd :: b3.filter isBlockLine))).map trimSpace⟩] := rfl
    simp only [hent, List.length_singleton]
    rw [List.perm_singleton.mp (horder _)]
    have hst' : (dev :: (b1.filter isBlockLine ++ rpc :: (b2.filter isBlockLine ++
        rd :: b3.filter isBlockLine))).foldlM (blockStep parseFloat (sanitize (mountPath dev)))
        (false, ∅) = some st := by simpa using hst
    have hm : mountStep parseFloat ([], ∅) ⟨mountPath dev, (dev :: (b1.filter isBlockLine ++
        rpc :: (b2.filter isBlockLine ++ rd :: b3.filter isBlockLine))).map trimSpace⟩ =
        some ([sanitize (mountPath dev)], st.2) := by
      unfold mountStep
      simp only [foldlM_blockStep_trimSpace]
      rw [hst']
      rfl
    simp only [List.foldlM_cons, List.foldlM_nil, hm]
    rfl
  · intro kv hkv
    obtain ⟨j, hj, hje⟩ := List.getElem_of_mem hkv
    have hj2 : j < vals.length := by
      have := hj
      simp only [List.length_zip] at this
      omega
    have hj1 : j < rpcOperationCounters.length := by
      have := hj
      simp only [List.length_zip] at this
      omega
    have hkv' : kv = (rpcOperationCounters[j], vals[j]) := by
      rw [← hje, List.getElem_zip]
    rw [hkv']
    exact hlook j hj2 _ (List.getElem?_eq_getElem hj1)

/-- Witness for C7 as amended: the report of `nfs_test.go` gives the device `mnt`,
`ops.mnt.read = 43026` and `bytes_sent.mnt.read = 7228368`. -/
theorem parseMountStats_single_mount_witness :
    ∃ stats, parseMountStats parseFloatDigits id testReport = some (.ok (["mnt"], stats)) ∧
      stats.lookup "ops.mnt.read" = some (F64.fin 43026) ∧
      stats.lookup "bytes_sent.mnt.read" = some (F64.fin 7228368) := by
  obtain ⟨stats, h1, h2⟩ := parseMountStats_single_mount parseFloatDigits id
    (fun l => List.Perm.refl l)
    (testReport.take 11) ((testReport.drop 12).take 7) ((testReport.drop 20).take 3)
    (testReport.drop 24) (testReport.getD 11 "") (testReport.getD 19 "") (testReport.getD 23 "")
    "READ" ["43026", "43026", "0", "7228368", "34778206720", "1782", "2197001", "2206478"]
    [F64.fin 43026, F64.fin 43026, F64.fin 0, F64.fin 7228368, F64.fin 34778206720,
      F64.fin 1782, F64.fin 2197001, F64.fin 2206478]
    (by decide) (by decide) (by decide) (by decide) (by decide) (by decide) (by decide)
    (by decide) (by decide!) (by decide)
  have e : testReport = testReport.take 11 ++ testReport.getD 11 "" ::
      ((testReport.drop 12).take 7 ++ testReport.getD 19 "" ::
        ((testReport.drop 20).take 3 ++ testReport.getD 23 "" :: testReport.drop 24)) := by
    rfl
  rw [← e] at h1
  have hs : sanitize (mountPath (testReport.getD 11 "")) = "mnt" := by decide
  rw [hs] at h1 h2
  refine ⟨stats, h1, ?_, ?_⟩
  · exact h2 ("ops", F64.fin 43026) (by decide!)
  · exact h2 ("bytes_sent", F64.fin 7228368) (by decide!)

/-- Counterexample to C7: two reports with exactly one retained NFS `device` line, followed by
an `RPC` line and a `READ` line of eight numeric fields. With a line ahead of the `device` line
two devices are returned, not one; with a second `READ` line behind the first, `ops.mnt.read` is
the value of the second line, not `43026`. -/
theorem single_mount_needs_side_conditions :
    (parseMountStats parseFloatDigits id ("\tage:\t1969800" :: minimalReport)).devices =
        some ["mnt", ""] ∧
      ((parseMountStats parseFloatDigits id (minimalReport ++ [secondReadLine])).stats.bind
        (fun m => m.lookup "ops.mnt.read")) = some (F64.fin 1) := by
  refine ⟨by decide!, by decide!⟩

/-! ## Lemmas: where stored lines and counters come from -/

theorem currentKey_append_one (xs : List String) (l : String) :
    currentKey (xs ++ [l]) = if isNfsDevice l = true then mountPath l else currentKey xs := by
  simp [currentKey, List.foldl_append]

theorem isSkipped_of_block {l : String} (h : isBlockLine l = true) : isSkipped l = false := by
  by_contra hc
  have := isBlockLine_of_skipped (Bool.eq_true_of_not_eq_false hc)
  rw [h] at this
  cases this

theorem isNfsDevice_of_block {l : String} (h : isBlockLine l = true) : isNfsDevice l = false := by
  unfold isBlockLine at h
  unfold isNfsDevice
  cases hf : fields l with
  | nil => simp
  | cons r0 rs =>
    simp only [hf, Bool.and_eq_true, Bool.not_eq_true', List.isEmpty_cons, Bool.not_false,
      List.head?_cons, bne_iff_ne, ne_eq, Option.some.injEq, and_true] at h
    simp [h.2]

theorem isNfsDevice_of_skipped {l : String} (h : isSkipped l = true) : isNfsDevice l = false := by
  unfold isSkipped at h
  unfold isNfsDevice
  by_cases h1 : hasPrefix l "no device mounted" = true
  · simp [h1]
  · cases hf : fields l with
    | nil => simp
    | cons r0 rs =>
      simp only [hf, h1, List.isEmpty_cons, Bool.false_or, List.head?_cons, Bool.and_eq_true,
        beq_iff_eq] at h
      obtain ⟨_, h3⟩ := h
      cases h7 : (r0 :: rs)[7]? with
      | none => simp [h7]
      | some f =>
        simp only [h7] at h3
        simp only [h7]
        simp [h3]
        simp only [Bool.not_eq_true', Bool.or_eq_false_iff] at h3
        simp [h3]

theorem isSkipped_of_nfs {l : String} (h : isNfsDevice l = true) : isSkipped l = false := by
  by_contra hc
  have := isNfsDevice_of_skipped (Bool.eq_true_of_not_eq_false hc)
  rw [h] at this
  cases this

theorem Origin.extend {lines : List String} {k s : String} (h : Origin lines k s)
    (rest : List String) : Origin (lines ++ rest) k s := by
  obtain ⟨pre, line, post, e, h1, h2, h3⟩ := h
  exact ⟨pre, line, post ++ rest, by simp [e], h1, h2, h3⟩

theorem Origin.last (processed : List String) {l : String} (h : isSkipped l = false) :
    Origin (processed ++ [l]) (currentKey (processed ++ [l])) (trimSpace l) :=
  ⟨processed, l, [], rfl, h, rfl, rfl⟩

theorem ScanInv.init : ScanInv [] ScanState.init :=
  ⟨rfl, by simp [ScanState.init], by simp [ScanState.init]⟩

theorem ScanInv.push {processed : List String} {st : ScanState} {l : String}
    (hkey : st.key = currentKey (processed ++ [l]))
    (hvals : ∀ s ∈ st.values, Origin processed st.key s)
    (hmounts : ∀ k vals, st.mounts.lookup k = some vals →
      vals ≠ [] ∧ ∀ s ∈ vals, Origin processed k s)
    (hl : isSkipped l = false) : ScanInv (processed ++ [l]) (st.push l) := by
  have hnew : ∀ s ∈ st.values ++ [trimSpace l], Origin (processed ++ [l]) st.key s := by
    intro s hs
    rcases List.mem_append.mp hs with h | h
    · exact (hvals s h).extend [l]
    · rw [List.mem_singleton] at h
      subst h
      rw [hkey]
      exact Origin.last processed hl
  refine ⟨hkey, hnew, ?_⟩
  intro k vals hk
  simp only [ScanState.push] at hk
  by_cases e : k = st.key
  · subst e
    rw [AList.lookup_insert] at hk
    cases hk
    exact ⟨by simp, hnew⟩
  · rw [AList.lookup_insert_ne e] at hk
    obtain ⟨h1, h2⟩ := hmounts k vals hk
    exact ⟨h1, fun s hs => (h2 s hs).extend [l]⟩

theorem ScanInv.step {processed : List String} {st st' : ScanState} {l : String}
    (inv : ScanInv processed st) (h : scanStep st l = some st') :
    ScanInv (processed ++ [l]) st' := by
  rcases line_kinds l with k | k | k | k
  · rw [scanStep_skipped k] at h
    cases h
    have e : currentKey (processed ++ [l]) = currentKey processed := by
      rw [currentKey_append_one, isNfsDevice_of_skipped k]; simp
    exact ⟨by rw [e]; exact inv.key_eq, fun s hs => (inv.values_origin s hs).extend [l],
      fun k' vals hk => ⟨(inv.mounts_origin k' vals hk).1,
        fun s hs => ((inv.mounts_origin k' vals hk).2 s hs).extend [l]⟩⟩
  · rw [scanStep_block k] at h
    cases h
    have e : currentKey (processed ++ [l]) = currentKey processed := by
      rw [currentKey_append_one, isNfsDevice_of_block k]; simp
    exact ScanInv.push (by rw [e]; exact inv.key_eq) inv.values_origin inv.mounts_origin
      (isSkipped_of_block k)
  · rw [scanStep_nfs k] at h
    cases h
    have e : currentKey (processed ++ [l]) = mountPath l := by
      rw [currentKey_append_one, k]; simp
    apply ScanInv.push
    · unfold ScanState.enter
      by_cases hk : st.key = mountPath l
      · simp [hk, e]
      · simp [hk, e]
    · unfold ScanState.enter
      by_cases hk : st.key = mountPath l
      · simpa [hk] using inv.values_origin
      · simp [hk]
    · unfold ScanState.enter
      by_cases hk : st.key = mountPath l
      · simpa [hk] using inv.mounts_origin
      · simpa [hk] using inv.mounts_origin
    · exact isSkipped_of_nfs k
  · rw [scanStep_short k] at h; cases h

theorem ScanInv.foldlM {processed rest : List String} {st st' : ScanState}
    (inv : ScanInv processed st) (h : rest.foldlM scanStep st = some st') :
    ScanInv (processed ++ rest) st' := by
  induction rest generalizing processed st with
  | nil => cases h; simpa using inv
  | cons l ls ih =>
    rw [List.foldlM_cons] at h
    cases h1 : scanStep st l with
    | none => simp [h1] at h
    | some st1 =>
      simp only [h1, Option.bind_eq_bind, Option.some_bind] at h
      have := ih (inv.step h1) h
      simpa using this

/-- A counter in the map after `rpcFields` was there before, or is a parsed token stored under
its positional kind. -/
theorem rpcFields_lookup_cases (pf : String → Except String F64) (d op : String) (K : String)
    (v : F64) (toks : List String) (i : Nat) (stats : Stats) (r : Stats × Option String)
    (h : rpcFields pf d op i toks stats = some r) (hv : r.1.lookup K = some v) :
    stats.lookup K = some v ∨
      ∃ (j : Nat) (tok kind : String), toks[j]? = some tok ∧ pf tok = .ok v ∧
        rpcOperationCounters[i + j]? = some kind ∧ K = sprintf3 kind d (toLower op) := by
  induction toks generalizing i stats with
  | nil => simp [rpcFields] at h; subst h; exact Or.inl hv
  | cons tok toks ih =>
    unfold rpcFields at h
    cases hp : pf tok with
    | error e => simp [hp] at h; subst h; exact Or.inl hv
    | ok w =>
      simp only [hp] at h
      cases hk : rpcOperationCounters[i]? with
      | none => simp [hk] at h
      | some kind =>
        simp only [hk] at h
        rcases ih (i + 1) _ h with h1 | ⟨j, tok', kind', a, b, c, e⟩
        · by_cases hK : K = sprintf3 kind d (toLower op)
          · subst hK
            rw [AList.lookup_insert] at h1
            cases h1
            exact Or.inr ⟨0, tok, kind, by simp, hp, by simpa using hk, rfl⟩
          · rw [AList.lookup_insert_ne hK] at h1
            exact Or.inl h1
        · refine Or.inr ⟨j + 1, tok', kind', by simpa using a, b, ?_, e⟩
          rw [← c]; congr 1; omega

theorem parseRPCLine_lookup_cases (pf : String → Except String F64) (stats : Stats)
    (d K : String) (v : F64) (r0 : String) (toks : List String) (r : Stats × Option String)
    (h : parseRPCLine pf stats d (r0 :: toks) = some r) (hv : r.1.lookup K = some v) :
    stats.lookup K = some v ∨
      ∃ (name : String) (j : Nat) (tok kind : String), (name = "READ" ∨ name = "WRITE") ∧
        (utf8 r0).dropLast = utf8 name ∧ toks[j]? = some tok ∧ pf tok = .ok v ∧
        rpcOperationCounters[j]? = some kind ∧ K = sprintf3 kind d (toLower name) := by
  unfold parseRPCLine at h
  by_cases he : (utf8 r0).isEmpty = true
  · simp [he] at h
  · simp only [he] at h
    by_cases hR : (utf8 r0).dropLast = utf8 "READ"
    · simp only [hR, if_true] at h
      rcases rpcFields_lookup_cases pf d "READ" K v toks 0 stats r h hv with h1 | ⟨j, t, k, a, b, c, e⟩
      · exact Or.inl h1
      · exact Or.inr ⟨"READ", j, t, k, Or.inl rfl, hR, a, b, by simpa using c, e⟩
    · by_cases hW : (utf8 r0).dropLast = utf8 "WRITE"
      · simp only [hR, hW, if_true, if_false] at h
        rcases rpcFields_lookup_cases pf d "WRITE" K v toks 0 stats r h hv with
          h1 | ⟨j, t, k, a, b, c, e⟩
        · exact Or.inl h1
        · exact Or.inr ⟨"WRITE", j, t, k, Or.inr rfl, hW, a, b, by simpa using c, e⟩
      · simp only [hR, hW, if_false] at h
        cases h
        exact Or.inl hv

theorem blockStep_lookup_cases (pf : String → Except String F64) (d K : String) (v : F64)
    (st st' : Bool × Stats) (s : String) (h : blockStep pf d st s = some st')
    (hv : st'.2.lookup K = some v) :
    st.2.lookup K = some v ∨
      ∃ (r0 : String) (toks : List String) (name : String) (j : Nat) (tok kind : String),
        fields s = r0 :: toks ∧ (name = "READ" ∨ name = "WRITE") ∧
        (utf8 r0).dropLast = utf8 name ∧ toks[j]? = some tok ∧ pf tok = .ok v ∧
        rpcOperationCounters[j]? = some kind ∧ K = sprintf3 kind d (toLower name) := by
  unfold blockStep at h
  cases hf : fields s with
  | nil => simp [hf] at h; subst h; exact Or.inl hv
  | cons r0 toks =>
    simp only [hf] at h
    by_cases h1 : (!st.1 && r0 != "RPC") = true
    · rw [if_pos h1] at h; cases h; exact Or.inl hv
    · rw [if_neg h1] at h
      by_cases h2 : r0 = "RPC" ∨ r0 = "xprt:" ∨ r0 = "per-op"
      · rw [if_pos h2] at h; cases h; exact Or.inl hv
      · rw [if_neg h2] at h
        cases hp : parseRPCLine pf st.2 d (r0 :: toks) with
        | none => simp [hp] at h
        | some r =>
          simp only [hp, Option.some.injEq] at h
          subst h
          rcases parseRPCLine_lookup_cases pf st.2 d K v r0 toks r hp hv with
            h3 | ⟨name, j, t, k, a, b, c, e, f, g⟩
          · exact Or.inl h3
          · exact Or.inr ⟨r0, toks, name, j, t, k, rfl, a, b, c, e, f, g⟩

theorem foldlM_blockStep_lookup_cases (pf : String → Except String F64) (d K : String) (v : F64)
    (vals : List String) (st st' : Bool × Stats)
    (h : vals.foldlM (blockStep pf d) st = some st') (hv : st'.2.lookup K = some v) :
    st.2.lookup K = some v ∨
      ∃ s ∈ vals, ∃ (r0 : String) (toks : List String) (name : String) (j : Nat)
        (tok kind : String),
        fields s = r0 :: toks ∧ (name = "READ" ∨ name = "WRITE") ∧
        (utf8 r0).dropLast = utf8 name ∧ toks[j]? = some tok ∧ pf tok = .ok v ∧
        rpcOperationCounters[j]? = some kind ∧ K = sprintf3 kind d (toLower name) := by
  induction vals generalizing st with
  | nil => cases h; exact Or.inl hv
  | cons s ss ih =>
    rw [List.foldlM_cons] at h
    cases h1 : blockStep pf d st s with
    | none => simp [h1] at h
    | some st1 =>
      simp only [h1, Option.bind_eq_bind, Option.some_bind] at h
      rcases ih st1 h with h2 | ⟨s', hs', rest⟩
      · rcases blockStep_lookup_cases pf d K v st st1 s h1 h2 with h3 | h3
        · exact Or.inl h3
        · exact Or.inr ⟨s, List.mem_cons_self _ _, h3⟩
      · exact Or.inr ⟨s', List.mem_cons_of_mem _ hs', rest⟩

theorem foldlM_mountStep_cases (pf : String → Except String F64) (K : String) (v : F64)
    (E : List (Sigma (fun _ : String => List String))) (st st' : List String × Stats)
    (h : E.foldlM (mountStep pf) st = some st') :
    st'.1 = st.1 ++ E.map (fun kv => sanitize kv.1) ∧
      (st'.2.lookup K = some v → st.2.lookup K = some v ∨
        ∃ kv ∈ E, ∃ s ∈ kv.2, ∃ (r0 : String) (toks : List String) (name : String) (j : Nat)
          (tok kind : String),
          fields s = r0 :: toks ∧ (name = "READ" ∨ name = "WRITE") ∧
          (utf8 r0).dropLast = utf8 name ∧ toks[j]? = some tok ∧ pf tok = .ok v ∧
          rpcOperationCounters[j]? = some kind ∧
          K = sprintf3 kind (sanitize kv.1) (toLower name)) := by
  induction E generalizing st with
  | nil => cases h; exact ⟨by simp, fun hv => Or.inl hv⟩
  | cons kv E ih =>
    rw [List.foldlM_cons] at h
    cases h1 : mountStep pf st kv with
    | none => simp [h1] at h
    | some st1 =>
      simp only [h1, Option.bind_eq_bind, Option.some_bind] at h
      obtain ⟨d1, l1⟩ := ih st1 h
      unfold mountStep at h1
      cases h2 : kv.2.foldlM (blockStep pf (sanitize kv.1)) (false, st.2) with
      | none => simp [h2] at h1
      | some r =>
        simp only [h2, Option.some.injEq] at h1
        subst h1
        refine ⟨by simp [d1], fun hv => ?_⟩
        rcases l1 hv with h3 | ⟨kv', hkv', rest⟩
        · rcases foldlM_blockStep_lookup_cases pf _ K v kv.2 _ r h2 h3 with h4 | ⟨s, hs, rest⟩
          · exact Or.inl h4
          · exact Or.inr ⟨kv, List.mem_cons_self _ _, s, hs, rest⟩
        · exact Or.inr ⟨kv', List.mem_cons_of_mem _ hkv', rest⟩

theorem currentKey_cases (l : List String) :
    (currentKey l = "" ∧ ∀ x ∈ l, isNfsDevice x = false) ∨
      ∃ a dv b, l = a ++ dv :: b ∧ isNfsDevice dv = true ∧ (∀ x ∈ b, isNfsDevice x = false) ∧
        currentKey l = mountPath dv := by
  induction l using List.reverseRecOn with
  | nil => exact Or.inl ⟨rfl, by simp⟩
  | append_singleton xs x ih =>
    rw [currentKey_append_one]
    by_cases hx : isNfsDevice x = true
    · exact Or.inr ⟨xs, x, [], rfl, hx, by simp, by simp [hx]⟩
    · have hx' : isNfsDevice x = false := by simpa using hx
      rcases ih with ⟨h1, h2⟩ | ⟨a, dv, b, e, h1, h2, h3⟩
      · refine Or.inl ⟨by simp [hx', h1], ?_⟩
        intro y hy
        rcases List.mem_append.mp hy with h | h
        · exact h2 y h
        · rw [List.mem_singleton] at h; exact h ▸ hx'
      · refine Or.inr ⟨a, dv, b ++ [x], by simp [e], h1, ?_, by simp [hx', h3]⟩
        intro y hy
        rcases List.mem_append.mp hy with h | h
        · exact h2 y h
        · rw [List.mem_singleton] at h; exact h ▸ hx'

theorem ParseResult.devices_eq_some {r : ParseResult} {ds : List String}
    (h : r.devices = some ds) : ∃ stats, r = some (.ok (ds, stats)) := by
  unfold ParseResult.devices at h
  split at h
  · next x => cases h; exact ⟨x.2, rfl⟩
  · cases h

/-- Counterexample to C9: in `interleavedReport` the `RPC` and `READ` lines follow a non-NFS
`device` line, and their counters are attributed to the NFS mount `mnt` seen before it; a
report that stops at the non-NFS `device` line has no such counter. -/
theorem counters_after_skipped_device :
    isNfsDevice (interleavedReport.getD 1 "") = false ∧
      (parseMountStats parseFloatDigits id interleavedReport).devices = some ["mnt"] ∧
      ((parseMountStats parseFloatDigits id interleavedReport).stats.bind
        (fun m => m.lookup "ops.mnt.read")) = some (F64.fin 43026) ∧
      ((parseMountStats parseFloatDigits id (interleavedReport.take 2)).stats.bind
        (fun m => m.lookup "ops.mnt.read")) = none := by
  refine ⟨by decide, by decide!, by decide!, by decide!⟩

/-- C9 as amended: when `parseMountStats` succeeds, every returned device is the identifier
`sanitize k` of the key `k` that was current at some line that the first loop did not pass over,
and every counter of the returned map was parsed from a field of a `READ` or `WRITE` line of the
report and is stored under the device of the key that was current at that line. The current key
is the mount path of the closest retained (NFS) `device` line at or above the line, and `""`
when there is none: a non-NFS `device` line is passed over and does not end the block of the
mount above it, and the mount path of a non-NFS `device` line is never a key. -/
theorem parseMountStats_provenance (parseFloat : String → Except String F64)
    (order : List (Sigma (fun _ : String => List String)) →
      List (Sigma (fun _ : String => List String)))
    (horder : ∀ l, (order l).Perm l) (lines devices : List String) (stats : Stats)
    (h : parseMountStats parseFloat order lines = some (.ok (devices, stats))) :
    (∀ d ∈ devices, ∃ pre line post, lines = pre ++ line :: post ∧ isSkipped line = false ∧
        d = sanitize (currentKey (pre ++ [line]))) ∧
      (∀ K v, stats.lookup K = some v →
        ∃ (pre : List String) (line : String) (post : List String) (r0 : String)
          (toks : List String) (name : String) (i : Nat) (tok kind : String),
          lines = pre ++ line :: post ∧ fields line = r0 :: toks ∧
          (name = "READ" ∨ name = "WRITE") ∧ (utf8 r0).dropLast = utf8 name ∧
          toks[i]? = some tok ∧ parseFloat tok = .ok v ∧
          rpcOperationCounters[i]? = some kind ∧
          K = sprintf3 kind (sanitize (currentKey (pre ++ [line]))) (toLower name)) ∧
      (∀ l : List String, (currentKey l = "" ∧ ∀ x ∈ l, isNfsDevice x = false) ∨
        ∃ a dv b, l = a ++ dv :: b ∧ isNfsDevice dv = true ∧
          (∀ x ∈ b, isNfsDevice x = false) ∧ currentKey l = mountPath dv) := by
  unfold parseMountStats at h
  cases h1 : lines.foldlM scanStep ScanState.init with
  | none => simp [h1] at h
  | some st =>
    simp only [h1] at h
    have inv : ScanInv lines st := by
      have := ScanInv.foldlM ScanInv.init h1
      simpa using this
    by_cases hlen : (st.mounts.entries.length == 0) = true
    · simp [hlen] at h
    · simp only [hlen] at h
      cases h2 : (order st.mounts.entries).foldlM (mountStep parseFloat) ([], ∅) with
      | none => simp [h2] at h
      | some r =>
        simp only [h2, Bool.false_eq_true, if_false, Option.some.injEq, Except.ok.injEq] at h
        subst h
        have hmem : ∀ kv ∈ order st.mounts.entries, st.mounts.lookup kv.1 = some kv.2 := by
          intro kv hkv
          have : kv ∈ st.mounts.entries := (horder _).mem_iff.mp hkv
          obtain ⟨k, vals⟩ := kv
          exact AList.mem_lookup_iff.mpr this
        refine ⟨?_, ?_, currentKey_cases⟩
        · intro d hd
          have hdev := (foldlM_mountStep_cases parseFloat "" F64.zero _ _ _ h2).1
          simp only [List.nil_append] at hdev
          rw [hdev] at hd
          simp only [List.mem_map] at hd
          obtain ⟨kv, hkv, rfl⟩ := hd
          obtain ⟨hne, horig⟩ := inv.mounts_origin kv.1 kv.2 (hmem kv hkv)
          obtain ⟨s, hs⟩ := List.exists_mem_of_ne_nil _ hne
          obtain ⟨pre, line, post, e, a, _, c⟩ := horig s hs
          exact ⟨pre, line, post, e, a, by rw [c]⟩
        · intro K v hv
          rcases (foldlM_mountStep_cases parseFloat K v _ _ _ h2).2 hv with h3 | h3
          · simp at h3
          · obtain ⟨kv, hkv, s, hs, r0, toks, name, j, tok, kind, f1, f2, f3, f4, f5, f6, f7⟩ := h3
            obtain ⟨_, horig⟩ := inv.mounts_origin kv.1 kv.2 (hmem kv hkv)
            obtain ⟨pre, line, post, e, _, b, c⟩ := horig s hs
            refine ⟨pre, line, post, r0, toks, name, j, tok, kind, e, ?_, f2, f3, f4, f5, f6, ?_⟩
            · rw [← f1, b, fields_trimSpace]
            · rw [c]; exact f7

/-- Witness for C9 as amended, on `interleavedReport`. -/
theorem parseMountStats_provenance_witness :
    ∃ pre line post, interleavedReport = pre ++ line :: post ∧
      isSkipped line = false ∧ "mnt" = sanitize (currentKey (pre ++ [line])) := by
  have hd : (parseMountStats parseFloatDigits id interleavedReport).devices = some ["mnt"] := by
    decide!
  obtain ⟨stats, hs⟩ := ParseResult.devices_eq_some hd
  exact (parseMountStats_provenance parseFloatDigits id (fun l => List.Perm.refl l)
    interleavedReport ["mnt"] stats hs).1 "mnt" (List.mem_singleton.mpr rfl)

/-! ## Claims about parseRPCLine -/

theorem rpcFields_append_error (pf : String → Except String F64) (d op : String)
    (good : List String) (vals : List F64) (bad : String) (rest : List String) (e : String)
    (hgood : good.map pf = vals.map Except.ok) (hbad : pf bad = .error e)
    (i : Nat) (stats : Stats) :
    rpcFields pf d op i (good ++ bad :: rest) stats =
      (rpcFields pf d op i good stats).map (fun r => (r.1, some e)) := by
  induction good generalizing vals i stats with
  | nil => simp [rpcFields, hbad]
  | cons tok toks ih =>
    cases vals with
    | nil => simp at hgood
    | cons v vs =>
      simp only [List.map_cons, List.cons.injEq] at hgood
      simp only [List.cons_append]
      unfold rpcFields
      simp only [hgood.1]
      cases hk : rpcOperationCounters[i]? with
      | none => rfl
      | some kind => exact ih vs hgood.2 (i + 1) _

theorem rpcFields_unchanged (pf : String → Except String F64) (d op : String) (K : String)
    (toks : List String) (i : Nat) (stats : Stats) (r : Stats × Option String)
    (h : rpcFields pf d op i toks stats = some r)
    (hK : ∀ j kind, j < toks.length → rpcOperationCounters[i + j]? = some kind →
      K ≠ sprintf3 kind d (toLower op)) :
    r.1.lookup K = stats.lookup K := by
  induction toks generalizing i stats with
  | nil => simp [rpcFields] at h; subst h; rfl
  | cons tok toks ih =>
    unfold rpcFields at h
    cases hp : pf tok with
    | error e => simp [hp] at h; subst h; rfl
    | ok v =>
      simp only [hp] at h
      cases hk : rpcOperationCounters[i]? with
      | none => simp [hk] at h
      | some kind =>
        simp only [hk] at h
        rw [ih (i + 1) _ h (fun j kind' hj hk' => hK (j + 1) kind' (by simpa using hj)
          (by rw [← hk']; congr 1; omega))]
        exact AList.lookup_insert_ne (hK 0 kind (by simp) (by simpa using hk))

/-- Counterexample to C11: on a `READ` record whose third counter is `x`, `parseRPCLine` returns
an error, and the map is not what it was before the call (empty): the two numeric fields
ahead of `x` are stored. -/
theorem malformed_line_is_stored_in_part :
    (parseRPCLine parseFloatDigits ∅ "mnt" malformedRecord).map
        (fun r => (r.2.isSome, r.1.lookup "ops.mnt.read", r.1.lookup "trans.mnt.read",
          r.1.lookup "timeouts.mnt.read", r.1.lookup "bytes_sent.mnt.read")) =
      some (true, some (F64.fin 43026), some (F64.fin 43026), none, none) := by
  decide!

/-- C11 as amended: for a `READ` or `WRITE` record whose first non-numeric counter field stands
at one of the first nine places, `parseRPCLine` returns the error of that field. The numeric
fields ahead of it are stored under their positional kinds; the field itself and the fields
behind it are not stored, and every other key of the map, so every counter of another line,
operation or device, is as it was before the call. -/
theorem parseRPCLine_malformed (parseFloat : String → Except String F64) (stats : Stats)
    (d r0 name : String) (good : List String) (vals : List F64) (bad : String)
    (rest : List String) (e : String)
    (hname : name = "READ" ∨ name = "WRITE") (hop : (utf8 r0).dropLast = utf8 name)
    (hgood : good.map parseFloat = vals.map Except.ok) (hbad : parseFloat bad = .error e)
    (hlen : good.length ≤ 8) :
    ∃ stats', parseRPCLine parseFloat stats d (r0 :: (good ++ bad :: rest)) =
        some (stats', some e) ∧
      (∀ kv ∈ List.zip rpcOperationCounters vals,
        stats'.lookup (sprintf3 kv.1 d (toLower name)) = some kv.2) ∧
      (∀ K, (∀ kind ∈ rpcOperationCounters.take good.length,
          K ≠ sprintf3 kind d (toLower name)) → stats'.lookup K = stats.lookup K) := by
  have hr0 : r0.data ≠ [] := by
    intro h0
    have : utf8 r0 = [] := by simp [utf8, h0]
    rw [this] at hop
    rcases hname with h | h <;> subst h <;> exact absurd hop (by decide)
  have hlow : toLower name ∈ rpcOperations := by rcases hname with h | h <;> subst h <;> decide
  obtain ⟨stats', h1, h2, _⟩ := rpcFields_numeric parseFloat d name hlow good vals 0 stats
    (by omega) hgood
  have hrun : parseRPCLine parseFloat stats d (r0 :: (good ++ bad :: rest)) =
      some (stats', some e) := by
    rw [parseRPCLine_op parseFloat stats d _ hname hr0 hop,
      rpcFields_append_error parseFloat d name good vals bad rest e hgood hbad, h1]
    rfl
  have hvl : vals.length = good.length := by
    have := congrArg List.length hgood
    simpa using this.symm
  refine ⟨stats', hrun, ?_, ?_⟩
  · intro kv hkv
    obtain ⟨j, hj, hje⟩ := List.getElem_of_mem hkv
    simp only [List.length_zip] at hj
    have hkv' : kv = (rpcOperationCounters[j], vals[j]) := by
      rw [← hje, List.getElem_zip]
    rw [hkv']
    exact h2 j (by omega) _ (by simp [List.getElem?_eq_getElem (show j < rpcOperationCounters.length by omega)])
  · intro K hK
    refine rpcFields_unchanged parseFloat d name K good 0 stats (stats', none) h1 ?_
    intro j kind hj hk
    apply hK
    simp only [Nat.zero_add] at hk
    rw [List.mem_take_iff_getElem]
    have hjl : j < rpcOperationCounters.length := by
      by_contra hc
      rw [List.getElem?_eq_none (by omega)] at hk
      cases hk
    refine ⟨j, by simp; omega, ?_⟩
    rw [List.getElem?_eq_getElem hjl] at hk
    exact Option.some.inj hk

/-- Witness for C11 as amended, on `malformedRecord`. -/
theorem parseRPCLine_malformed_witness :
    ∃ stats' e, parseRPCLine parseFloatDigits ∅ "mnt" malformedRecord = some (stats', some e) ∧
      stats'.lookup "trans.mnt.read" = some (F64.fin 43026) ∧
      stats'.lookup "bytes_sent.mnt.read" = none := by
  obtain ⟨stats', h1, h2, h3⟩ := parseRPCLine_malformed parseFloatDigits ∅ "mnt" "READ:" "READ"
    ["43026", "43026"] [F64.fin 43026, F64.fin 43026] "x" ["7228368"]
    "strconv.ParseFloat: parsing x: invalid syntax"
    (Or.inl rfl) (by decide) (by decide!) (by decide) (by decide)
  refine ⟨stats', _, h1, h2 ("trans", F64.fin 43026) (by decide!), ?_⟩
  rw [h3 "bytes_sent.mnt.read" (by decide)]
  rfl

/-! ## Claims about device identifiers -/

theorem head?_dropWhile_false (p : Char → Bool) (l : List Char) (c : Char)
    (h : (l.dropWhile p).head? = some c) : p c = false := by
  induction l with
  | nil => simp at h
  | cons a as ih =>
    by_cases ha : p a = true
    · rw [List.dropWhile_cons_of_pos ha] at h; exact ih h
    · rw [List.dropWhile_cons_of_neg ha] at h
      simp only [List.head?_cons, Option.some.injEq] at h
      subst h; simpa using ha

theorem dropWhile_eq_self (p : Char → Bool) (l : List Char) (h : ∀ c ∈ l, p c = false) :
    l.dropWhile p = l := by
  cases l with
  | nil => rfl
  | cons a as =>
    exact List.dropWhile_cons_of_neg (by simp [h a (List.mem_cons_self _ _)])

/-- The shape of a trimmed list: the input is a run of `p`, the result, and a run of `p`, and
the result neither begins nor ends with a character that satisfies `p`. -/
theorem trimL_spec (p : Char → Bool) (l : List Char) :
    ∃ lead trail, l = lead ++ trimL p l ++ trail ∧ (∀ c ∈ lead, p c = true) ∧
      (∀ c ∈ trail, p c = true) ∧ (∀ c, (trimL p l).head? = some c → p c = false) ∧
      (∀ c, (trimL p l).getLast? = some c → p c = false) := by
  have h1 := List.takeWhile_append_dropWhile p l
  have h2 := List.takeWhile_append_dropWhile p (l.dropWhile p).reverse
  have h3 : l.dropWhile p = trimL p l ++ ((l.dropWhile p).reverse.takeWhile p).reverse := by
    have := congrArg List.reverse h2
    rw [List.reverse_append, List.reverse_reverse] at this
    exact this.symm
  refine ⟨l.takeWhile p, ((l.dropWhile p).reverse.takeWhile p).reverse, ?_, ?_, ?_, ?_, ?_⟩
  · rw [List.append_assoc, ← h3, h1]
  · intro c hc; exact List.mem_takeWhile_imp hc
  · intro c hc; exact List.mem_takeWhile_imp (List.mem_reverse.mp hc)
  · intro c hc
    by_cases he : trimL p l = []
    · simp [he] at hc
    · have : (l.dropWhile p).head? = some c := by
        rw [h3, List.head?_append_of_ne_nil _ he]; exact hc
      exact head?_dropWhile_false p l c this
  · intro c hc
    unfold trimL at hc
    rw [List.getLast?_reverse] at hc
    exact head?_dropWhile_false p _ c hc

theorem trimL_eq_self (p : Char → Bool) (l : List Char) (h : ∀ c ∈ l, p c = false) :
    trimL p l = l := by
  unfold trimL
  rw [dropWhile_eq_self p l h, dropWhile_eq_self p l.reverse (fun c hc => h c (List.mem_reverse.mp hc)),
    List.reverse_reverse]

theorem slash_not_mem_sanitize (p : String) : '/' ∉ (sanitize p).data := by
  unfold sanitize replaceSlash
  simp only [List.mem_map, not_exists, not_and]
  intro c _ h
  by_cases hc : c = '/'
  · simp [hc] at h
  · simp [hc] at h

theorem sanitize_of_no_slash (s : String) (h : '/' ∉ s.data) : sanitize s = s := by
  have hp : ∀ c ∈ s.data, (fun c => c == '/') c = false := by
    intro c hc
    simp only [beq_eq_false_iff_ne, ne_eq]
    rintro rfl; exact h hc
  unfold sanitize replaceSlash trimSlash
  simp only [trimL_eq_self _ _ hp]
  apply String.ext
  simp only
  conv_rhs => rw [← List.map_id s.data]
  apply List.map_congr_left
  intro c hc
  have := hp c hc
  simp only [beq_eq_false_iff_ne, ne_eq] at this
  simp [this]

theorem mem_mounts_push {st : ScanState} {k : String} (line : String) (h : k ∈ st.mounts) :
    k ∈ (st.push line).mounts := by
  simp only [ScanState.push]
  exact (AList.mem_insert _).mpr (Or.inr h)

theorem key_mem_mounts_push (st : ScanState) (line : String) :
    st.key ∈ (st.push line).mounts := by
  simp only [ScanState.push]
  exact (AList.mem_insert _).mpr (Or.inl rfl)

theorem scanStep_keeps_keys {st st' : ScanState} {l : String} (h : scanStep st l = some st')
    {k : String} (hk : k ∈ st.mounts) : k ∈ st'.mounts := by
  rcases line_kinds l with c | c | c | c
  · rw [scanStep_skipped c] at h; cases h; exact hk
  · rw [scanStep_block c] at h; cases h; exact mem_mounts_push l hk
  · rw [scanStep_nfs c] at h; cases h
    apply mem_mounts_push
    unfold ScanState.enter
    by_cases e : st.key = mountPath l <;> simpa [e] using hk
  · rw [scanStep_short c] at h; cases h

theorem scanStep_nfs_key {st st' : ScanState} {l : String} (h : scanStep st l = some st')
    (hl : isNfsDevice l = true) : mountPath l ∈ st'.mounts := by
  rw [scanStep_nfs hl] at h
  cases h
  have hk : (st.enter (mountPath l)).key = mountPath l := by
    unfold ScanState.enter
    by_cases e : st.key = mountPath l <;> simp [e]
  have := key_mem_mounts_push (st.enter (mountPath l)) l
  rwa [hk] at this

/-- After the first loop, the mount path of every retained `device` line is a key of `mounts`. -/
theorem foldlM_scanStep_nfs_keys (lines : List String) {st st' : ScanState}
    (h : lines.foldlM scanStep st = some st') :
    (∀ k, k ∈ st.mounts → k ∈ st'.mounts) ∧
      ∀ l ∈ lines, isNfsDevice l = true → mountPath l ∈ st'.mounts := by
  induction lines generalizing st with
  | nil => cases h; exact ⟨fun _ hk => hk, by simp⟩
  | cons l ls ih =>
    rw [List.foldlM_cons] at h
    cases h1 : scanStep st l with
    | none => simp [h1] at h
    | some st1 =>
      simp only [h1, Option.bind_eq_bind, Option.some_bind] at h
      obtain ⟨keep, new⟩ := ih h
      refine ⟨fun k hk => keep k (scanStep_keeps_keys h1 hk), ?_⟩
      intro x hx hnfs
      rcases List.mem_cons.mp hx with e | e
      · subst e; exact keep _ (scanStep_nfs_key h1 hnfs)
      · exact new x e hnfs

/-- What a successful parse is made of: the state after the first loop, and the device list,
which is the identifiers of the keys of `mounts` in the order of the iteration. -/
theorem parseMountStats_ok (parseFloat : String → Except String F64)
    (order : List (Sigma (fun _ : String => List String)) →
      List (Sigma (fun _ : String => List String)))
    (lines devices : List String) (stats : Stats)
    (h : parseMountStats parseFloat order lines = some (.ok (devices, stats))) :
    ∃ st, lines.foldlM scanStep ScanState.init = some st ∧
      devices = (order st.mounts.entries).map (fun kv => sanitize kv.1) := by
  unfold parseMountStats at h
  cases h1 : lines.foldlM scanStep ScanState.init with
  | none => simp [h1] at h
  | some st =>
    simp only [h1] at h
    by_cases hlen : (st.mounts.entries.length == 0) = true
    · simp [hlen] at h
    · simp only [hlen] at h
      cases h2 : (order st.mounts.entries).foldlM (mountStep parseFloat) ([], ∅) with
      | none => simp [h2] at h
      | some r =>
        simp only [h2, Bool.false_eq_true, if_false, Option.some.injEq, Except.ok.injEq] at h
        subst h
        have hdev := (foldlM_mountStep_cases parseFloat "" F64.zero _ _ _ h2).1
        simp only [List.nil_append] at hdev
        exact ⟨st, rfl, hdev⟩

/-- The devices of a successful parse are the identifiers of the mount paths of the retained
`device` lines: each such path contributes its identifier, and every device is the identifier of
such a path, or of the key `""` under which lines ahead of the first retained line are kept. -/
theorem parseMountStats_devices_are_sanitized (parseFloat : String → Except String F64)
    (order : List (Sigma (fun _ : String => List String)) →
      List (Sigma (fun _ : String => List String)))
    (horder : ∀ l, (order l).Perm l) (lines devices : List String) (stats : Stats)
    (h : parseMountStats parseFloat order lines = some (.ok (devices, stats))) :
    (∀ l ∈ lines, isNfsDevice l = true → sanitize (mountPath l) ∈ devices) ∧
      ∀ d ∈ devices, ∃ k, d = sanitize k ∧
        (k = "" ∨ ∃ l ∈ lines, isNfsDevice l = true ∧ k = mountPath l) := by
  obtain ⟨st, hscan, hdev⟩ := parseMountStats_ok parseFloat order lines devices stats h
  constructor
  · intro l hl hnfs
    have hk := (foldlM_scanStep_nfs_keys lines hscan).2 l hl hnfs
    obtain ⟨vals, hv⟩ := Option.isSome_iff_exists.mp (AList.lookup_isSome.mpr hk)
    have hmem : (⟨mountPath l, vals⟩ : Sigma (fun _ : String => List String)) ∈
        order st.mounts.entries :=
      (horder _).mem_iff.mpr (AList.mem_lookup_iff.mp hv)
    rw [hdev]
    exact List.mem_map.mpr ⟨_, hmem, rfl⟩
  · intro d hd
    rw [hdev] at hd
    obtain ⟨kv, hkv, rfl⟩ := List.mem_map.mp hd
    have inv : ScanInv lines st := by
      have := ScanInv.foldlM ScanInv.init hscan
      simpa using this
    have hlook : st.mounts.lookup kv.1 = some kv.2 := by
      have : kv ∈ st.mounts.entries := (horder _).mem_iff.mp hkv
      obtain ⟨k, vals⟩ := kv
      exact AList.mem_lookup_iff.mpr this
    obtain ⟨hne, horig⟩ := inv.mounts_origin kv.1 kv.2 hlook
    obtain ⟨s, hs⟩ := List.exists_mem_of_ne_nil _ hne
    obtain ⟨pre, line, post, e, _, _, c⟩ := horig s hs
    refine ⟨kv.1, rfl, ?_⟩
    rcases currentKey_cases (pre ++ [line]) with ⟨h0, _⟩ | ⟨a, dv, b, e2, hnfs, _, hkey⟩
    · exact Or.inl (c ▸ h0)
    · refine Or.inr ⟨dv, ?_, hnfs, by rw [← c, hkey]⟩
      have : dv ∈ pre ++ [line] := by rw [e2]; simp
      rw [e]
      rcases List.mem_append.mp this with m | m
      · exact List.mem_append_left _ m
      · rw [List.mem_singleton] at m
        subst m
        exact List.mem_append_right _ (List.mem_cons_self _ _)

/-- C13: the device identifier that `parseMountStats` computes for a mount path `p` is `p`
with its leading and trailing `/` stripped and every `/` that is left replaced by `_`. The
identifier holds no `/`, the stripped path it is made from neither begins nor ends with a path
separator, and the identifier of an identifier is the identifier itself; `/mnt` gives `mnt`.
In every successful parse, a retained `device` line whose mount path is `p` puts `sanitize p`
among the devices, and every device returned is the identifier of the mount path of such a line
of the report (or of the key `""` that holds the lines ahead of the first one); the report of
`nfs_test.go`, whose `device` line mounts `/mnt`, parses to the single device `mnt`. -/
theorem sanitize_spec (p : String) :
    (∃ lead core trail, p.data = lead ++ core ++ trail ∧ (∀ c ∈ lead, c = '/') ∧
        (∀ c ∈ trail, c = '/') ∧ core.head? ≠ some '/' ∧ core.getLast? ≠ some '/' ∧
        (sanitize p).data = core.map (fun c => if c = '/' then '_' else c)) ∧
      '/' ∉ (sanitize p).data ∧
      sanitize (sanitize p) = sanitize p ∧
      sanitize "/mnt" = "mnt" ∧
      (∀ (parseFloat : String → Except String F64)
          (order : List (Sigma (fun _ : String => List String)) →
            List (Sigma (fun _ : String => List String))),
        (∀ l, (order l).Perm l) →
        ∀ (lines devices : List String) (stats : Stats),
        parseMountStats parseFloat order lines = some (.ok (devices, stats)) →
          (∀ l ∈ lines, isNfsDevice l = true → mountPath l = p → sanitize p ∈ devices) ∧
            ∀ d ∈ devices, ∃ k, d = sanitize k ∧
              (k = "" ∨ ∃ l ∈ lines, isNfsDevice l = true ∧ k = mountPath l)) ∧
      (isNfsDevice (testReport.getD 11 "") = true ∧ mountPath (testReport.getD 11 "") = "/mnt" ∧
        (parseMountStats parseFloatDigits id testReport).devices = some ["mnt"]) := by
  refine ⟨?_, slash_not_mem_sanitize p, sanitize_of_no_slash _ (slash_not_mem_sanitize p),
    by decide, ?_, by decide, by decide, by decide!⟩
  · obtain ⟨lead, trail, e, h1, h2, h3, h4⟩ := trimL_spec (fun c => c == '/') p.data
    refine ⟨lead, trimL (fun c => c == '/') p.data, trail, e, ?_, ?_, ?_, ?_, ?_⟩
    · intro c hc; simpa using h1 c hc
    · intro c hc; simpa using h2 c hc
    · intro hc; simpa using h3 _ hc
    · intro hc; simpa using h4 _ hc
    · simp [sanitize, replaceSlash, trimSlash]
  · intro parseFloat order horder lines devices stats h
    obtain ⟨h1, h2⟩ :=
      parseMountStats_devices_are_sanitized parseFloat order horder lines devices stats h
    exact ⟨fun l hl hnfs hp => hp ▸ h1 l hl hnfs, h2⟩

/-! ## Claims about the keys of the metric set -/

theorem mem_insert_form (d o : String) (base m' : Stats) (cat : String) (v : F64)
    (hcat : cat ∈ metricCategories)
    (h : ∀ k, k ∈ m' → k ∈ base ∨ ∃ c ∈ metricCategories, k = sprintf3 c d o) :
    ∀ k, k ∈ m'.insert (sprintf3 cat d o) v →
      k ∈ base ∨ ∃ c ∈ metricCategories, k = sprintf3 c d o := by
  intro k hk
  rcases (AList.mem_insert m').mp hk with e | e
  · exact Or.inr ⟨cat, hcat, e⟩
  · exact h k e

theorem mem_ite_insert_form (d o : String) (base m' : Stats) (cat : String) (v : F64)
    (c : Prop) [Decidable c] (hcat : cat ∈ metricCategories)
    (h : ∀ k, k ∈ m' → k ∈ base ∨ ∃ c ∈ metricCategories, k = sprintf3 c d o) :
    ∀ k, k ∈ (if c then m'.insert (sprintf3 cat d o) v else m') →
      k ∈ base ∨ ∃ c ∈ metricCategories, k = sprintf3 c d o := by
  by_cases hc : c
  · rw [if_pos hc]; exact mem_insert_form d o base m' cat v hcat h
  · rw [if_neg hc]; exact h

theorem metricsStep_mem (ds : Stats) (T : Int) (d : String) (m : Stats) (o : String) :
    ∀ k, k ∈ metricsStep ds T d m o → k ∈ m ∨ ∃ c ∈ metricCategories, k = sprintf3 c d o := by
  simp only [metricsStep]
  refine mem_ite_insert_form d o m _ "queue_ave" _ _ (by decide) ?_
  refine mem_ite_insert_form d o m _ "execute_ave" _ _ (by decide) ?_
  refine mem_ite_insert_form d o m _ "rtt_ave" _ _ (by decide) ?_
  refine mem_ite_insert_form d o m _ "retrans_rate" _ _ (by decide) ?_
  refine mem_insert_form d o m _ "retrans_num" _ (by decide) ?_
  refine mem_ite_insert_form d o m _ "bytes_ops" _ _ (by decide) ?_
  refine mem_insert_form d o m _ "throughput" _ (by decide) ?_
  refine mem_insert_form d o m _ "ops" _ (by decide) ?_
  exact fun k hk => Or.inl hk

theorem deviceStep_mem (ds : Stats) (T : Int) (m : Stats) (d : String) :
    ∀ k, k ∈ deviceStep ds T m d →
      k ∈ m ∨ ∃ c ∈ metricCategories, ∃ o ∈ rpcOperations, k = sprintf3 c d o := by
  intro k hk
  simp only [deviceStep, List.foldl_cons, List.foldl_nil] at hk
  rcases metricsStep_mem ds T d _ "write" k hk with h | ⟨c, hc, e⟩
  · rcases metricsStep_mem ds T d _ "read" k h with h' | ⟨c, hc, e⟩
    · exact Or.inl h'
    · exact Or.inr ⟨c, hc, "read", by decide, e⟩
  · exact Or.inr ⟨c, hc, "write", by decide, e⟩

theorem foldl_deviceStep_mem (ds : Stats) (T : Int) (devices : List String) (m : Stats) :
    ∀ k, k ∈ devices.foldl (deviceStep ds T) m →
      k ∈ m ∨ ∃ c ∈ metricCategories, ∃ d ∈ devices, ∃ o ∈ rpcOperations,
        k = sprintf3 c d o := by
  induction devices generalizing m with
  | nil => intro k hk; exact Or.inl hk
  | cons d rest ih =>
    intro k hk
    rw [List.foldl_cons] at hk
    rcases ih _ k hk with h | ⟨c, hc, d', hd', o, ho, e⟩
    · rcases deviceStep_mem ds T m d k h with h' | ⟨c, hc, o, ho, e⟩
      · exact Or.inl h'
      · exact Or.inr ⟨c, hc, d, List.mem_cons_self _ _, o, ho, e⟩
    · exact Or.inr ⟨c, hc, d', List.mem_cons_of_mem _ hd', o, ho, e⟩

/-- Every key of the metric set is `<category>.<device>.<operation>` for a category of the
eight, a device of the list and an operation of `read`, `write`. -/
theorem metricsOf_mem (devices : List String) (ds : Stats) (T : Int) :
    ∀ k, k ∈ metricsOf devices ds T →
      ∃ c ∈ metricCategories, ∃ d ∈ devices, ∃ o ∈ rpcOperations, k = sprintf3 c d o := by
  intro k hk
  rcases foldl_deviceStep_mem ds T devices ∅ k hk with h | h
  · exact absurd h (AList.not_mem_empty k)
  · exact h

/-- C14: in a non-stale call every key of the returned metric set is
`<category>.<device>.<operation>` with the device in `devices`, the operation `read` or `write`
and the category one of `ops`, `throughput`, `bytes_ops`, `retrans_num`, `retrans_rate`,
`rtt_ave`, `execute_ave`, `queue_ave`. For every prefix `GraphDefinition` has exactly 8 entries,
with pairwise distinct keys `<category>.#` for the same 8 categories, each with the two metrics
`read` and `write`; so every published metric has a graph definition. -/
theorem formatValues_keys_have_graphs (devices : List String) (stats lastStat : Stats)
    (now lastTime : Int) (m : Stats)
    (h : formatValues devices stats now lastStat lastTime = some m) :
    (∀ k ∈ m.keys, ∃ c ∈ metricCategories, ∃ d ∈ devices, ∃ o ∈ rpcOperations,
        k = sprintf3 c d o) ∧
      (∀ (toTitle : String → String) (pfx : String),
        (GraphDefinition toTitle pfx).length = 8 ∧
        (GraphDefinition toTitle pfx).map Prod.fst = metricCategories.map (fun c => c ++ ".#") ∧
        ((GraphDefinition toTitle pfx).map Prod.fst).Nodup ∧
        ∀ g ∈ GraphDefinition toTitle pfx, g.2.metrics.map Metrics.name = rpcOperations) ∧
      (∀ k ∈ m.keys, ∀ (toTitle : String → String) (pfx : String),
        ∃ c d o g, k = sprintf3 c d o ∧ (c ++ ".#", g) ∈ GraphDefinition toTitle pfx ∧
          o ∈ g.metrics.map Metrics.name) := by
  have hm : m = metricsOf devices
      (diffStatsOf stats lastStat (wrapInt64 (now - lastTime))) (wrapInt64 (now - lastTime)) := by
    unfold formatValues at h
    by_cases hT : wrapInt64 (now - lastTime) > 600
    · simp [hT] at h
    · simp only [hT, if_false, Option.some.injEq] at h
      exact h.symm
  have keys : ∀ k ∈ m.keys, ∃ c ∈ metricCategories, ∃ d ∈ devices, ∃ o ∈ rpcOperations,
      k = sprintf3 c d o := by
    intro k hk
    rw [hm] at hk
    exact metricsOf_mem devices _ _ k (AList.mem_keys.mp hk)
  have graphs : ∀ (toTitle : String → String) (pfx : String),
      (GraphDefinition toTitle pfx).length = 8 ∧
      (GraphDefinition toTitle pfx).map Prod.fst = metricCategories.map (fun c => c ++ ".#") ∧
      ((GraphDefinition toTitle pfx).map Prod.fst).Nodup ∧
      ∀ g ∈ GraphDefinition toTitle pfx, g.2.metrics.map Metrics.name = rpcOperations := by
    intro toTitle pfx
    refine ⟨rfl, by simp [GraphDefinition], ?_, ?_⟩
    · have e : (GraphDefinition toTitle pfx).map Prod.fst =
          metricCategories.map (fun c => c ++ ".#") := by simp [GraphDefinition]
      rw [e]; decide
    · intro g hg
      simp only [GraphDefinition, List.mem_cons, List.mem_singleton, List.not_mem_nil,
        or_false] at hg
      rcases hg with e | e | e | e | e | e | e | e <;> subst e <;> rfl
  refine ⟨keys, graphs, ?_⟩
  intro k hk toTitle pfx
  obtain ⟨c, hc, d, _, o, ho, e⟩ := keys k hk
  have hex : ∃ g, (c ++ ".#", g) ∈ GraphDefinition toTitle pfx ∧
      g.metrics.map Metrics.name = rpcOperations := by
    obtain ⟨_, hkeys, _, hmet⟩ := graphs toTitle pfx
    have hin : c ++ ".#" ∈ (GraphDefinition toTitle pfx).map Prod.fst := by
      rw [hkeys]; exact List.mem_map.mpr ⟨c, hc, rfl⟩
    obtain ⟨g, hg, hge⟩ := List.mem_map.mp hin
    obtain ⟨gk, gv⟩ := g
    simp only at hge
    subst hge
    exact ⟨gv, hg, hmet _ hg⟩
  obtain ⟨g, hg1, hg2⟩ := hex
  exact ⟨c, d, o, g, e, hg1, by rw [hg2]; exact ho⟩

/-- Witness for C14 on the test data: the metric set is returned, and its key `ops.mnt.read`
has the stated form. -/
theorem formatValues_keys_have_graphs_witness :
    ∃ c ∈ metricCategories, ∃ d ∈ testDevices, ∃ o ∈ rpcOperations,
      "ops.mnt.read" = sprintf3 c d o :=
  (formatValues_keys_have_graphs testDevices testStats testLastStats testNow testLastTime
    _ rfl).1 "ops.mnt.read" (by decide!)

/-! ## Claims about the signs and zeros of the published values -/

theorem F64.isZero_div_ofInt {x : F64} (hx : x.isZero = true) {T : Int} (hT : T ≠ 0) :
    (x / F64.ofInt T).isZero = true := by
  show (F64.div x (F64.ofInt T)).isZero = true
  have hq : (T : ℚ) ≠ 0 := by exact_mod_cast hT
  cases x <;> simp only [F64.div, F64.ofInt, F64.mkNum] <;> (try split_ifs) <;>
    simp_all [F64.isZero, F64.isFinite, F64.toRat]

theorem F64.not_neg_div_pos {x : F64} (hx : F64.lt x F64.zero = false) {T : Int} (hT : 0 < T) :
    F64.lt (x / F64.ofInt T) F64.zero = false := by
  show F64.lt (F64.div x (F64.ofInt T)) F64.zero = false
  have hq : (0 : ℚ) < (T : ℚ) := by exact_mod_cast hT
  have hq' : (T : ℚ) ≠ 0 := ne_of_gt hq
  cases x <;> simp only [F64.div, F64.ofInt, F64.mkNum] <;> (try split_ifs) <;>
    simp_all [F64.lt, F64.zero, F64.toRat, F64.signBit]
  all_goals positivity

theorem F64.not_pos_div_neg {x : F64} (hx : F64.lt x F64.zero = false) {T : Int} (hT : T < 0) :
    F64.lt F64.zero (x / F64.ofInt T) = false := by
  show F64.lt F64.zero (F64.div x (F64.ofInt T)) = false
  have hq : (T : ℚ) < 0 := by exact_mod_cast hT
  have hq' : (T : ℚ) ≠ 0 := ne_of_lt hq
  cases x <;> simp only [F64.div, F64.ofInt, F64.mkNum] <;> (try split_ifs) <;>
    simp_all [F64.lt, F64.zero, F64.toRat, F64.signBit]
  all_goals exact div_nonpos_of_nonneg_of_nonpos hx (by exact_mod_cast hT.le)

theorem F64.not_neg_add {a b : F64} (ha : F64.lt a F64.zero = false)
    (hb : F64.lt b F64.zero = false) : F64.lt (a + b) F64.zero = false := by
  show F64.lt (F64.add a b) F64.zero = false
  cases a <;> cases b <;> simp only [F64.add, F64.mkNum] <;> (try split_ifs) <;>
    simp_all [F64.lt, F64.zero, F64.toRat, F64.signBit]
  all_goals linarith

theorem get_diffStatsOf_not_neg (stats lastStat : Stats) (T : Int) (k : String) :
    F64.lt ((diffStatsOf stats lastStat T).get k) F64.zero = false := by
  unfold Stats.get
  rw [diffStatsOf_lookup]
  cases hs : stats.lookup k with
  | none => simp only [Option.getD_none]; decide
  | some v =>
    cases hl : lastStat.lookup k with
    | none => simp only [Option.getD_none]; decide
    | some lv => simpa using calcDiff_not_neg v lv T

theorem F64.lt_zero_iff_toRat {x : F64} (hx : x.isFinite = true) :
    F64.lt x F64.zero = true ↔ x.toRat < 0 := by
  cases x <;> simp_all [F64.isFinite, F64.lt, F64.zero, F64.toRat]

/-- Counterexample to C15: with the same snapshot taken twice in the same second, the `ops` diff
of `mnt`/`read` is `0` and `elapsed` is `0 <= 600`, and `ops.mnt.read` is published with the
value NaN (`0 / 0`), not `0`. -/
theorem zero_elapsed_publishes_nan :
    wrapInt64 (testLastTime - testLastTime) = 0 ∧
      (diffStatsOf testLastStats testLastStats 0).lookup "ops.mnt.read" = some (F64.fin 0) ∧
      ∃ m, formatValues testDevices testLastStats testLastTime testLastStats testLastTime =
          some m ∧ m.lookup "ops.mnt.read" = some F64.nan :=
  ⟨by decide, by decide!, _, rfl, by decide!⟩

/-- C15 as amended: in a non-stale call, for every device `d` of `devices` and operation `o`
whose `ops` diff is `0`, the returned metric set holds the keys `ops.d.o` and `throughput.d.o`,
whatever else is omitted; the value of `ops.d.o` is `0` when `elapsed` is not `0`. -/
theorem formatValues_zero_ops (devices : List String) (stats lastStat : Stats)
    (now lastTime : Int) (d o : String) (ds : Stats)
    (hds : ds = diffStatsOf stats lastStat (wrapInt64 (now - lastTime)))
    (hle : wrapInt64 (now - lastTime) ≤ 600) (hd : d ∈ devices) (ho : o ∈ rpcOperations)
    (hz : (ds.get (sprintf3 "ops" d o)).isZero = true) :
    ∃ m, formatValues devices stats now lastStat lastTime = some m ∧
      (∃ v, m.lookup (sprintf3 "ops" d o) = some v ∧
        (wrapInt64 (now - lastTime) ≠ 0 → v.isZero = true)) ∧
      m.lookup (sprintf3 "throughput" d o) =
        some ((ds.get (sprintf3 "bytes_sent" d o) + ds.get (sprintf3 "bytes_recv" d o)) /
          F64.ofInt (wrapInt64 (now - lastTime))) := by
  subst hds
  refine ⟨_, formatValues_eq_some devices stats lastStat now lastTime hle,
    ⟨(diffStatsOf stats lastStat (wrapInt64 (now - lastTime))).get (sprintf3 "ops" d o) /
      F64.ofInt (wrapInt64 (now - lastTime)), ?_, ?_⟩, ?_⟩
  · rw [metricsOf_lookup devices _ _ d (by decide) ho, if_pos hd]
    simp [published]
  · intro hT
    exact F64.isZero_div_ofInt hz hT
  · rw [metricsOf_lookup devices _ _ d (by decide) ho, if_pos hd]
    simp [published]

/-- Witness for C15 as amended: `zeroOpsStats` against `testLastStats`, 60 seconds apart. -/
theorem formatValues_zero_ops_witness :
    ∃ m, formatValues testDevices zeroOpsStats testNow testLastStats testLastTime = some m ∧
      m.lookup "ops.mnt.read" = some (F64.fin 0) ∧
      m.lookup "throughput.mnt.read" = some (F64.fin (25 / 3)) := by
  obtain ⟨m, h1, ⟨v, h2, _⟩, h3⟩ := formatValues_zero_ops testDevices zeroOpsStats testLastStats
    testNow testLastTime "mnt" "read" _ rfl (by decide) (by decide) (by decide) (by decide!)
  refine ⟨m, h1, ?_, h3.trans (by decide!)⟩
  have hm := formatValues_eq_some testDevices zeroOpsStats testLastStats testNow testLastTime
    (by decide)
  rw [hm] at h1
  cases h1
  decide!

/-- Counterexample to C16: `trans.mnt.read` has no baseline in the previous snapshot while the
`ops` counter advanced by 120; `retrans_num.mnt.read` is published as `-120`. -/
theorem missing_trans_baseline_goes_negative :
    noTransBaseline.lookup "trans.mnt.read" = none ∧
      ∃ m, formatValues testDevices testStats testNow noTransBaseline testLastTime = some m ∧
        m.lookup "retrans_num.mnt.read" = some (F64.fin (-120)) :=
  ⟨by decide, _, rfl, by decide!⟩

/-- C16 as amended: in a non-stale call, for every device `d` of `devices` and operation `o`,
`retrans_num.d.o` is published as the `trans` diff minus the `ops` diff, where a diff is never
negative and is `0` for a counter that was reset or has no baseline. For finite diffs the
published value is negative exactly when the `trans` diff is below the `ops` diff, as it is
when `trans` was reset or has no baseline while `ops` advanced. -/
theorem formatValues_retrans_num (devices : List String) (stats lastStat : Stats)
    (now lastTime : Int) (d o : String) (ds : Stats)
    (hds : ds = diffStatsOf stats lastStat (wrapInt64 (now - lastTime)))
    (hle : wrapInt64 (now - lastTime) ≤ 600) (hd : d ∈ devices) (ho : o ∈ rpcOperations) :
    ∃ m, formatValues devices stats now lastStat lastTime = some m ∧
      m.lookup (sprintf3 "retrans_num" d o) =
        some (ds.get (sprintf3 "trans" d o) - ds.get (sprintf3 "ops" d o)) ∧
      F64.lt (ds.get (sprintf3 "trans" d o)) F64.zero = false ∧
      F64.lt (ds.get (sprintf3 "ops" d o)) F64.zero = false ∧
      (lastStat.lookup (sprintf3 "trans" d o) = none →
        ds.get (sprintf3 "trans" d o) = F64.zero) ∧
      ((ds.get (sprintf3 "trans" d o)).isFinite = true →
        (ds.get (sprintf3 "ops" d o)).isFinite = true →
        (F64.lt (ds.get (sprintf3 "trans" d o) - ds.get (sprintf3 "ops" d o)) F64.zero = true ↔
          (ds.get (sprintf3 "trans" d o)).toRat < (ds.get (sprintf3 "ops" d o)).toRat)) := by
  subst hds
  refine ⟨_, formatValues_eq_some devices stats lastStat now lastTime hle, ?_,
    get_diffStatsOf_not_neg _ _ _ _, get_diffStatsOf_not_neg _ _ _ _,
    fun h => get_diffStatsOf_absent _ _ _ _ (Or.inr h), ?_⟩
  · rw [metricsOf_lookup devices _ _ d (by decide) ho, if_pos hd]
    simp [published]
  · intro h1 h2
    obtain ⟨hf, hr⟩ := F64.isFinite_sub h1 h2
    rw [F64.lt_zero_iff_toRat hf, hr, sub_neg]

/-- Witness for C16 as amended: the data of the counterexample. -/
theorem formatValues_retrans_num_witness :
    ∃ m, formatValues testDevices testStats testNow noTransBaseline testLastTime = some m ∧
      m.lookup "retrans_num.mnt.read" = some (F64.fin (-120)) := by
  obtain ⟨m, h1, h2, _⟩ := formatValues_retrans_num testDevices testStats noTransBaseline
    testNow testLastTime "mnt" "read" _ rfl (by decide) (by decide) (by decide)
  exact ⟨m, h1, h2.trans (by decide!)⟩

/-- Counterexample to C19: the previous capture time is 60 seconds after the current time, so
`elapsed = -60` passes the guard `elapsed > 600`; all counters are non-negative and
`ops.mnt.read` is published as `-2`. -/
theorem negative_elapsed_publishes_negative_rate :
    wrapInt64 (testLastTime - 60 - testLastTime) = -60 ∧
      ∃ m, formatValues testDevices testStats (testLastTime - 60) testLastStats testLastTime =
          some m ∧ m.lookup "ops.mnt.read" = some (F64.fin (-2)) ∧
        F64.lt (F64.fin (-2)) F64.zero = true :=
  ⟨by decide, _, rfl, by decide!, by decide!⟩

/-- C19 as amended: for every call of `formatValues` with `0 < elapsed <= 600`, every value
published under `ops.*` and `throughput.*` is not below `0`. With `elapsed < 0`, which the
one-sided guard lets through, every such value is not above `0`. -/
theorem formatValues_rate_signs (devices : List String) (stats lastStat : Stats)
    (now lastTime : Int) (hle : wrapInt64 (now - lastTime) ≤ 600) :
    ∃ m, formatValues devices stats now lastStat lastTime = some m ∧
      ∀ c ∈ ["ops", "throughput"], ∀ d, ∀ o ∈ rpcOperations, ∀ v,
        m.lookup (sprintf3 c d o) = some v →
          (0 < wrapInt64 (now - lastTime) → F64.lt v F64.zero = false) ∧
          (wrapInt64 (now - lastTime) < 0 → F64.lt F64.zero v = false) := by
  refine ⟨_, formatValues_eq_some devices stats lastStat now lastTime hle, ?_⟩
  intro c hc d o ho v hv
  have hcat : c ∈ metricCategories := by
    simp only [List.mem_cons, List.mem_singleton, List.not_mem_nil, or_false] at hc
    rcases hc with e | e <;> subst e <;> decide
  rw [metricsOf_lookup devices _ _ d hcat ho] at hv
  by_cases hd : d ∈ devices
  · rw [if_pos hd] at hv
    have hnn : ∃ x, F64.lt x F64.zero = false ∧
        v = x / F64.ofInt (wrapInt64 (now - lastTime)) := by
      simp only [List.mem_cons, List.mem_singleton, List.not_mem_nil, or_false] at hc
      rcases hc with e | e <;> subst e
      · simp only [published, if_true, Option.some.injEq] at hv
        exact ⟨_, get_diffStatsOf_not_neg _ _ _ _, hv.symm⟩
      · simp only [published, if_true, Option.some.injEq,
          show ("throughput" : String) ≠ "ops" by decide, if_false] at hv
        exact ⟨_, F64.not_neg_add (get_diffStatsOf_not_neg _ _ _ _)
          (get_diffStatsOf_not_neg _ _ _ _), hv.symm⟩
    obtain ⟨x, hx, rfl⟩ := hnn
    exact ⟨fun h => F64.not_neg_div_pos hx h, fun h => F64.not_pos_div_neg hx h⟩
  · rw [if_neg hd] at hv
    cases hv

/-- Witness for C19 as amended, on the test data: 60 seconds apart, `ops.mnt.read = 2`. -/
theorem formatValues_rate_signs_witness :
    ∃ m, formatValues testDevices testStats testNow testLastStats testLastTime = some m ∧
      m.lookup "ops.mnt.read" = some (F64.fin 2) ∧ F64.lt (F64.fin 2) F64.zero = false := by
  obtain ⟨m, h1, h2⟩ := formatValues_rate_signs testDevices testStats testLastStats testNow
    testLastTime (by decide)
  have hm := formatValues_eq_some testDevices testStats testLastStats testNow testLastTime
    (by decide)
  have hl : m.lookup "ops.mnt.read" = some (F64.fin 2) := by
    rw [hm] at h1
    cases h1
    decide!
  exact ⟨m, h1, hl, (h2 "ops" (by decide) "mnt" "read" (by decide) _ hl).1 (by decide)⟩

/-! ## Claims about the marker, the width of a line and the identifiers -/

theorem blockStep_before_marker (pf : String → Except String F64) (d : String) (stats : Stats)
    {s : String} (h : (fields s).head? ≠ some "RPC") :
    blockStep pf d (false, stats) s = some (false, stats) := by
  unfold blockStep
  cases hf : fields s with
  | nil => rfl
  | cons r0 rest =>
    simp only [hf, List.head?_cons, ne_eq, Option.some.injEq] at h
    simp [h]

theorem foldlM_blockStep_before_marker (pf : String → Except String F64) (d : String)
    (stats : Stats) (before : List String) (h : ∀ s ∈ before, (fields s).head? ≠ some "RPC") :
    before.foldlM (blockStep pf d) (false, stats) = some (false, stats) := by
  induction before with
  | nil => rfl
  | cons s ss ih =>
    rw [List.foldlM_cons, blockStep_before_marker pf d stats (h s (List.mem_cons_self _ _))]
    exact ih (fun x hx => h x (List.mem_cons_of_mem _ hx))

theorem blockStep_separator (pf : String → Except String F64) (d : String) (st : Bool × Stats)
    {s : String}
    (h : (fields s).head? = some "RPC" ∨ (fields s).head? = some "xprt:" ∨
      (fields s).head? = some "per-op") :
    ∃ b, blockStep pf d st s = some (b, st.2) := by
  unfold blockStep
  cases hf : fields s with
  | nil => simp [hf] at h
  | cons r0 rest =>
    simp only [hf, List.head?_cons, Option.some.injEq] at h
    simp only
    by_cases h1 : (!st.1 && r0 != "RPC") = true
    · rw [if_pos h1]; exact ⟨st.1, rfl⟩
    · rw [if_neg h1, if_pos h]; exact ⟨true, rfl⟩

/-- C17: in the lines of one mount, the lines ahead of the first line whose first token is `RPC`
store nothing, so a block without a marker stores nothing while its device is still listed, and
the second loop on the whole block is the second loop on the lines behind the marker. A line
whose first token is `RPC`, `xprt:` or `per-op` leaves the map as it is. The flag starts
`false` for every mount, whatever the mounts before it held. -/
theorem rpc_marker_opens_region (parseFloat : String → Except String F64)
    (st : List String × Stats) (k : String) (before after : List String) (rpc : String)
    (hbefore : ∀ s ∈ before, (fields s).head? ≠ some "RPC")
    (hrpc : (fields rpc).head? = some "RPC") :
    mountStep parseFloat st ⟨k, before⟩ = some (st.1 ++ [sanitize k], st.2) ∧
      (before ++ rpc :: after).foldlM (blockStep parseFloat (sanitize k)) (false, st.2) =
        after.foldlM (blockStep parseFloat (sanitize k)) (true, st.2) ∧
      mountStep parseFloat st ⟨k, before ++ rpc :: after⟩ =
        (after.foldlM (blockStep parseFloat (sanitize k)) (true, st.2)).map
          (fun r => (st.1 ++ [sanitize k], r.2)) ∧
      (∀ (flag : Bool) (stats : Stats) (s : String),
        (fields s).head? = some "RPC" ∨ (fields s).head? = some "xprt:" ∨
          (fields s).head? = some "per-op" →
        ∃ b, blockStep parseFloat (sanitize k) (flag, stats) s = some (b, stats)) := by
  have h2 : (before ++ rpc :: after).foldlM (blockStep parseFloat (sanitize k)) (false, st.2) =
      after.foldlM (blockStep parseFloat (sanitize k)) (true, st.2) := by
    rw [List.foldlM_append, foldlM_blockStep_before_marker parseFloat _ _ before hbefore]
    simp only [Option.bind_eq_bind, Option.some_bind, List.foldlM_cons,
      blockStep_rpc parseFloat _ _ hrpc]
  refine ⟨?_, h2, ?_, fun flag stats s h => blockStep_separator parseFloat _ (flag, stats) h⟩
  · unfold mountStep
    simp only [foldlM_blockStep_before_marker parseFloat _ _ before hbefore]
  · unfold mountStep
    simp only [h2]
    cases after.foldlM (blockStep parseFloat (sanitize k)) (true, st.2) <;> rfl

/-- Witness for C17: a `READ` line ahead of the marker stores nothing; behind it, it does. -/
theorem rpc_marker_opens_region_witness :
    mountStep parseFloatDigits ([], ∅) ⟨"/mnt", ["READ: 1 1 1 1 1 1 1 1"]⟩ =
        some (["mnt"], ∅) ∧
      (mountStep parseFloatDigits ([], ∅)
        ⟨"/mnt", ["READ: 1 1 1 1 1 1 1 1", "RPC iostats", "READ: 2 2 2 2 2 2 2 2"]⟩).map
        (fun r => (r.1, r.2.lookup "ops.mnt.read")) = some (["mnt"], some (F64.fin 2)) := by
  have h := rpc_marker_opens_region parseFloatDigits ([], ∅) "/mnt" ["READ: 1 1 1 1 1 1 1 1"]
    ["READ: 2 2 2 2 2 2 2 2"] "RPC iostats" (by decide) (by decide)
  refine ⟨h.1, ?_⟩
  have h3 := h.2.2.1
  simp only [List.singleton_append] at h3
  rw [h3]
  decide!

/-- C18 fails on the code: on a `READ` record with nine numeric fields after the name, as newer
kernels write it, `parseRPCLine` panics (`rpcOperationCounters[8]` is out of range); with the
first eight of them it returns and stores them. -/
theorem nine_field_line_panics :
    nineFieldRecord.length = 10 ∧
      parseRPCLine parseFloatDigits ∅ "mnt" nineFieldRecord = none ∧
      (parseRPCLine parseFloatDigits ∅ "mnt" (nineFieldRecord.take 9)).map
        (fun r => (r.2, r.1.lookup "execute.mnt.read")) = some (none, some (F64.fin 2206478)) := by
  refine ⟨rfl, ?_, by decide!⟩
  have h : (parseRPCLine parseFloatDigits ∅ "mnt" nineFieldRecord).isNone = true := by decide!
  exact Option.isNone_iff_eq_none.mp h

theorem mem_of_mem_trimL (p : Char → Bool) (l : List Char) (c : Char) (h : c ∈ trimL p l) :
    c ∈ l := by
  unfold trimL at h
  rw [List.mem_reverse] at h
  have h1 := (List.dropWhile_sublist p).subset h
  rw [List.mem_reverse] at h1
  exact (List.dropWhile_sublist p).subset h1

theorem replaceSlash_map_inj (a b : List Char) (ha : '_' ∉ a) (hb : '_' ∉ b)
    (h : a.map (fun c => if c == '/' then '_' else c) =
      b.map (fun c => if c == '/' then '_' else c)) : a = b := by
  induction a generalizing b with
  | nil =>
    cases b with
    | nil => rfl
    | cons y ys => simp at h
  | cons x xs ih =>
    cases b with
    | nil => simp at h
    | cons y ys =>
      simp only [List.map_cons, List.cons.injEq] at h
      have hx : x ≠ '_' := fun e => ha (e ▸ List.mem_cons_self _ _)
      have hy : y ≠ '_' := fun e => hb (e ▸ List.mem_cons_self _ _)
      have hxy : x = y := by
        have h1 := h.1
        by_cases x1 : x = '/' <;> by_cases y1 : y = '/'
        · rw [x1, y1]
        · simp [x1, y1] at h1; exact absurd h1.symm hy
        · simp [x1, y1] at h1; exact absurd h1 hx
        · simpa [x1, y1] using h1
      rw [hxy, ih ys (fun hm => ha (List.mem_cons_of_mem _ hm))
        (fun hm => hb (List.mem_cons_of_mem _ hm)) h.2]

theorem sanitize_inj_of_no_underscore {p q : String} (hp : '_' ∉ p.data) (hq : '_' ∉ q.data)
    (h : sanitize p = sanitize q) : trimSlash p = trimSlash q := by
  unfold sanitize replaceSlash at h
  have h1 := congrArg String.data h
  simp only at h1
  have := replaceSlash_map_inj _ _
    (fun hm => hp (mem_of_mem_trimL _ _ _ hm)) (fun hm => hq (mem_of_mem_trimL _ _ _ hm)) h1
  exact String.ext this

/-- Counterexample to C20: `/a/b` and `/a_b` are distinct mount paths with the same device
identifier, and so are `/mnt` and `/mnt/`; a report that mounts `/a/b` and `/a_b` returns a
device list with a duplicate. -/
theorem distinct_paths_same_identifier :
    ("/a/b" : String) ≠ "/a_b" ∧ sanitize "/a/b" = sanitize "/a_b" ∧
      ("/mnt" : String) ≠ "/mnt/" ∧ sanitize "/mnt" = sanitize "/mnt/" ∧
      (parseMountStats parseFloatDigits id collidingReport).devices = some ["a_b", "a_b"] := by
  refine ⟨by decide, by decide, by decide, by decide, by decide!⟩

/-- C20 as amended: two mount paths that hold no `_` and that differ after their leading and
trailing `/` are stripped have distinct device identifiers; and the identifiers of a list of
such paths, pairwise distinct after stripping, are pairwise distinct. -/
theorem sanitize_distinct (p q : String) (hp : '_' ∉ p.data) (hq : '_' ∉ q.data)
    (hne : trimSlash p ≠ trimSlash q) :
    sanitize p ≠ sanitize q ∧
      ∀ keys : List String, (∀ k ∈ keys, '_' ∉ k.data) → (keys.map trimSlash).Nodup →
        (keys.map sanitize).Nodup := by
  refine ⟨fun h => hne (sanitize_inj_of_no_underscore hp hq h), ?_⟩
  intro keys hk hnd
  have hnd' : keys.Nodup := List.Nodup.of_map _ hnd
  refine List.Nodup.map_on ?_ hnd'
  intro x hx y hy hxy
  have ht := sanitize_inj_of_no_underscore (hk x hx) (hk y hy) hxy
  exact List.inj_on_of_nodup_map hnd hx hy ht

/-- Witness for C20 as amended: `/mnt` and `/data`. -/
theorem sanitize_distinct_witness : sanitize "/mnt" ≠ sanitize "/data" :=
  (sanitize_distinct "/mnt" "/data" (by decide) (by decide) (by decide)).1

/-! ## Lemmas: the snapshot store -/

theorem F64.toInt64_ofInt (t : Int) (h1 : -2 ^ 63 ≤ t) (h2 : t < 2 ^ 63) :
    F64.toInt64 (F64.ofInt t) = t := by
  unfold F64.toInt64 F64.ofInt
  simp only [Rat.intCast_num, Rat.intCast_den, Nat.cast_one, Int.ediv_one, neg_neg, ite_self]
  rw [if_pos ⟨h1, h2⟩]

/-! ## Lemmas: decimal digits -/

theorem digitChar_toNat (d : Nat) (h : d < 10) : (Char.ofNat (48 + d)).toNat = 48 + d := by
  interval_cases d <;> rfl

theorem digitChar_isDigit (d : Nat) (h : d < 10) : (Char.ofNat (48 + d)).isDigit = true := by
  interval_cases d <;> rfl

theorem digitChar_ne_zero (d : Nat) (h : d < 10) (h0 : d ≠ 0) : Char.ofNat (48 + d) ≠ '0' := by
  interval_cases d <;> first | exact absurd rfl h0 | decide

theorem digitsAux_append (fuel n : Nat) (acc : List Char) :
    digitsAux fuel n acc = digitsAux fuel n [] ++ acc := by
  induction fuel generalizing n acc with
  | zero => rfl
  | succ fuel ih =>
    simp only [digitsAux]
    split_ifs
    · rfl
    · rw [ih (n / 10) (_ :: acc), ih (n / 10) [_]]
      simp

theorem parseNat_append_one (l : List Char) (c : Char) :
    parseNat (l ++ [c]) = 10 * parseNat l + (c.toNat - 48) := by
  simp [parseNat, List.foldl_append]

/-- The digits of `n`: they denote `n`, they are decimal digits, there is at least one, and the
first one is `0` for `n = 0` only. -/
theorem digitsAux_spec (fuel n : Nat) (h : n < fuel) :
    parseNat (digitsAux fuel n []) = n ∧ (∀ c ∈ digitsAux fuel n [], c.isDigit = true) ∧
      (∃ c cs, digitsAux fuel n [] = c :: cs ∧ (n ≠ 0 → c ≠ '0')) := by
  induction fuel generalizing n with
  | zero => omega
  | succ fuel ih =>
    simp only [digitsAux]
    by_cases h10 : n < 10
    · rw [if_pos h10]
      refine ⟨?_, ?_, _, _, rfl, digitChar_ne_zero n h10⟩
      · simp [parseNat, digitChar_toNat n h10]
      · intro c hc
        rw [List.mem_singleton] at hc
        rw [hc]; exact digitChar_isDigit n h10
    · rw [if_neg h10, digitsAux_append]
      have hlt : n / 10 < fuel := by omega
      have hmod : n % 10 < 10 := Nat.mod_lt _ (by decide)
      obtain ⟨h1, h2, c, cs, h3, h4⟩ := ih (n / 10) hlt
      refine ⟨?_, ?_, c, cs ++ [Char.ofNat (48 + n % 10)], by rw [h3]; rfl, ?_⟩
      · rw [parseNat_append_one, h1, digitChar_toNat _ hmod]
        omega
      · intro x hx
        rcases List.mem_append.mp hx with m | m
        · exact h2 x m
        · rw [List.mem_singleton] at m
          rw [m]; exact digitChar_isDigit _ hmod
      · intro _
        exact h4 (by omega)

theorem natDigits_spec (n : Nat) :
    parseNat (natDigits n) = n ∧ (∀ c ∈ natDigits n, c.isDigit = true) ∧
      (∃ c cs, natDigits n = c :: cs ∧ (n ≠ 0 → c ≠ '0')) :=
  digitsAux_spec (n + 1) n (Nat.lt_succ_self n)

theorem natDigits_zero : natDigits 0 = ['0'] := rfl

theorem takeWhile_append_stop {p : Char → Bool} (l : List Char) (c : Char) (r : List Char)
    (hl : ∀ x ∈ l, p x = true) (hc : p c = false) :
    (l ++ c :: r).takeWhile p = l ∧ (l ++ c :: r).dropWhile p = c :: r := by
  induction l with
  | nil => simp [List.takeWhile, List.dropWhile, hc]
  | cons a l ih =>
    have ha := hl a (List.mem_cons_self _ _)
    obtain ⟨h1, h2⟩ := ih (fun x hx => hl x (List.mem_cons_of_mem _ hx))
    simp [List.takeWhile, List.dropWhile, ha, h1, h2]

/-! ## Lemmas: JSON numbers -/

theorem isDigit_ne {d c : Char} (hd : d.isDigit = true) (hc : c.isDigit = false) : d ≠ c := by
  rintro rfl
  rw [hd] at hc
  cases hc

theorem readNumber_digits (neg : Bool) (d : Char) (ds : List Char) (c : Char) (r : List Char)
    (hd : ∀ x ∈ d :: ds, x.isDigit = true) (h0 : d = '0' → ds = [])
    (hc : c.isDigit = false) (h1 : c ≠ '.') (h2 : c ≠ 'e') (h3 : c ≠ 'E')
    (hb : parseNat (d :: ds) ≤ 2 ^ 53) :
    readNumber ((if neg = true then ['-'] else []) ++ (d :: ds) ++ c :: r) =
      .ok (if neg = true then
          (if parseNat (d :: ds) = 0 then F64.nzero else F64.fin (-(parseNat (d :: ds) : ℚ)))
        else F64.fin (parseNat (d :: ds) : ℚ), c :: r) := by
  obtain ⟨t1, t2⟩ := takeWhile_append_stop (d :: ds) c r hd hc
  have hdm : d ≠ '-' := isDigit_ne (hd d (List.mem_cons_self _ _)) (by decide)
  have hlz : ¬ (d = '0' ∧ 1 < (d :: ds).length) := by
    rintro ⟨e, hl⟩
    rw [h0 e] at hl
    simp at hl
  have hbig : ¬ (2 ^ 53 < parseNat (d :: ds)) := by omega
  cases neg with
  | true =>
    simp only [if_true, List.singleton_append, List.cons_append, List.append_assoc]
    unfold readNumber
    simp only [List.head?_cons, List.tail_cons, if_true, List.nil_append, decide_True]
    rw [show d :: (ds ++ c :: r) = (d :: ds) ++ c :: r from rfl, t1, t2]
    simp only [List.head?_cons, Option.some.injEq, h1, h2, h3, or_self, if_false, hbig,
      List.cons_ne_nil, hlz, decide_True, decide_False]
  | false =>
    simp only [Bool.false_eq_true, if_false, List.nil_append, List.cons_append]
    unfold readNumber
    simp only [List.head?_cons, Option.some.injEq, hdm, decide_False, Bool.false_eq_true,
      if_false]
    rw [show d :: (ds ++ c :: r) = (d :: ds) ++ c :: r from rfl, t1, t2]
    simp only [List.head?_cons, Option.some.injEq, h1, h2, h3, or_self, if_false, hbig,
      List.cons_ne_nil, hlz, decide_True, decide_False]

theorem natAbs_cast_of_nonneg (z : Int) (h : ¬ z < 0) : ((z.natAbs : ℕ) : ℚ) = (z : ℚ) := by
  have : (z.natAbs : Int) = z := by omega
  rw [← Int.cast_natCast, this]

theorem natAbs_cast_of_neg (z : Int) (h : z < 0) : -((z.natAbs : ℕ) : ℚ) = (z : ℚ) := by
  have : (z.natAbs : Int) = -z := by omega
  rw [← Int.cast_natCast, this]
  simp

theorem F64.isWhole_of_jsonNumber {v : F64} {t : List Char} (h : jsonNumber v = .ok t) :
    v.isWhole = true := by
  cases v with
  | nan => simp [jsonNumber] at h
  | inf n => cases n <;> simp [jsonNumber] at h
  | nzero => rfl
  | fin q =>
    simp only [jsonNumber] at h
    by_cases hq : q.den = 1 ∧ q.num.natAbs ≤ 2 ^ 53
    · simpa [F64.isWhole] using hq
    · rw [if_neg hq] at h; cases h

theorem jsonNumber_of_isWhole {v : F64} (h : v.isWhole = true) :
    ∃ t, jsonNumber v = .ok t := by
  cases v with
  | nan => simp [F64.isWhole] at h
  | inf n => simp [F64.isWhole] at h
  | nzero => exact ⟨_, rfl⟩
  | fin q =>
    simp only [F64.isWhole, decide_eq_true_eq] at h
    exact ⟨_, by simp only [jsonNumber]; rw [if_pos h]⟩

/-- Reading back the text of a number gives the number, and the text starts with no white
space. -/
theorem readNumber_jsonNumber (v : F64) (t : List Char) (h : jsonNumber v = .ok t)
    (c : Char) (r : List Char) (hc : c.isDigit = false) (h1 : c ≠ '.') (h2 : c ≠ 'e')
    (h3 : c ≠ 'E') :
    readNumber (t ++ c :: r) = .ok (v, c :: r) ∧
      ∃ d ds, t = d :: ds ∧ isJsonSpace d = false := by
  cases v with
  | nan => simp [jsonNumber] at h
  | inf n => cases n <;> simp [jsonNumber] at h
  | nzero =>
    simp only [jsonNumber, Except.ok.injEq] at h
    subst h
    refine ⟨?_, _, _, rfl, by decide⟩
    have := readNumber_digits true '0' [] c r (by decide) (fun _ => rfl) hc h1 h2 h3 (by decide)
    simpa [parseNat] using this
  | fin q =>
    simp only [jsonNumber] at h
    by_cases hq : q.den = 1 ∧ q.num.natAbs ≤ 2 ^ 53
    · rw [if_pos hq] at h
      simp only [Except.ok.injEq] at h
      obtain ⟨hp, hdig, d, ds, e, hz⟩ := natDigits_spec q.num.natAbs
      have hqv : (q.num : ℚ) = q := Rat.coe_int_num_of_den_eq_one hq.1
      have hz0 : d = '0' → ds = [] := by
        intro hd0
        by_contra hne
        by_cases hn : q.num.natAbs = 0
        · rw [hn, natDigits_zero] at e
          cases e
          exact hne rfl
        · exact hz hn hd0
      rw [e] at hp hdig
      by_cases hneg : q.num < 0
      · rw [if_pos hneg, e] at h
        subst h
        refine ⟨?_, _, _, rfl, by decide⟩
        have := readNumber_digits true d ds c r hdig hz0 hc h1 h2 h3 (by rw [hp]; exact hq.2)
        simp only [if_true, List.singleton_append, List.cons_append, List.append_assoc,
          List.nil_append] at this
        rw [List.cons_append, List.cons_append, this, hp]
        have hn0 : q.num.natAbs ≠ 0 := by omega
        rw [if_neg hn0, natAbs_cast_of_neg _ hneg, hqv]
      · rw [if_neg hneg, e] at h
        subst h
        have hdd : d.isDigit = true := hdig d (List.mem_cons_self _ _)
        refine ⟨?_, _, _, rfl, ?_⟩
        · have := readNumber_digits false d ds c r hdig hz0 hc h1 h2 h3 (by rw [hp]; exact hq.2)
          simp only [Bool.false_eq_true, if_false, List.nil_append] at this
          rw [this, hp, natAbs_cast_of_nonneg _ hneg, hqv]
        · cases hs : isJsonSpace d with
          | false => rfl
          | true =>
            exfalso
            simp only [isJsonSpace, decide_eq_true_eq] at hs
            rcases hs with hs | hs | hs | hs <;> subst hs <;> exact absurd hdd (by decide)
    · rw [if_neg hq] at h; cases h

/-! ## Lemmas: JSON strings -/

theorem hexVal_hexDigit (d : Nat) (h : d < 16) : hexVal (hexDigit d) = some d := by
  interval_cases d <;> rfl

theorem readString_hex4 (n : Nat) (hn : n < 65536) (hs : ¬ (55296 ≤ n ∧ n ≤ 57343))
    (out tail : List Char) :
    readString StrState.plain out ('\\' :: 'u' :: hexDigit (n / 4096) ::
      hexDigit (n / 256 % 16) :: hexDigit (n / 16 % 16) :: hexDigit (n % 16) :: tail) =
      readString StrState.plain (Char.ofNat n :: out) tail := by
  have e : ((0 * 16 + n / 4096) * 16 + n / 256 % 16) * 16 + n / 16 % 16 = n / 16 := by omega
  have e2 : n / 16 * 16 + n % 16 = n := by omega
  have a1 : hexVal (hexDigit (n / 4096)) = some (n / 4096) := hexVal_hexDigit _ (by omega)
  have a2 : hexVal (hexDigit (n / 256 % 16)) = some (n / 256 % 16) := hexVal_hexDigit _ (by omega)
  have a3 : hexVal (hexDigit (n / 16 % 16)) = some (n / 16 % 16) := hexVal_hexDigit _ (by omega)
  have a4 : hexVal (hexDigit (n % 16)) = some (n % 16) := hexVal_hexDigit _ (by omega)
  have q1 : ('\\' : Char) ≠ '"' := by decide
  have q2 : ¬ (('u' : Char) = '"' ∨ ('u' : Char) = '\\' ∨ ('u' : Char) = '/') := by decide
  have q3 : ('u' : Char) ≠ 'b' ∧ ('u' : Char) ≠ 'f' ∧ ('u' : Char) ≠ 'n' ∧ ('u' : Char) ≠ 'r' ∧
      ('u' : Char) ≠ 't' := by decide
  rw [readString, if_neg q1, if_pos rfl, readString, if_neg q2, if_neg q3.1, if_neg q3.2.1,
    if_neg q3.2.2.1, if_neg q3.2.2.2.1, if_neg q3.2.2.2.2, if_pos rfl]
  rw [readString, a1]
  simp only []
  rw [if_neg (by decide), readString, a2]
  simp only []
  rw [if_neg (by decide), readString, a3]
  simp only []
  rw [if_neg (by decide), readString, a4]
  simp only []
  rw [if_pos (by decide), e, e2, if_neg hs]

theorem readString_short (e c : Char) (out tail : List Char)
    (h : readString StrState.esc out (e :: tail) = readString StrState.plain (c :: out) tail) :
    readString StrState.plain out ('\\' :: e :: tail) =
      readString StrState.plain (c :: out) tail := by
  rw [readString, if_neg (by decide), if_pos rfl, h]

/-- Reading the escaped form of a character gives the character. -/
theorem readString_escapeChar (c : Char) (out tail : List Char) :
    readString StrState.plain out (escapeChar c ++ tail) =
      readString StrState.plain (c :: out) tail := by
  unfold escapeChar
  by_cases h1 : c = '"'
  · subst h1; exact readString_short _ _ _ _ rfl
  by_cases h2 : c = '\\'
  · subst h2; exact readString_short _ _ _ _ rfl
  by_cases h3 : c = '\n'
  · subst h3; exact readString_short _ _ _ _ rfl
  by_cases h4 : c = '\r'
  · subst h4; exact readString_short _ _ _ _ rfl
  by_cases h5 : c = '\t'
  · subst h5; exact readString_short _ _ _ _ rfl
  rw [if_neg h1, if_neg h2, if_neg h3, if_neg h4, if_neg h5]
  by_cases h6 : c.toNat < 32 ∨ c = '<' ∨ c = '>' ∨ c = '&' ∨ c.toNat = 8232 ∨ c.toNat = 8233
  · rw [if_pos h6]
    have hb : c.toNat < 65536 ∧ ¬ (55296 ≤ c.toNat ∧ c.toNat ≤ 57343) := by
      rcases h6 with h | h | h | h | h | h
      · omega
      · subst h; decide
      · subst h; decide
      · subst h; decide
      · omega
      · omega
    have := readString_hex4 c.toNat hb.1 hb.2 out tail
    rw [Char.ofNat_toNat] at this
    exact this
  · rw [if_neg h6]
    have h7 : ¬ c.toNat < 32 := fun h => h6 (Or.inl h)
    show readString StrState.plain out (c :: tail) = _
    rw [readString, if_neg h1, if_neg h2, if_neg h7]

/-- Reading a string literal gives the string and the text behind the closing quote. -/
theorem readString_flatMap (s : List Char) (out rest : List Char) :
    readString StrState.plain out (s.flatMap escapeChar ++ '"' :: rest) =
      some (out.reverse ++ s, rest) := by
  induction s generalizing out with
  | nil =>
    show readString StrState.plain out ('"' :: rest) = _
    rw [readString, if_pos rfl]
    simp
  | cons c s ih =>
    rw [List.flatMap_cons, List.append_assoc, readString_escapeChar, ih]
    simp

theorem readString_quote (k : String) (rest : List Char) :
    ∃ r, quote k ++ rest = '"' :: r ∧ readString StrState.plain [] r = some (k.data, rest) := by
  refine ⟨k.data.flatMap escapeChar ++ '"' :: rest, by simp [quote], ?_⟩
  rw [readString_flatMap]
  rfl

/-! ## Lemmas: JSON objects -/

theorem skipWs_cons (c : Char) (r : List Char) (h : isJsonSpace c = false) :
    skipWs (c :: r) = c :: r := by
  simp [skipWs, List.dropWhile, h]

/-- Reading one member and the character behind it. -/
theorem readMembers_step (fuel : Nat) (k : String) (v : F64) (t : List Char)
    (hv : jsonNumber v = .ok t) (c : Char) (r : List Char) (hc : c = ',' ∨ c = '}')
    (acc : Stats) :
    readMembers (fuel + 1) (quote k ++ ':' :: (t ++ c :: r)) acc =
      if c = ',' then readMembers fuel r (acc.insert k v) else .ok (acc.insert k v) := by
  obtain ⟨r1, e1, hr1⟩ := readString_quote k (':' :: (t ++ c :: r))
  have hcd : c.isDigit = false ∧ c ≠ '.' ∧ c ≠ 'e' ∧ c ≠ 'E' ∧ isJsonSpace c = false := by
    rcases hc with h | h <;> subst h <;> decide
  obtain ⟨hnum, d, ds, et, hd⟩ := readNumber_jsonNumber v t hv c r hcd.1 hcd.2.1 hcd.2.2.1
    hcd.2.2.2.1
  have hsk : skipWs (t ++ c :: r) = t ++ c :: r := by
    rw [et]; exact skipWs_cons _ _ hd
  rw [e1, readMembers, skipWs_cons _ _ (by decide)]
  simp only [ne_eq, not_true_eq_false, if_false, hr1]
  rw [skipWs_cons _ _ (by decide)]
  simp only [ne_eq, not_true_eq_false, if_false, hsk, hnum]
  rw [skipWs_cons _ _ hcd.2.2.2.2]
  rcases hc with h | h
  · subst h; simp
  · subst h; simp

theorem jsonMembers_cons {e : Sigma (fun _ : String => F64)}
    {es : List (Sigma (fun _ : String => F64))} {ts : List (List Char)}
    (h : jsonMembers (e :: es) = .ok ts) :
    ∃ t ts', jsonNumber e.2 = .ok t ∧ jsonMembers es = .ok ts' ∧
      ts = (quote e.1 ++ ':' :: t) :: ts' := by
  simp only [jsonMembers, jsonMember] at h
  cases h1 : jsonNumber e.2 with
  | error err => simp [h1] at h
  | ok t =>
    cases h2 : jsonMembers es with
    | error err => simp [h1, h2] at h
    | ok ts' =>
      simp only [h1, h2, Except.ok.injEq] at h
      exact ⟨t, ts', rfl, rfl, h.symm⟩

theorem jsonMembers_length {es : List (Sigma (fun _ : String => F64))} {ts : List (List Char)}
    (h : jsonMembers es = .ok ts) : ts.length = es.length := by
  induction es generalizing ts with
  | nil => simp only [jsonMembers, Except.ok.injEq] at h; subst h; rfl
  | cons e es ih =>
    obtain ⟨t, ts', _, h2, rfl⟩ := jsonMembers_cons h
    simp [ih h2]

/-- Reading the members that were written stores every one of them. -/
theorem readMembers_jsonMembers (es : List (Sigma (fun _ : String => F64)))
    (ts : List (List Char)) (h : jsonMembers es = .ok ts) (hne : es ≠ []) (fuel : Nat)
    (hf : es.length ≤ fuel) (acc : Stats) (tail : List Char) :
    readMembers fuel (joinMembers ts ++ '}' :: tail) acc =
      .ok (es.foldl (fun m e => m.insert e.1 e.2) acc) := by
  induction es generalizing ts fuel acc with
  | nil => exact absurd rfl hne
  | cons e es ih =>
    obtain ⟨t, ts', hv, h2, rfl⟩ := jsonMembers_cons h
    obtain ⟨fuel, rfl⟩ : ∃ f, fuel = f + 1 := ⟨fuel - 1, by simp at hf; omega⟩
    cases es with
    | nil =>
      simp only [jsonMembers, Except.ok.injEq] at h2
      subst h2
      have := readMembers_step fuel e.1 e.2 t hv '}' tail (Or.inr rfl) acc
      simpa [joinMembers] using this
    | cons e2 es2 =>
      obtain ⟨t2, ts2, _, _, rfl⟩ := jsonMembers_cons h2
      have := readMembers_step fuel e.1 e.2 t hv ','
        (joinMembers ((quote e2.1 ++ ':' :: t2) :: ts2) ++ '}' :: tail) (Or.inl rfl) acc
      rw [if_pos rfl, ih _ h2 (by simp) fuel (by simp at hf ⊢; omega)] at this
      simpa [joinMembers] using this

theorem joinMembers_length (ts : List (List Char)) : ts.length ≤ (joinMembers ts).length + 1 := by
  induction ts with
  | nil => simp
  | cons t ts ih =>
    cases ts with
    | nil => simp [joinMembers]
    | cons t2 ts2 =>
      simp only [joinMembers, List.length_cons, List.length_append] at ih ⊢
      omega

theorem F64.isWhole_ofInt (t : Int) (h1 : -2 ^ 53 ≤ t) (h2 : t ≤ 2 ^ 53) :
    (F64.ofInt t).isWhole = true := by
  simp only [F64.ofInt, F64.isWhole, Rat.intCast_den, Rat.intCast_num, true_and,
    decide_eq_true_eq]
  omega

theorem lookup_foldl_insert (l : List (Sigma (fun _ : String => F64))) (hl : l.NodupKeys)
    (acc : Stats) (k : String) :
    (l.foldl (fun m e => m.insert e.1 e.2) acc).lookup k =
      (l.dlookup k).orElse (fun _ => acc.lookup k) := by
  induction l generalizing acc with
  | nil => simp
  | cons e l ih =>
    obtain ⟨k0, v0⟩ := e
    rw [List.nodupKeys_cons] at hl
    rw [List.foldl_cons, ih hl.2]
    by_cases hk : k = k0
    · subst hk
      have : l.dlookup k = none := List.dlookup_eq_none.mpr hl.1
      simp [this]
    · rw [List.dlookup_cons_ne _ _ hk, AList.lookup_insert_ne hk]

theorem jsonMembers_ok (es : List (Sigma (fun _ : String => F64)))
    (h : ∀ e ∈ es, e.2.isWhole = true) : ∃ ts, jsonMembers es = .ok ts := by
  induction es with
  | nil => exact ⟨[], rfl⟩
  | cons e es ih =>
    obtain ⟨t, ht⟩ := jsonNumber_of_isWhole (h e (List.mem_cons_self _ _))
    obtain ⟨ts, hts⟩ := ih (fun x hx => h x (List.mem_cons_of_mem _ hx))
    exact ⟨(quote e.1 ++ ':' :: t) :: ts, by simp only [jsonMembers, jsonMember, ht, hts]⟩

/-- The round trip of the JSON text: a map of whole numbers is written without error, and
reading the text gives, without error, the same keys with the same values. -/
theorem jsonDecode_jsonEncode (m : Stats) (hm : ∀ e ∈ m.entries, e.2.isWhole = true) :
    ∃ c, jsonEncode m = .ok c ∧ (jsonDecode c).2 = none ∧
      ∀ k, (jsonDecode c).1.lookup k = m.lookup k := by
  have hperm := List.perm_insertionSort (fun a b : Sigma (fun _ : String => F64) => a.1 ≤ b.1)
    m.entries
  generalize hes : m.entries.insertionSort (fun a b => a.1 ≤ b.1) = es at hperm
  have hw : ∀ e ∈ es, e.2.isWhole = true := fun e he => hm e (hperm.mem_iff.mp he)
  have hnd : es.NodupKeys := (List.perm_nodupKeys hperm).mpr m.nodupKeys
  have hlook : ∀ k, es.dlookup k = m.lookup k := fun k => List.perm_dlookup k hnd m.nodupKeys hperm
  obtain ⟨ts, hts⟩ := jsonMembers_ok es hw
  refine ⟨String.mk ('{' :: (joinMembers ts ++ ['}', '\n'])), by simp only [jsonEncode, hes, hts],
    ?_⟩
  cases es with
  | nil =>
    simp only [jsonMembers, Except.ok.injEq] at hts
    subst hts
    have hd : jsonDecode (String.mk ('{' :: (joinMembers [] ++ ['}', '\n']))) = (∅, none) := rfl
    rw [hd]
    refine ⟨rfl, fun k => ?_⟩
    rw [← hlook k]
    rfl
  | cons e es' =>
    obtain ⟨t, ts', hv, h2, rfl⟩ := jsonMembers_cons hts
    obtain ⟨r, er, _⟩ := readString_quote e.1 (':' :: t)
    have hfuel : (e :: es').length ≤
        ('{' :: (joinMembers ((quote e.1 ++ ':' :: t) :: ts') ++ ['}', '\n'])).length := by
      have h1 := joinMembers_length ((quote e.1 ++ ':' :: t) :: ts')
      have h3 := jsonMembers_length hts
      simp only [List.length_cons, List.length_append] at h1 h3 ⊢
      omega
    have hread := readMembers_jsonMembers (e :: es') _ hts (by simp) _ hfuel ∅ ['\n']
    have hstart : ∃ r', joinMembers ((quote e.1 ++ ':' :: t) :: ts') ++ ['}', '\n'] = '"' :: r' := by
      cases ts' with
      | nil => exact ⟨_, by simp [joinMembers, quote]; rfl⟩
      | cons t2 ts2 => exact ⟨_, by simp [joinMembers, quote]; rfl⟩
    obtain ⟨r', hr'⟩ := hstart
    have hd : jsonDecode (String.mk ('{' :: (joinMembers ((quote e.1 ++ ':' :: t) :: ts') ++
        ['}', '\n']))) = ((e :: es').foldl (fun (m : Stats) x => m.insert x.1 x.2) ∅, none) := by
      unfold jsonDecode
      simp only []
      rw [skipWs_cons _ _ (by decide)]
      simp only [if_true]
      rw [hr'] at hread ⊢
      rw [skipWs_cons _ _ (by decide)]
      simp only [show ('"' : Char) ≠ '}' by decide, if_false, hread]
    rw [hd]
    refine ⟨rfl, fun k => ?_⟩
    show ((e :: es').foldl (fun (m : Stats) x => m.insert x.1 x.2) ∅).lookup k = _
    rw [lookup_foldl_insert _ hnd, hlook k]
    cases m.lookup k <;> rfl

/-! ## Claims about the snapshot store -/

theorem whole_of_entries (m : Stats) (h : ∀ e ∈ m.entries, e.2.isWhole = true) :
    ∀ k v, k ≠ "_lastTime" → m.lookup k = some v → v.isWhole = true :=
  fun k v _ hk => h ⟨k, v⟩ (AList.mem_lookup_iff.mp hk)

/-- C12 as amended: for a snapshot `S` whose counters are whole numbers of size at most `2^53`
and a capture time `t` of size at most `2^53`, `saveValues(S, t)` writes the JSON text without
error, and `fetchLastValues` on the same tempfile then reads it without error. The mapping it
returns is `S` with the reserved key `_lastTime` set to `t`: every other key of `S` is read
back with its value, `_lastTime` holds `t`, and there is no other key; this is the map that
`saveValues` has left in the hands of its caller. The capture time it returns is `t`. -/
theorem save_then_fetch (S : Stats) (t : Int) (file : TempFile) (clock : Int)
    (hS : ∀ k v, k ≠ "_lastTime" → S.lookup k = some v → v.isWhole = true)
    (ht1 : -2 ^ 53 ≤ t) (ht2 : t ≤ 2 ^ 53) :
    (saveValues file none S t).2.2 = none ∧
      (fetchLastValues (saveValues file none S t).2.1 clock).2.2 = none ∧
      (∀ k, k ≠ "_lastTime" →
        (fetchLastValues (saveValues file none S t).2.1 clock).1.lookup k = S.lookup k) ∧
      (fetchLastValues (saveValues file none S t).2.1 clock).1.lookup "_lastTime" =
        some (F64.ofInt t) ∧
      (∀ k, (fetchLastValues (saveValues file none S t).2.1 clock).1.lookup k =
        (saveValues file none S t).1.lookup k) ∧
      (fetchLastValues (saveValues file none S t).2.1 clock).2.1 = t := by
  have hm : ∀ e ∈ (S.insert "_lastTime" (F64.ofInt t)).entries, e.2.isWhole = true := by
    intro e he
    obtain ⟨k, v⟩ := e
    have hk := AList.mem_lookup_iff.mpr he
    by_cases e : k = "_lastTime"
    · subst e
      rw [AList.lookup_insert] at hk
      cases hk
      exact F64.isWhole_ofInt t ht1 ht2
    · rw [AList.lookup_insert_ne e] at hk
      exact hS k v e hk
  obtain ⟨c, henc, hdec, hlook⟩ := jsonDecode_jsonEncode _ hm
  have hsave : saveValues file none S t =
      (S.insert "_lastTime" (F64.ofInt t), TempFile.content c, none) := by
    simp [saveValues, henc]
  have hlast : (jsonDecode c).1.lookup "_lastTime" = some (F64.ofInt t) := by
    rw [hlook, AList.lookup_insert]
  rw [hsave]
  refine ⟨rfl, hdec, ?_, hlast, hlook, ?_⟩
  · intro k hk
    show (jsonDecode c).1.lookup k = _
    rw [hlook, AList.lookup_insert_ne hk]
  · show F64.toInt64 ((jsonDecode c).1.get "_lastTime") = t
    rw [Stats.get, hlast]
    exact F64.toInt64_ofInt t (by omega) (by omega)

/-- Witness for C12 as amended: the record of `TestFetchLastValues`, saved at the time of the
test, is read back without error with the capture time 1536731160, `ops.mnt.read = 42906` and
`ops.mnt.write = 60012`. -/
theorem save_then_fetch_witness :
    (fetchLastValues (saveValues TempFile.missing none testRecord testLastTime).2.1 0).2.2 =
        none ∧
      (fetchLastValues (saveValues TempFile.missing none testRecord testLastTime).2.1 0).2.1 =
        1536731160 ∧
      (fetchLastValues (saveValues TempFile.missing none testRecord testLastTime).2.1 0).1.lookup
        "ops.mnt.read" = some (F64.fin 42906) ∧
      (fetchLastValues (saveValues TempFile.missing none testRecord testLastTime).2.1 0).1.lookup
        "ops.mnt.write" = some (F64.fin 60012) := by
  have h := save_then_fetch testRecord testLastTime TempFile.missing 0
    (whole_of_entries testRecord (by decide!)) (by decide) (by decide)
  exact ⟨h.2.1, h.2.2.2.2.2, (h.2.2.1 "ops.mnt.read" (by decide)).trans (by decide),
    (h.2.2.1 "ops.mnt.write" (by decide)).trans (by decide)⟩

/-- Counterexample to C12: the record of `TestFetchLastValues` has no key `_lastTime`. Saving
it at the time 1536731160 writes the text shown, and what `fetchLastValues` then returns has the
key `_lastTime`, with the value 1536731160: the mapping read back is not the snapshot that was
given to `saveValues`, it has one key more. -/
theorem fetched_map_has_lastTime :
    testRecord.lookup "_lastTime" = none ∧
      (saveValues TempFile.missing none testRecord testLastTime).2.1 = TempFile.content
        "\x7b\"_lastTime\":1536731160,\"ops.mnt.read\":42906,\"ops.mnt.write\":60012\x7d\n" ∧
      (fetchLastValues (saveValues TempFile.missing none testRecord testLastTime).2.1 0).2.2 =
        none ∧
      (fetchLastValues (saveValues TempFile.missing none testRecord testLastTime).2.1 0).1.lookup
        "_lastTime" = some (F64.fin 1536731160) ∧
      (fetchLastValues (saveValues TempFile.missing none testRecord testLastTime).2.1 0).1 ≠
        testRecord := by
  have h1 : testRecord.lookup "_lastTime" = none := by decide
  have h2 : (fetchLastValues
      (saveValues TempFile.missing none testRecord testLastTime).2.1 0).1.lookup
        "_lastTime" = some (F64.fin 1536731160) := by decide!
  refine ⟨h1, by decide!, by decide!, h2, ?_⟩
  intro h
  rw [h, h1] at h2
  cases h2

end MpNfs
